import Mathlib

/-!
# Battleship: board state engine and position codec

A shallow embedding of `board.go` of stewi1014/battleship.

* Go `int` coordinates are `Int`.  Every addition the embedded code performs on a
  coordinate happens after the coordinate was checked to lie in `[0, 10)`, so the
  unbounded integers agree with 64-bit arithmetic there; the two places where the
  source computes on an unchecked integer (`x--` in `ParsePosition`, `x+1` and
  `rune(y)` in `FormatPosition`) wrap explicitly.
* A board cell is a Go `byte`, kept as a `Nat`.  The code only ever stores one of the
  five ship constants or ors one of the flags `1`, `2`, `4` into a cell, so no cell
  operation overflows a byte.  Theorems quantify over all `Nat`-valued grids, which
  include every byte grid.
* `none` in a result of type `Option _` stands for "no result": a runtime panic
  (index out of range) or, for the unbounded loops of `IsSunk`, exhausted fuel.
* Text is a list of characters (`Char`, a Unicode code point): a Go string of valid
  UTF-8.  `strings.ToLower` and `strings.TrimSpace` are embedded rune by rune, with Go's
  `unicode.ToLower` and `unicode.IsSpace`; indexing and slicing (`location[0]`,
  `location[1:]`) and `strconv.Atoi` work on the UTF-8 bytes of the text.
  `strings.ToLower` reads a byte that is not part of valid UTF-8 as U+FFFD, so a string
  that holds such bytes is parsed as the text with U+FFFD in their place.
-/

namespace Battleship

/-! ## Constants -/

/-- Flag: the player has fired at this cell (`1 << 0`). -/
abbrev playerShot : Nat := 1
/-- Flag: the player's shot at this cell was a hit (`1 << 1`). -/
abbrev playerHit : Nat := 2
/-- Flag: the opponent has fired at this cell (`1 << 2`). -/
abbrev opponentHit : Nat := 4

/-- The three high bits of a cell: `(1<<8 - 1) &^ (1<<5 - 1)`. -/
abbrev shipMask : Nat := 224
abbrev shipCarrier : Nat := 32
abbrev shipBattleship : Nat := 64
abbrev shipDestroyer : Nat := 96
abbrev shipSubmarine : Nat := 128
abbrev shipPatrolBoat : Nat := 160

/-- Directions: `up = 1 + iota`, then `down`, `left`, `right`. -/
abbrev up : Int := 1
abbrev down : Int := 2
abbrev left : Int := 3
abbrev right : Int := 4

abbrev boardSize : Int := 10

/-- IsValid returns true if the given coordinates are a location on the board. -/
def IsValid (x y : Int) : Bool :=
  if x < 0 || x ≥ boardSize then false
  else if y < 0 || y ≥ boardSize then false
  else true

/-! ## Board -/

/-- Board is `[boardSize][boardSize]byte`; `cells x y` is `b[x][y]`. -/
@[ext] structure Board where
  cells : Fin 10 → Fin 10 → Nat

/-- The zero value `var b Board`. -/
def Board.empty : Board := ⟨fun _ _ => 0⟩

/-- Reading `b[x][y]`: an index outside the array panics. -/
def Board.get (b : Board) (x y : Int) : Option Nat :=
  if h : 0 ≤ x ∧ x < 10 ∧ 0 ≤ y ∧ y < 10 then
    some (b.cells ⟨x.toNat, by omega⟩ ⟨y.toNat, by omega⟩)
  else none

/-- Writing `b[x][y] = v`: an index outside the array panics. -/
def Board.set (b : Board) (x y : Int) (v : Nat) : Option Board :=
  if 0 ≤ x ∧ x < 10 ∧ 0 ≤ y ∧ y < 10 then
    some ⟨fun i j => if (i.val : Int) = x ∧ (j.val : Int) = y then v else b.cells i j⟩
  else none

/-- Clear clears the board. -/
def Board.Clear (_b : Board) : Board := ⟨fun _ _ => 0⟩

/-- The errors `PlaceShip` can return. -/
inductive PlaceError where
  | invalidShipType
  | invalidDirection
  | offBoard
  | occupied (ix iy : Int)
  deriving DecidableEq, Repr

/-- The first `switch` of `PlaceShip`: the length of a ship type, `none` in the
`default` branch. -/
def PlaceShip.length (shipType : Nat) : Option Nat :=
  if shipType = shipCarrier then some 5
  else if shipType = shipBattleship then some 4
  else if shipType = shipDestroyer then some 3
  else if shipType = shipSubmarine then some 3
  else if shipType = shipPatrolBoat then some 2
  else none

/-- The second `switch` of `PlaceShip`: the vector `(mx, my)` of a direction, `none` in
the `default` branch. -/
def PlaceShip.vector (direction : Int) : Option (Int × Int) :=
  if direction = left then some (-1, 0)
  else if direction = right then some (1, 0)
  else if direction = down then some (0, -1)
  else if direction = up then some (0, 1)
  else none

/-- The checking loop of `PlaceShip`, `n` iterations left, at `(ix, iy)`:
the error it returns with, or `none` when it runs to its end. -/
def PlaceShip.check (b : Board) (mx my : Int) : Nat → Int → Int → Option (Option PlaceError)
  | 0, _, _ => some none
  | n + 1, ix, iy =>
    if !IsValid ix iy then some (some .offBoard)
    else
      match b.get ix iy with
      | none => none
      | some c =>
        if c &&& shipMask > 0 then some (some (.occupied ix iy))
        else PlaceShip.check b mx my n (ix + mx) (iy + my)

/-- The writing loop of `PlaceShip`, `n` iterations left, at `(x, y)`. -/
def PlaceShip.write (shipType : Nat) (mx my : Int) : Nat → Board → Int → Int → Option Board
  | 0, b, _, _ => some b
  | n + 1, b, x, y =>
    match b.set x y shipType with
    | none => none
    | some b1 => PlaceShip.write shipType mx my n b1 (x + mx) (y + my)

/-- PlaceShip places a ship on the board.  The result is the board after the call and
the returned error (`none` for `nil`). -/
def PlaceShip (b : Board) (x y direction : Int) (shipType : Nat) :
    Option (Board × Option PlaceError) :=
  match PlaceShip.length shipType with
  | none => some (b, some .invalidShipType)
  | some length =>
    match PlaceShip.vector direction with
    | none => some (b, some .invalidDirection)
    | some (mx, my) =>
      match PlaceShip.check b mx my length x y with
      | none => none
      | some (some e) => some (b, some e)
      | some none =>
        match PlaceShip.write shipType mx my length b x y with
        | none => none
        | some b1 => some (b1, none)

/-! ## IsSunk -/

/-- The first loop of `IsSunk` (positive direction, starting on `(ix, iy)` itself):
`some false` when the function returns false from inside the loop, `some true` when
the loop is left by `break`. -/
def IsSunk.forward (b : Board) (shipType : Nat) (vertical : Bool) :
    Nat → Int → Int → Option Bool
  | 0, _, _ => none
  | fuel + 1, ix, iy =>
    if !IsValid ix iy then some true
    else
      match b.get ix iy with
      | none => none
      | some c =>
        if c &&& shipMask ≠ shipType then some true
        else if c &&& opponentHit = 0 then some false
        else if vertical then IsSunk.forward b shipType vertical fuel ix (iy + 1)
        else IsSunk.forward b shipType vertical fuel (ix + 1) iy

/-- The second loop of `IsSunk` (negative direction, stepping before it looks). -/
def IsSunk.backward (b : Board) (shipType : Nat) (vertical : Bool) :
    Nat → Int → Int → Option Bool
  | 0, _, _ => none
  | fuel + 1, ix, iy =>
    let ix1 := if vertical then ix else ix - 1
    let iy1 := if vertical then iy - 1 else iy
    if !IsValid ix1 iy1 then some true
    else
      match b.get ix1 iy1 with
      | none => none
      | some c =>
        if c &&& shipMask ≠ shipType then some true
        else if c &&& opponentHit = 0 then some false
        else IsSunk.backward b shipType vertical fuel ix1 iy1

/-- The orientation test of `IsSunk`: `y+1 < boardSize && b[x][y+1]&shipMask == shipType ||
y-1 >= 0 && b[x][y-1]&shipMask == shipType`, with Go's short-circuit evaluation. -/
def IsSunk.vertical (b : Board) (shipType : Nat) (x y : Int) : Option Bool :=
  let below : Option Bool :=
    if y - 1 ≥ 0 then
      match b.get x (y - 1) with
      | none => none
      | some c => some (decide (c &&& shipMask = shipType))
    else some false
  if y + 1 < boardSize then
    match b.get x (y + 1) with
    | none => none
    | some c => if c &&& shipMask = shipType then some true else below
  else below

/-- IsSunk returns true if the ship at the location x, y has been sunk.  Both loops are
`for i := 0; ; i++`; they get `boardSize + 1` iterations of fuel. -/
def IsSunk (b : Board) (x y : Int) : Option Bool :=
  match b.get x y with
  | none => none
  | some c =>
    let shipType := c &&& shipMask
    if shipType = 0 then some false
    else
      match IsSunk.vertical b shipType x y with
      | none => none
      | some vertical =>
        match IsSunk.forward b shipType vertical 11 x y with
        | none => none
        | some false => some false
        | some true => IsSunk.backward b shipType vertical 11 x y

/-! ## Shots -/

/-- OpponentShot executes a shot by the opponent: the board after the call, `hit` and
`sunk`. -/
def OpponentShot (b : Board) (x y : Int) : Option (Board × Bool × Nat) :=
  match b.get x y with
  | none => none
  | some c =>
    match b.set x y (c ||| opponentHit) with
    | none => none
    | some b1 =>
      match b1.get x y with
      | none => none
      | some c1 =>
        let ship := c1 &&& shipMask
        if ship > 0 then
          match IsSunk b1 x y with
          | none => none
          | some true => some (b1, true, ship)
          | some false => some (b1, true, 0)
        else some (b1, false, 0)

/-- PlayerShot records a shot, either playerShot or playerHit. -/
def PlayerShot (b : Board) (x y : Int) (hit : Bool) : Option Board :=
  match b.get x y with
  | none => none
  | some c =>
    if hit then b.set x y (c ||| (playerShot ||| playerHit))
    else b.set x y (c ||| playerShot)

/-- PlayerHasShot returns true if the player has already shot the given position. -/
def PlayerHasShot (b : Board) (x y : Int) : Option Bool :=
  match b.get x y with
  | none => none
  | some c => some (decide (c &&& playerShot > 0))

/-- PlayerHasHit returns true if the player has hit an enemy ship at the given position. -/
def PlayerHasHit (b : Board) (x y : Int) : Option Bool :=
  match b.get x y with
  | none => none
  | some c => some (decide (c &&& playerHit > 0))

/-! ## Position codec -/

/-- The lower-case form of one ASCII character: `A`..`Z` move to `a`..`z`. -/
def strings.lowerChar (c : Char) : Char :=
  if 65 ≤ c.toNat ∧ c.toNat ≤ 90 then Char.ofNat (c.toNat + 32) else c

/-- The case ranges of Go's `unicode.ToLower` beyond ASCII, as the simple lower-case
mapping of the Unicode character database (version 14.0) gives them.  An entry
`(lo, hi, some t)` moves the runes `lo..hi` onto `t..`, each by the same offset; an entry
`(lo, hi, none)` is a run of alternating upper-case and lower-case letters that starts
with an upper-case one (`UpperLower` in Go's table).  The entries are in ascending order
and do not overlap. -/
def unicode.caseRanges : List (Nat × Nat × Option Nat) :=
  [(192, 214, some 224), (216, 222, some 248), (256, 303, none), (304, 304, some 105),
    (306, 311, none), (313, 328, none), (330, 375, none), (376, 376, some 255),
    (377, 382, none), (385, 385, some 595), (386, 389, none), (390, 390, some 596),
    (391, 391, some 392), (393, 394, some 598), (395, 395, some 396), (398, 398, some 477),
    (399, 399, some 601), (400, 400, some 603), (401, 401, some 402), (403, 403, some 608),
    (404, 404, some 611), (406, 406, some 617), (407, 407, some 616), (408, 408, some 409),
    (412, 412, some 623), (413, 413, some 626), (415, 415, some 629), (416, 421, none),
    (422, 422, some 640), (423, 423, some 424), (425, 425, some 643), (428, 428, some 429),
    (430, 430, some 648), (431, 431, some 432), (433, 434, some 650), (435, 438, none),
    (439, 439, some 658), (440, 440, some 441), (444, 444, some 445), (452, 452, some 454),
    (453, 453, some 454), (455, 455, some 457), (456, 456, some 457), (458, 458, some 460),
    (459, 476, none), (478, 495, none), (497, 497, some 499), (498, 501, none),
    (502, 502, some 405), (503, 503, some 447), (504, 543, none), (544, 544, some 414),
    (546, 563, none), (570, 570, some 11365), (571, 571, some 572), (573, 573, some 410),
    (574, 574, some 11366), (577, 577, some 578), (579, 579, some 384), (580, 580, some 649),
    (581, 581, some 652), (582, 591, none), (880, 883, none), (886, 886, some 887),
    (895, 895, some 1011), (902, 902, some 940), (904, 906, some 941), (908, 908, some 972),
    (910, 911, some 973), (913, 929, some 945), (931, 939, some 963), (975, 975, some 983),
    (984, 1007, none), (1012, 1012, some 952), (1015, 1015, some 1016),
    (1017, 1017, some 1010), (1018, 1018, some 1019), (1021, 1023, some 891),
    (1024, 1039, some 1104), (1040, 1071, some 1072), (1120, 1153, none), (1162, 1215, none),
    (1216, 1216, some 1231), (1217, 1230, none), (1232, 1327, none), (1329, 1366, some 1377),
    (4256, 4293, some 11520), (4295, 4295, some 11559), (4301, 4301, some 11565),
    (5024, 5103, some 43888), (5104, 5109, some 5112), (7312, 7354, some 4304),
    (7357, 7359, some 4349), (7680, 7829, none), (7838, 7838, some 223), (7840, 7935, none),
    (7944, 7951, some 7936), (7960, 7965, some 7952), (7976, 7983, some 7968),
    (7992, 7999, some 7984), (8008, 8013, some 8000), (8025, 8025, some 8017),
    (8027, 8027, some 8019), (8029, 8029, some 8021), (8031, 8031, some 8023),
    (8040, 8047, some 8032), (8072, 8079, some 8064), (8088, 8095, some 8080),
    (8104, 8111, some 8096), (8120, 8121, some 8112), (8122, 8123, some 8048),
    (8124, 8124, some 8115), (8136, 8139, some 8050), (8140, 8140, some 8131),
    (8152, 8153, some 8144), (8154, 8155, some 8054), (8168, 8169, some 8160),
    (8170, 8171, some 8058), (8172, 8172, some 8165), (8184, 8185, some 8056),
    (8186, 8187, some 8060), (8188, 8188, some 8179), (8486, 8486, some 969),
    (8490, 8490, some 107), (8491, 8491, some 229), (8498, 8498, some 8526),
    (8544, 8559, some 8560), (8579, 8579, some 8580), (9398, 9423, some 9424),
    (11264, 11311, some 11312), (11360, 11360, some 11361), (11362, 11362, some 619),
    (11363, 11363, some 7549), (11364, 11364, some 637), (11367, 11372, none),
    (11373, 11373, some 593), (11374, 11374, some 625), (11375, 11375, some 592),
    (11376, 11376, some 594), (11378, 11378, some 11379), (11381, 11381, some 11382),
    (11390, 11391, some 575), (11392, 11491, none), (11499, 11502, none),
    (11506, 11506, some 11507), (42560, 42605, none), (42624, 42651, none),
    (42786, 42799, none), (42802, 42863, none), (42873, 42876, none),
    (42877, 42877, some 7545), (42878, 42887, none), (42891, 42891, some 42892),
    (42893, 42893, some 613), (42896, 42899, none), (42902, 42921, none),
    (42922, 42922, some 614), (42923, 42923, some 604), (42924, 42924, some 609),
    (42925, 42925, some 620), (42926, 42926, some 618), (42928, 42928, some 670),
    (42929, 42929, some 647), (42930, 42930, some 669), (42931, 42931, some 43859),
    (42932, 42947, none), (42948, 42948, some 42900), (42949, 42949, some 642),
    (42950, 42950, some 7566), (42951, 42954, none), (42960, 42960, some 42961),
    (42966, 42969, none), (42997, 42997, some 42998), (65313, 65338, some 65345),
    (66560, 66599, some 66600), (66736, 66771, some 66776), (66928, 66938, some 66967),
    (66940, 66954, some 66979), (66956, 66962, some 66995), (66964, 66965, some 67003),
    (68736, 68786, some 68800), (71840, 71871, some 71872), (93760, 93791, some 93792),
    (125184, 125217, some 125218)]

/-- Go's `unicode.ToLower`: ASCII is handled first, every other rune goes through the
case ranges; in an alternating run the rune at offset `d` moves to offset
`d &^ 1 | 1`, which is `d / 2 * 2 + 1`. -/
def unicode.ToLower (c : Char) : Char :=
  if c.toNat < 128 then strings.lowerChar c
  else
    match unicode.caseRanges.find? (fun e => decide (e.1 ≤ c.toNat ∧ c.toNat ≤ e.2.1)) with
    | none => c
    | some (lo, _, none) => Char.ofNat (lo + ((c.toNat - lo) / 2 * 2 + 1))
    | some (lo, _, some t) => Char.ofNat (t + (c.toNat - lo))

/-- Go's `strings.ToLower` on a text of valid UTF-8: every rune mapped by
`unicode.ToLower`. -/
def strings.ToLower (s : List Char) : List Char :=
  s.map unicode.ToLower

/-- Go's `unicode.IsSpace`: in Latin-1 the runes `\t`, `\n`, `\v`, `\f`, `\r`, the blank,
U+0085 and U+00A0; beyond Latin-1 the runes with the property White_Space, which are
U+1680, U+2000..U+200A, U+2028, U+2029, U+202F, U+205F and U+3000. -/
def unicode.IsSpace (c : Char) : Bool :=
  if c.toNat ≤ 255 then
    c.toNat = 9 || c.toNat = 10 || c.toNat = 11 || c.toNat = 12 || c.toNat = 13 ||
      c.toNat = 32 || c.toNat = 133 || c.toNat = 160
  else
    c.toNat = 5760 || (8192 ≤ c.toNat && c.toNat ≤ 8202) || c.toNat = 8232 ||
      c.toNat = 8233 || c.toNat = 8239 || c.toNat = 8287 || c.toNat = 12288

/-- Go's `strings.TrimSpace` on a text of valid UTF-8: the leading and the trailing runes
that `unicode.IsSpace` accepts are removed. -/
def strings.TrimSpace (s : List Char) : List Char :=
  ((s.dropWhile unicode.IsSpace).reverse.dropWhile unicode.IsSpace).reverse

/-- The UTF-8 encoding of one rune: the bytes a Go string holds for it. -/
def utf8.encodeRune (c : Char) : List Nat :=
  if c.toNat < 128 then [c.toNat]
  else if c.toNat < 2048 then [192 + c.toNat / 64, 128 + c.toNat % 64]
  else if c.toNat < 65536 then
    [224 + c.toNat / 4096, 128 + c.toNat / 64 % 64, 128 + c.toNat % 64]
  else
    [240 + c.toNat / 262144, 128 + c.toNat / 4096 % 64, 128 + c.toNat / 64 % 64,
      128 + c.toNat % 64]

/-- The bytes of a text: Go indexes and slices a string by bytes, not by runes. -/
def utf8.encode (s : List Char) : List Nat :=
  s.flatMap utf8.encodeRune

/-- The value of a run of decimal digits, most significant first. -/
def strconv.digitsValue (ds : List Char) : Nat :=
  ds.foldl (fun acc c => 10 * acc + (c.toNat - 48)) 0

/-- Go's `strconv.ParseUint(s, 10, 64)`: one or more decimal digits whose value fits 64
bits.  The result `none` stands for a non-nil error. -/
def strconv.ParseUint (ds : List Char) : Option Nat :=
  if ds = [] then none
  else if ds.all (fun d => decide (48 ≤ d.toNat ∧ d.toNat ≤ 57)) then
    if strconv.digitsValue ds ≥ 2 ^ 64 then none else some (strconv.digitsValue ds)
  else none

/-- Go's `strconv.Atoi` for a 64-bit `int` (`ParseInt(s, 10, 0)`): an optional sign
(`+` is 43, `-` is 45) is taken off, the rest goes through `ParseUint`, and the value is
checked against the cutoff `1 << 63`.  The result `none` stands for a non-nil error. -/
def strconv.Atoi (s : List Char) : Option Int :=
  match s with
  | [] => none
  | c :: r =>
    let ds : List Char := if c.toNat = 43 ∨ c.toNat = 45 then r else c :: r
    match strconv.ParseUint ds with
    | none => none
    | some un =>
      if c.toNat = 45 then (if un > 2 ^ 63 then none else some (-(un : Int)))
      else (if un ≥ 2 ^ 63 then none else some (un : Int))

/-- Go's `strconv.Itoa`. -/
def strconv.Itoa (n : Int) : List Char :=
  if n < 0 then '-' :: Nat.toDigits 10 n.natAbs else Nat.toDigits 10 n.natAbs

/-- Wrap-around of 64-bit signed arithmetic. -/
def wrap64 (n : Int) : Int := (n + 2 ^ 63) % 2 ^ 64 - 2 ^ 63

/-- Wrap-around of 32-bit signed arithmetic (the conversion `rune(y)` and `rune` sums). -/
def wrap32 (n : Int) : Int := (n + 2 ^ 31) % 2 ^ 32 - 2 ^ 31

/-- Go's conversion `string(r)` of a rune: the code point itself, or U+FFFD when `r` is
not a valid code point. -/
def runeToString (r : Int) : List Char :=
  if 0 ≤ r ∧ r.toNat.isValidChar then [Char.ofNat r.toNat] else [Char.ofNat 65533]

deriving instance DecidableEq for Except

/-- The errors `ParsePosition` can return. -/
inductive ParseError where
  | noLocation
  | invalidLocation (location : List Char)
  deriving DecidableEq, Repr

/-- ParsePosition converts a location text into x, y coordinates on the board.
The outer `none` is the panic of `location[0]` on an empty string.  `location[0]` is the
first byte and `location[1:]` the remaining bytes of the lower-cased and trimmed text;
`strconv.Atoi` reads bytes, which it is given here as the characters of the same code. -/
def ParsePosition (location : List Char) : Option (Except ParseError (Int × Int)) :=
  if location = [] then some (.error .noLocation)
  else
    let location := strings.TrimSpace (strings.ToLower location)
    match utf8.encode location with
    | [] => none
    | b :: rest =>
      -- `int(location[0] - 'a')`: a byte subtraction, wrapping modulo 256
      let y : Int := (((b + 256 - 97) % 256 : Nat) : Int)
      match strconv.Atoi (rest.map Char.ofNat) with
      | none => some (.error (.invalidLocation location))
      | some v =>
        let x := wrap64 (v - 1)
        if !IsValid x y then some (.error (.invalidLocation location))
        else some (.ok (x, y))

/-- FormatPosition takes an x and y coordinate, and returns the string representation
of it: `string('a'+rune(y)) + strconv.Itoa(x+1)`. -/
def FormatPosition (x y : Int) : List Char :=
  runeToString (wrap32 (97 + wrap32 y)) ++ strconv.Itoa (wrap64 (x + 1))

/-! ## Random source and RandomBoard -/

/-- Outcome of code that draws from the random source, which is a finite list of raw
draws: `starved` stands for a loop that has used up the list without leaving (the list
is the fuel of the unbounded loops), `panic` for a runtime panic. -/
inductive Run (α : Type) where
  | ok (a : α)
  | panic
  | starved

/-- The loop of `RandomBoard`: `rng.Intn(n)` is the next raw draw modulo `n`; the ship
index only advances after a placement without error. -/
def RandomBoard.loop : Board → List Nat → List Nat → Run Board
  | b, [], _ => .ok b
  | b, s :: ships, d1 :: d2 :: d3 :: rest =>
    match PlaceShip b ((d1 % 10 : Nat) : Int) ((d2 % 10 : Nat) : Int)
        (((d3 % 4 : Nat) : Int) + 1) s with
    | none => .panic
    | some (b1, none) => RandomBoard.loop b1 ships rest
    | some (b1, some _) => RandomBoard.loop b1 (s :: ships) rest
  | _, _ :: _, _ => .starved

/-- RandomBoard creates a board with randomly placed ships. -/
def RandomBoard (rng : List Nat) : Run Board :=
  RandomBoard.loop Board.empty
    [shipCarrier, shipBattleship, shipDestroyer, shipSubmarine, shipPatrolBoat] rng

/-! ## The AI -/

/-- AI is a simple battleship-playing AI; its random source is passed to the functions
that draw from it. -/
structure AI where
  board : Board
  score : Int

/-- Link.TakeShot, with the state of the remote side passed explicitly: the new remote
state, `hit` and `sunk`. -/
abbrev Link (σ : Type) := σ → Int → Int → Option (σ × Bool × Nat)

/-- The link of `NewLocalLink`: `TakeShot` is `OpponentShot` on the remote board. -/
def localLink : Link Board := fun b x y => OpponentShot b x y

/-- The first loop of `findHorizontalShot`, `for ix := x; ix < boardSize; ix++` with `n`
iterations left: `some (some ix)` when it returns `ix, true`, `some none` when it ends or
breaks. -/
def AI.findHorizontalShot.right (a : AI) (y : Int) : Nat → Int → Option (Option Int)
  | 0, _ => some none
  | n + 1, ix =>
    match PlayerHasHit a.board ix y with
    | none => none
    | some true => AI.findHorizontalShot.right a y n (ix + 1)
    | some false =>
      match PlayerHasShot a.board ix y with
      | none => none
      | some true => some none
      | some false => some (some ix)

/-- The second loop of `findHorizontalShot`, `for ix := x; ix >= 0; ix--`. -/
def AI.findHorizontalShot.left (a : AI) (y : Int) : Nat → Int → Option (Option Int)
  | 0, _ => some none
  | n + 1, ix =>
    match PlayerHasHit a.board ix y with
    | none => none
    | some true => AI.findHorizontalShot.left a y n (ix - 1)
    | some false =>
      match PlayerHasShot a.board ix y with
      | none => none
      | some true => some none
      | some false => some (some ix)

/-- findHorizontalShot tries to take a shot at a possibly horizontally placed ship. -/
def AI.findHorizontalShot (a : AI) (x y : Int) : Option (Int × Bool) :=
  match AI.findHorizontalShot.right a y (boardSize - x).toNat x with
  | none => none
  | some (some ix) => some (ix, true)
  | some none =>
    match AI.findHorizontalShot.left a y (x + 1).toNat x with
    | none => none
    | some (some ix) => some (ix, true)
    | some none => some (0, false)

/-- The first loop of `findVerticalShot`, `for iy := y; iy < boardSize; iy++`. -/
def AI.findVerticalShot.up (a : AI) (x : Int) : Nat → Int → Option (Option Int)
  | 0, _ => some none
  | n + 1, iy =>
    match PlayerHasHit a.board x iy with
    | none => none
    | some true => AI.findVerticalShot.up a x n (iy + 1)
    | some false =>
      match PlayerHasShot a.board x iy with
      | none => none
      | some true => some none
      | some false => some (some iy)

/-- The second loop of `findVerticalShot`, `for iy := y; iy >= 0; iy--`. -/
def AI.findVerticalShot.down (a : AI) (x : Int) : Nat → Int → Option (Option Int)
  | 0, _ => some none
  | n + 1, iy =>
    match PlayerHasHit a.board x iy with
    | none => none
    | some true => AI.findVerticalShot.down a x n (iy - 1)
    | some false =>
      match PlayerHasShot a.board x iy with
      | none => none
      | some true => some none
      | some false => some (some iy)

/-- findVerticalShot tries to find a shot at a possibly vertically placed ship. -/
def AI.findVerticalShot (a : AI) (x y : Int) : Option (Int × Bool) :=
  match AI.findVerticalShot.up a x (boardSize - y).toNat y with
  | none => none
  | some (some iy) => some (iy, true)
  | some none =>
    match AI.findVerticalShot.down a x (y + 1).toNat y with
    | none => none
    | some (some iy) => some (iy, true)
    | some none => some (0, false)

/-- One test `inRange && !a.board.PlayerHasShot(x, y)` of the neighbour searches; the
query is only evaluated when the bound test holds. -/
def AI.freeAt (a : AI) (inRange : Bool) (x y : Int) : Option Bool :=
  if inRange then
    match PlayerHasShot a.board x y with
    | none => none
    | some shot => some (!shot)
  else some false

/-- findAdjacentShot searches for a shot in the positions next to the given position:
up, down, left, right. -/
def AI.findAdjacentShot (a : AI) (x y : Int) : Option (Int × Int × Bool) :=
  match a.freeAt (decide (y + 1 < boardSize)) x (y + 1) with
  | none => none
  | some true => some (x, y + 1, true)
  | some false =>
    match a.freeAt (decide (y - 1 ≥ 0)) x (y - 1) with
    | none => none
    | some true => some (x, y - 1, true)
    | some false =>
      match a.freeAt (decide (x - 1 ≥ 0)) (x - 1) y with
      | none => none
      | some true => some (x - 1, y, true)
      | some false =>
        match a.freeAt (decide (x + 1 < boardSize)) (x + 1) y with
        | none => none
        | some true => some (x + 1, y, true)
        | some false => some (0, 0, false)

/-- findDiagonalShot searches for a shot in the positions immediately diagonal to the
given position: bottom left, bottom right, top right, top left. -/
def AI.findDiagonalShot (a : AI) (x y : Int) : Option (Int × Int × Bool) :=
  match a.freeAt (decide (x - 1 ≥ 0) && decide (y - 1 ≥ 0)) (x - 1) (y - 1) with
  | none => none
  | some true => some (x - 1, y - 1, true)
  | some false =>
    match a.freeAt (decide (x + 1 < boardSize) && decide (y - 1 ≥ 0)) (x + 1) (y - 1) with
    | none => none
    | some true => some (x + 1, y - 1, true)
    | some false =>
      match a.freeAt (decide (x + 1 < boardSize) && decide (y + 1 < boardSize)) (x + 1)
          (y + 1) with
      | none => none
      | some true => some (x + 1, y + 1, true)
      | some false =>
        match a.freeAt (decide (x - 1 ≥ 0) && decide (y + 1 < boardSize)) (x - 1) (y + 1) with
        | none => none
        | some true => some (x - 1, y + 1, true)
        | some false => some (0, 0, false)

/-- The test `lo && PlayerHasHit(x1, y1) || hi && PlayerHasHit(x2, y2)` of `findShot`,
with Go's short-circuit evaluation. -/
def AI.hitEither (a : AI) (lo : Bool) (x1 y1 : Int) (hi : Bool) (x2 y2 : Int) : Option Bool :=
  let second : Option Bool := if hi then PlayerHasHit a.board x2 y2 else some false
  if lo then
    match PlayerHasHit a.board x1 y1 with
    | none => none
    | some true => some true
    | some false => second
  else second

/-- The end of `findShot`, after the two line searches have set `horizontalShip` and
`verticalShip`. -/
def AI.findShot.finish (a : AI) (x y : Int) (horizontalShip verticalShip : Bool) :
    Option (Int × Int × Bool) :=
  let diagonal : Option (Int × Int × Bool) :=
    if horizontalShip && verticalShip then a.findDiagonalShot x y else some (0, 0, false)
  match diagonal with
  | none => none
  | some (shootx, shooty, true) => some (shootx, shooty, true)
  | some (_, _, false) =>
    if horizontalShip || verticalShip then some (0, 0, false)
    else a.findAdjacentShot x y

/-- The vertical part of `findShot` and what follows it. -/
def AI.findShot.vertical (a : AI) (x y : Int) (horizontalShip : Bool) :
    Option (Int × Int × Bool) :=
  match a.hitEither (decide (y - 1 ≥ 0)) x (y - 1) (decide (y + 1 < boardSize)) x (y + 1) with
  | none => none
  | some false => AI.findShot.finish a x y horizontalShip false
  | some true =>
    match a.findVerticalShot x y with
    | none => none
    | some (shooty, true) => some (x, shooty, true)
    | some (_, false) => AI.findShot.finish a x y horizontalShip true

/-- findShot checks if a point on the board is on a previous hit, and if so, tries to hit
the ship again. -/
def AI.findShot (a : AI) (x y : Int) : Option (Int × Int × Bool) :=
  match PlayerHasHit a.board x y with
  | none => none
  | some false => some (0, 0, false)
  | some true =>
    match a.hitEither (decide (x - 1 ≥ 0)) (x - 1) y (decide (x + 1 < boardSize)) (x + 1) y with
    | none => none
    | some false => AI.findShot.vertical a x y false
    | some true =>
      match a.findHorizontalShot x y with
      | none => none
      | some (shootx, true) => some (shootx, y, true)
      | some (_, false) => AI.findShot.vertical a x y true

/-- getRandomShot: draw `x` and `y` until a position that has not been shot comes up.
The result carries the rest of the random source. -/
def AI.getRandomShot (a : AI) : List Nat → Run (Int × Int × List Nat)
  | d1 :: d2 :: rest =>
    match PlayerHasShot a.board ((d1 % 10 : Nat) : Int) ((d2 % 10 : Nat) : Int) with
    | none => .panic
    | some false => .ok (((d1 % 10 : Nat) : Int), ((d2 % 10 : Nat) : Int), rest)
    | some true => AI.getRandomShot a rest
  | _ => .starved

/-- shoot: the AI after the shot and the remote state after `TakeShot`.  Shooting a
position that was already shot panics. -/
def AI.shoot {σ : Type} (a : AI) (x y : Int) (remote : Link σ) (s : σ) : Option (AI × σ) :=
  match PlayerHasShot a.board x y with
  | none => none
  | some true => none
  | some false =>
    match remote s x y with
    | none => none
    | some (s1, hit, sunk) =>
      match PlayerShot a.board x y hit with
      | none => none
      | some b1 => some (⟨b1, if sunk ≠ 0 then wrap64 (a.score + 1) else a.score⟩, s1)

/-- The inner loop of `Turn`, `for y := 0; y < boardSize; y++` with `n` iterations left:
the first shot `findShot` comes up with in column `x`. -/
def AI.Turn.loopY (a : AI) (x : Int) : Nat → Int → Option (Option (Int × Int))
  | 0, _ => some none
  | n + 1, y =>
    match a.findShot x y with
    | none => none
    | some (shootx, shooty, true) => some (some (shootx, shooty))
    | some (_, _, false) => AI.Turn.loopY a x n (y + 1)

/-- The outer loop of `Turn`, `for x := 0; x < boardSize; x++`. -/
def AI.Turn.loopX (a : AI) : Nat → Int → Option (Option (Int × Int))
  | 0, _ => some none
  | n + 1, x =>
    match AI.Turn.loopY a x 10 0 with
    | none => none
    | some (some shot) => some (some shot)
    | some none => AI.Turn.loopX a n (x + 1)

/-- The position `Turn` passes to `shoot`, with the rest of the random source: the first
follow-up shot of the target phase, or else the random shot. -/
def AI.Turn.target (a : AI) (rng : List Nat) : Run (Int × Int × List Nat) :=
  match AI.Turn.loopX a 10 0 with
  | none => .panic
  | some (some (shootx, shooty)) => .ok (shootx, shooty, rng)
  | some none => a.getRandomShot rng

/-- What a returning `Turn` leaves behind and returns; `err` is always `nil`. -/
structure TurnResult (σ : Type) where
  ai : AI
  remote : σ
  rng : List Nat
  won : Bool
  err : Option String

/-- Turn implements Player: one shot, then `return a.score >= 5, nil`.  The deferred
printing of the board is not part of the model. -/
def AI.Turn {σ : Type} (a : AI) (remote : Link σ) (s : σ) (rng : List Nat) :
    Run (TurnResult σ) :=
  match AI.Turn.target a rng with
  | .panic => .panic
  | .starved => .starved
  | .ok (shootx, shooty, rng1) =>
    match a.shoot shootx shooty remote s with
    | none => .panic
    | some (a1, s1) => .ok ⟨a1, s1, rng1, decide (a1.score ≥ 5), none⟩

/-! ## Board.String -/

/-- The header line of both boards, `"  1 2 3 4 5 6 7 8 9 10\n"`. -/
def Board.String.header : List Char :=
  [' ', ' ', '1', ' ', '2', ' ', '3', ' ', '4', ' ', '5', ' ', '6', ' ', '7', ' ', '8', ' ',
    '9', ' ', '1', '0', '\n']

/-- The `switch` of the top board in `String`: shots by this player. -/
def Board.String.topCell (c : Nat) : List Char :=
  if c &&& playerHit > 0 then ['X', ' ']
  else if c &&& playerShot > 0 then ['O', ' ']
  else [' ', ' ']

/-- The `switch` of the bottom board in `String`: player ships and opponent shots. -/
def Board.String.bottomCell (c : Nat) : List Char :=
  if c &&& shipMask > 0 ∧ c &&& opponentHit > 0 then ['X', ' ']
  else if c &&& shipMask = shipCarrier then ['C', ' ']
  else if c &&& shipMask = shipBattleship then ['B', ' ']
  else if c &&& shipMask = shipDestroyer then ['D', ' ']
  else if c &&& shipMask = shipSubmarine then ['S', ' ']
  else if c &&& shipMask = shipPatrolBoat then ['P', ' ']
  else [' ', ' ']

/-- The inner loop of `String`, `for x := 0; x < boardSize; x++` with `n` iterations left:
the text it appends. -/
def Board.String.loopX (b : Board) (cellText : Nat → List Char) (y : Int) :
    Nat → Int → Option (List Char)
  | 0, _ => some []
  | n + 1, x =>
    match b.get x y with
    | none => none
    | some c =>
      match Board.String.loopX b cellText y n (x + 1) with
      | none => none
      | some rest => some (cellText c ++ rest)

/-- The outer loop of `String`, `for y := boardSize - 1; y >= 0; y--` with `n` iterations
left: each row is `string('A'+y) + " "`, the positions and a newline. -/
def Board.String.loopY (b : Board) (cellText : Nat → List Char) :
    Nat → Int → Option (List Char)
  | 0, _ => some []
  | n + 1, y =>
    match Board.String.loopX b cellText y 10 0 with
    | none => none
    | some cells =>
      match Board.String.loopY b cellText n (y - 1) with
      | none => none
      | some rest => some (runeToString (wrap64 (65 + y)) ++ [' '] ++ cells ++ ['\n'] ++ rest)

/-- String formats the board as a string: the top board, an empty line, the bottom
board. -/
def Board.String (b : Board) : Option (List Char) :=
  match Board.String.loopY b Board.String.topCell 10 9 with
  | none => none
  | some top =>
    match Board.String.loopY b Board.String.bottomCell 10 9 with
    | none => none
    | some bottom =>
      some (Board.String.header ++ top ++ ['\n'] ++ Board.String.header ++ bottom)

/-! ## Vocabulary of the specification -/

/-- The fleet of the specification: each ship tag with its fixed length. -/
def fleetTable : List (Nat × Nat) :=
  [(shipCarrier, 5), (shipBattleship, 4), (shipDestroyer, 3), (shipSubmarine, 3),
    (shipPatrolBoat, 2)]

/-- The directions of the specification with their steps: up is `y+1`, down is `y-1`,
left is `x-1`, right is `x+1`. -/
def directionTable : List (Int × Int × Int) :=
  [(up, 0, 1), (down, 0, -1), (left, -1, 0), (right, 1, 0)]

/-- The value of a run of decimal digits as positional notation in base ten. -/
def decimalValue (ds : List Char) : Nat :=
  Nat.ofDigits 10 ((ds.map fun c => c.toNat - 48).reverse)

/-- The text `r` is a decimal integer of value `v`: an optional sign `+` or `-` followed
by one or more decimal digits. -/
def IsDecimalInteger (r : List Char) (v : Int) : Prop :=
  ∃ ds : List Char, ds ≠ [] ∧ (∀ c ∈ ds, 48 ≤ c.toNat ∧ c.toNat ≤ 57) ∧
    ((r = ds ∧ v = (decimalValue ds : Int)) ∨
      (r = '+' :: ds ∧ v = (decimalValue ds : Int)) ∨
      (r = '-' :: ds ∧ v = -(decimalValue ds : Int)))

/-- The content of cell `(x, y)`, and `0` off the grid. -/
def Board.cell (b : Board) (x y : Int) : Nat := (b.get x y).getD 0

/-- The two loops of `IsSunk` in one shape: a walk from `(ix, iy)` in steps of
`(dx, dy)`; `IsSunk.forward` and `IsSunk.backward` are instances of it
(`IsSunk.forward_eq_scan`, `IsSunk.backward_eq_scan`). -/
def IsSunk.scan (b : Board) (shipType : Nat) (dx dy : Int) : Nat → Int → Int → Option Bool
  | 0, _, _ => none
  | fuel + 1, ix, iy =>
    if !IsValid ix iy then some true
    else
      match b.get ix iy with
      | none => none
      | some c =>
        if c &&& shipMask ≠ shipType then some true
        else if c &&& opponentHit = 0 then some false
        else IsSunk.scan b shipType dx dy fuel (ix + dx) (iy + dy)

/-- The board `b` with the flag bits `f` or-ed into cell `(p, q)`. -/
def Board.mark (b : Board) (p q : Fin 10) (f : Nat) : Board :=
  ⟨fun i j => if i = p ∧ j = q then b.cells p q ||| f else b.cells i j⟩

/-- The x step of a run: `0` for a vertical run, `1` for a horizontal one. -/
def stepX (vert : Bool) : Int := if vert then 0 else 1

/-- The y step of a run: `1` for a vertical run, `0` for a horizontal one. -/
def stepY (vert : Bool) : Int := if vert then 1 else 0

/-- Cell `(x, y)` is one of the `L` cells of the straight run that starts at `(x0, y0)`
and extends along a column (`vert`) or along a row. -/
def OnRun (x0 y0 : Int) (vert : Bool) (L : Nat) (x y : Int) : Prop :=
  ∃ i : Nat, i < L ∧ x = x0 + i * stepX vert ∧ y = y0 + i * stepY vert

/-- The cells of `b` tagged `t` are exactly the `L ≥ 2` cells of one straight contiguous
run, all of them on the grid. -/
structure IsShipRun (b : Board) (t : Nat) (x0 y0 : Int) (vert : Bool) (L : Nat) : Prop where
  two_le : 2 ≤ L
  valid : ∀ i : Nat, i < L → IsValid (x0 + i * stepX vert) (y0 + i * stepY vert) = true
  cells : ∀ p q : Fin 10,
    b.cells p q &&& shipMask = t ↔ OnRun x0 y0 vert L (p.val : Int) (q.val : Int)

/-- The fleet invariant for the ship types `ts`: every tag on the board is one of `ts`,
and each type of `ts` occupies one run of its table length. -/
def FleetInv (b : Board) (ts : List Nat) : Prop :=
  (∀ p q : Fin 10, b.cells p q &&& shipMask = 0 ∨ b.cells p q &&& shipMask ∈ ts) ∧
    ∀ t ∈ ts, ∃ (L : Nat) (x0 y0 : Int) (vert : Bool),
      (t, L) ∈ fleetTable ∧ IsShipRun b t x0 y0 vert L

/-- Boards obtained from the empty board by successful `PlaceShip` calls with pairwise
distinct ship types; the list holds the types placed, latest first. -/
inductive Placed : Board → List Nat → Prop where
  | empty : Placed Board.empty []
  | place {b b1 : Board} {ts : List Nat} (x y d : Int) (t : Nat) :
      Placed b ts → t ∉ ts → PlaceShip b x y d t = some (b1, none) → Placed b1 (t :: ts)

/-- Boards obtained from `b0` by any sequence of `OpponentShot` and `PlayerShot` calls
that return. -/
inductive Shots (b0 : Board) : Board → Prop where
  | start : Shots b0 b0
  | opponent {b b1 : Board} (x y : Int) (hit : Bool) (sunk : Nat) :
      Shots b0 b → OpponentShot b x y = some (b1, hit, sunk) → Shots b0 b1
  | player {b b1 : Board} (x y : Int) (hit : Bool) :
      Shots b0 b → PlayerShot b x y hit = some b1 → Shots b0 b1

instance : DecidableEq Board := fun a b =>
  decidable_of_iff (∀ i j, a.cells i j = b.cells i j)
    ⟨fun h => Board.ext (funext fun i => funext fun j => h i j), fun h _ _ => by rw [h]⟩

/-- Boards reachable from the empty board by any sequence of `PlaceShip` (with or without
error), `OpponentShot`, `PlayerShot` and `Clear` calls that return. -/
inductive Reachable : Board → Prop where
  | empty : Reachable Board.empty
  | place {b b1 : Board} (x y d : Int) (t : Nat) (e : Option PlaceError) :
      Reachable b → PlaceShip b x y d t = some (b1, e) → Reachable b1
  | opponent {b b1 : Board} (x y : Int) (hit : Bool) (sunk : Nat) :
      Reachable b → OpponentShot b x y = some (b1, hit, sunk) → Reachable b1
  | player {b b1 : Board} (x y : Int) (hit : Bool) :
      Reachable b → PlayerShot b x y hit = some b1 → Reachable b1
  | clear {b : Board} : Reachable b → Reachable b.Clear

/-- The flag invariant: every cell whose hit flag is set has its outgoing-shot flag
set. -/
def FlagInv (b : Board) : Prop :=
  ∀ p q : Fin 10, b.cells p q &&& playerHit ≠ 0 → b.cells p q &&& playerShot ≠ 0

/-- Boards reachable from the empty board by `PlaceShip` calls, those without error having
pairwise distinct ship types (listed latest first), interleaved with any shots. -/
inductive FleetReach : Board → List Nat → Prop where
  | empty : FleetReach Board.empty []
  | place {b b1 : Board} {ts : List Nat} (x y d : Int) (t : Nat) :
      FleetReach b ts → t ∉ ts → PlaceShip b x y d t = some (b1, none) →
      FleetReach b1 (t :: ts)
  | failed {b b1 : Board} {ts : List Nat} (x y d : Int) (t : Nat) (e : PlaceError) :
      FleetReach b ts → PlaceShip b x y d t = some (b1, some e) → FleetReach b1 ts
  | opponent {b b1 : Board} {ts : List Nat} (x y : Int) (hit : Bool) (sunk : Nat) :
      FleetReach b ts → OpponentShot b x y = some (b1, hit, sunk) → FleetReach b1 ts
  | player {b b1 : Board} {ts : List Nat} (x y : Int) (hit : Bool) :
      FleetReach b ts → PlayerShot b x y hit = some b1 → FleetReach b1 ts

/-- The number of cells of the board that hold the tag `t`. -/
def tagCount (b : Board) (t : Nat) : Nat :=
  (Finset.univ.filter fun pq : Fin 10 × Fin 10 => b.cells pq.1 pq.2 &&& shipMask = t).card

/-- The number of cells of the board that hold a ship. -/
def shipCount (b : Board) : Nat :=
  (Finset.univ.filter fun pq : Fin 10 × Fin 10 => b.cells pq.1 pq.2 &&& shipMask ≠ 0).card

/-- The player has shot `(x, y)`: the cell carries the outgoing-shot flag (bit 0); false
off the grid. -/
def Board.shot (b : Board) (x y : Int) : Bool := (b.cell x y).testBit 0

/-- The player has hit at `(x, y)`: the cell carries the hit flag (bit 1); false off the
grid. -/
def Board.hit (b : Board) (x y : Int) : Bool := (b.cell x y).testBit 1

/-- The four line searches of the AI in one shape: a walk of at most `n` cells from
`(ix, iy)` in steps of `(dx, dy)` that passes over hit cells, gives up on a missed cell
and returns the first cell that has not been shot; the loops of `findHorizontalShot` and
`findVerticalShot` are instances of it. -/
def AI.walk (a : AI) (dx dy : Int) : Nat → Int → Int → Option (Option (Int × Int))
  | 0, _, _ => some none
  | n + 1, ix, iy =>
    match PlayerHasHit a.board ix iy with
    | none => none
    | some true => AI.walk a dx dy n (ix + dx) (iy + dy)
    | some false =>
      match PlayerHasShot a.board ix iy with
      | none => none
      | some true => some none
      | some false => some (some (ix, iy))

/-- The shot of a `findShot` result, when it has one (`ok = true`). -/
def followUp (r : Option (Int × Int × Bool)) : Option (Int × Int) :=
  match r with
  | some (shootx, shooty, true) => some (shootx, shooty)
  | _ => none

/-- The follow-up shot of the first cell for which `findShot` returns `ok = true`, the
cells taken in the order `x = 0..9` outer, `y = 0..9` inner. -/
def firstFollowUp (a : AI) : Option (Int × Int) :=
  (List.range 10).findSome? fun (x : Nat) =>
    (List.range 10).findSome? fun (y : Nat) => followUp (a.findShot (x : Int) (y : Int))

/-- The first candidate that is on the grid and has not been shot. -/
def firstFree (b : Board) (candidates : List (Int × Int)) : Option (Int × Int) :=
  candidates.find? fun c => IsValid c.1 c.2 && !b.shot c.1 c.2

/-- `c` is the un-shot cell of row `y` reached from `(x, y)` to the right by passing only
over hit cells. -/
def ReachRight (b : Board) (x y c : Int) : Prop :=
  x < c ∧ IsValid c y = true ∧ b.shot c y = false ∧ ∀ i : Int, x ≤ i → i < c → b.hit i y = true

/-- `c` is the un-shot cell of row `y` reached from `(x, y)` to the left by passing only
over hit cells. -/
def ReachLeft (b : Board) (x y c : Int) : Prop :=
  c < x ∧ IsValid c y = true ∧ b.shot c y = false ∧ ∀ i : Int, c < i → i ≤ x → b.hit i y = true

/-- The five ship types of the fleet, in the order `RandomBoard` places them. -/
def fleetTypes : List Nat :=
  [shipCarrier, shipBattleship, shipDestroyer, shipSubmarine, shipPatrolBoat]

/-- Every cell of the board tagged `t` carries the incoming-shot flag. -/
def Board.allHit (b : Board) (t : Nat) : Prop :=
  ∀ p q : Fin 10, b.cells p q &&& shipMask = t → b.cells p q &&& opponentHit ≠ 0

instance (b : Board) (t : Nat) : Decidable (b.allHit t) := by
  unfold Board.allHit; infer_instance

/-- The number of ship types of the fleet all of whose cells carry the incoming-shot
flag. -/
def sunkCount (b : Board) : Nat := fleetTypes.countP fun t => decide (b.allHit t)

/-- The number of cells that carry the outgoing-shot flag. -/
def shotCount (b : Board) : Nat :=
  (Finset.univ.filter fun pq : Fin 10 × Fin 10 => (b.cells pq.1 pq.2).testBit 0 = true).card

/-- The games of an AI that starts as `a0` and fires through the local link at the board
that starts as `ob0`: `Played a0 ob0 k a ob won` says that after `k` returning `Turn` calls
of the AI, the last of which returned `won`, the AI is `a` and the opponent board is `ob`.
A turn is only taken while no earlier one has returned `won = true`, with any random
source.  Between the turns the opponent may fire at the board of the AI and record its own
shots on its board. -/
inductive Played (a0 : AI) (ob0 : Board) : Nat → AI → Board → Bool → Prop where
  | start : Played a0 ob0 0 a0 ob0 false
  | turn {k : Nat} {a : AI} {ob : Board} (rng : List Nat) (r : TurnResult Board) :
      Played a0 ob0 k a ob false → a.Turn localLink ob rng = .ok r →
      Played a0 ob0 (k + 1) r.ai r.remote r.won
  | incoming {k : Nat} {a : AI} {ob b1 : Board} (x y : Int) (hit : Bool) (sunk : Nat) :
      Played a0 ob0 k a ob false → OpponentShot a.board x y = some (b1, hit, sunk) →
      Played a0 ob0 k ⟨b1, a.score⟩ ob false
  | recorded {k : Nat} {a : AI} {ob ob1 : Board} (x y : Int) (hit : Bool) :
      Played a0 ob0 k a ob false → PlayerShot ob x y hit = some ob1 →
      Played a0 ob0 k a ob1 false

/-- `c` is the cell of row `y` that a scan from `(x, y)` to the right reaches after
passing over hit cells only, and it has not been shot (it carries neither flag). -/
def ScanRight (b : Board) (x y c : Int) : Prop :=
  x < c ∧ IsValid c y = true ∧ b.hit c y = false ∧ b.shot c y = false ∧
    ∀ i : Int, x ≤ i → i < c → b.hit i y = true

/-- `c` is the cell of row `y` that a scan from `(x, y)` to the left reaches after
passing over hit cells only, and it has not been shot (it carries neither flag). -/
def ScanLeft (b : Board) (x y c : Int) : Prop :=
  c < x ∧ IsValid c y = true ∧ b.hit c y = false ∧ b.shot c y = false ∧
    ∀ i : Int, c < i → i ≤ x → b.hit i y = true

/-- The transposed board: cell `(x, y)` holds what cell `(y, x)` held. -/
def Board.transpose (b : Board) : Board := ⟨fun i j => b.cells j i⟩

/-- The AI with its board transposed. -/
def AI.transpose (a : AI) : AI := ⟨a.board.transpose, a.score⟩

/-- A sequence of `OpponentShot` calls, one per listed cell in order: the board after the
last call and the sunk types the calls returned, in order. -/
def shootAll (b : Board) : List (Int × Int) → Option (Board × List Nat)
  | [] => some (b, [])
  | c :: rest =>
    match OpponentShot b c.1 c.2 with
    | none => none
    | some (b1, _, sunk) =>
      match shootAll b1 rest with
      | none => none
      | some (b2, reports) => some (b2, sunk :: reports)

/-- Every cell of the board tagged `t` occurs in the list. -/
def Board.covered (b : Board) (cells : List (Int × Int)) (t : Nat) : Prop :=
  ∀ p q : Fin 10, b.cells p q &&& shipMask = t → ((p.val : Int), (q.val : Int)) ∈ cells

instance (b : Board) (cells : List (Int × Int)) (t : Nat) : Decidable (b.covered cells t) := by
  unfold Board.covered; infer_instance

/-- The initial of a ship type, as the bottom board shows it. -/
def shipInitial (t : Nat) : Option Char :=
  if t = shipCarrier then some 'C'
  else if t = shipBattleship then some 'B'
  else if t = shipDestroyer then some 'D'
  else if t = shipSubmarine then some 'S'
  else if t = shipPatrolBoat then some 'P'
  else none

/-- The two characters of a cell in the top grid, in the words of the specification:
`"X "` when the hit flag is set, `"O "` when only the outgoing-shot flag is set, two
spaces otherwise. -/
def topText (c : Nat) : List Char :=
  if c.testBit 1 = true then ['X', ' ']
  else if c.testBit 0 = true then ['O', ' ']
  else [' ', ' ']

/-- The two characters of a cell in the bottom grid, in the words of the specification:
`"X "` when the cell holds a ship and carries the incoming-shot flag, otherwise the
initial of the ship and a space, and two spaces when there is no initial to show. -/
def bottomText (c : Nat) : List Char :=
  if c &&& shipMask ≠ 0 ∧ c.testBit 2 = true then ['X', ' ']
  else
    match shipInitial (c &&& shipMask) with
    | some initial => [initial, ' ']
    | none => [' ', ' ']

/-- One row of a grid: the letter `'A' + y`, a space and the ten cells for `x = 0..9`. -/
def rowText (b : Board) (cellText : Nat → List Char) (y : Nat) : List Char :=
  [Char.ofNat (65 + y), ' '] ++
    (List.range 10).flatMap fun (x : Nat) => cellText (b.cell (x : Int) (y : Int))

/-- The ten rows of a grid, for `y = 9` down to `0`. -/
def gridLines (b : Board) (cellText : Nat → List Char) : List (List Char) :=
  (List.range 10).reverse.map (rowText b cellText)

/-- The header of a grid, without its newline. -/
def headerLine : List Char :=
  [' ', ' ', '1', ' ', '2', ' ', '3', ' ', '4', ' ', '5', ' ', '6', ' ', '7', ' ', '8', ' ',
    '9', ' ', '1', '0']

/-- The lines of the rendering in the words of the specification: header and ten rows of
the top grid, an empty line, header and ten rows of the bottom grid. -/
def renderLines (b : Board) : List (List Char) :=
  headerLine :: gridLines b topText ++ [[]] ++ headerLine :: gridLines b bottomText

/-! ## Example boards -/

/-- A PatrolBoat on `(0, 0)` and `(1, 0)` and nothing else: the empty board after
`PlaceShip(0, 0, right, shipPatrolBoat)`. -/
def demoFleet : Board :=
  ⟨fun i j => if i.val < 2 ∧ j.val = 0 then shipPatrolBoat else 0⟩

/-- The board `demoFleet` after the opponent shot at `(0, 0)`. -/
def demoHit : Board :=
  ⟨fun i j => if i.val = 0 ∧ j.val = 0 then shipPatrolBoat ||| opponentHit
    else if i.val = 1 ∧ j.val = 0 then shipPatrolBoat else 0⟩

/-- The board `demoFleet` after the opponent shot at `(0, 0)` and at `(1, 0)`. -/
def demoSunk : Board :=
  ⟨fun i j => if i.val < 2 ∧ j.val = 0 then shipPatrolBoat ||| opponentHit else 0⟩

/-- A board whose cell `(0, 0)` carries the hit flag without the outgoing-shot flag. -/
def demoHitOnly : Board :=
  ⟨fun i j => if i.val = 0 ∧ j.val = 0 then playerHit else 0⟩

/-- A board of the AI with three hits in a row, on `(5, 0)`, `(6, 0)` and `(7, 0)`, and
no other shot. -/
def demoRow : Board :=
  ⟨fun i j => if j.val = 0 ∧ 5 ≤ i.val ∧ i.val ≤ 7 then playerShot ||| playerHit else 0⟩

/-- A board of the AI with one hit, on `(4, 4)`, and one miss, on `(4, 5)`. -/
def demoLone : Board :=
  ⟨fun i j => if i.val = 4 ∧ j.val = 4 then playerShot ||| playerHit
    else if i.val = 4 ∧ j.val = 5 then playerShot else 0⟩

/-- The empty board after the first `n` of the five placements, each towards the right
from the start of a row of its own: Carrier on row 0, Battleship on row 1, Destroyer on
row 2, Submarine on row 3, PatrolBoat on row 4. -/
def demoShips (n : Nat) : Board :=
  ⟨fun i j =>
    if j.val = 0 ∧ i.val < 5 ∧ 0 < n then shipCarrier
    else if j.val = 1 ∧ i.val < 4 ∧ 1 < n then shipBattleship
    else if j.val = 2 ∧ i.val < 3 ∧ 2 < n then shipDestroyer
    else if j.val = 3 ∧ i.val < 3 ∧ 3 < n then shipSubmarine
    else if j.val = 4 ∧ i.val < 2 ∧ 4 < n then shipPatrolBoat
    else 0⟩

/-- A board of the AI with hits on `(5, 5)` and `(6, 5)` and misses on both ends of
that run, `(4, 5)` and `(7, 5)`. -/
def demoDeadEnd : Board :=
  ⟨fun i j =>
    if j.val = 5 ∧ (i.val = 5 ∨ i.val = 6) then playerShot ||| playerHit
    else if j.val = 5 ∧ (i.val = 4 ∨ i.val = 7) then playerShot else 0⟩

/-- A board of the AI with hits on `(5, 5)`, `(6, 5)` and `(5, 6)` and misses on the ends
of the row run and of the column run, `(4, 5)`, `(7, 5)`, `(5, 4)` and `(5, 7)`. -/
def demoCross : Board :=
  ⟨fun i j =>
    if (i.val = 5 ∧ j.val = 5) ∨ (i.val = 6 ∧ j.val = 5) ∨ (i.val = 5 ∧ j.val = 6) then
      playerShot ||| playerHit
    else if (i.val = 4 ∧ j.val = 5) ∨ (i.val = 7 ∧ j.val = 5) ∨ (i.val = 5 ∧ j.val = 4) ∨
        (i.val = 5 ∧ j.val = 7) then playerShot
    else 0⟩

/-! ## Coordinates and cell access -/

theorem IsValid_iff (x y : Int) : IsValid x y = true ↔ 0 ≤ x ∧ x < 10 ∧ 0 ≤ y ∧ y < 10 := by
  unfold IsValid boardSize
  by_cases h1 : x < 0 <;> by_cases h2 : x ≥ 10 <;> by_cases h3 : y < 0 <;>
    by_cases h4 : y ≥ 10 <;> (simp [h1, h2, h3, h4]; try omega)

theorem IsValid_coe (p q : Fin 10) : IsValid (p.val : Int) (q.val : Int) = true := by
  rw [IsValid_iff]; omega

theorem exists_fin_of_valid {x y : Int} (h : IsValid x y = true) :
    ∃ p q : Fin 10, x = (p.val : Int) ∧ y = (q.val : Int) := by
  rw [IsValid_iff] at h
  exact ⟨⟨x.toNat, by omega⟩, ⟨y.toNat, by omega⟩, by simp; omega, by simp; omega⟩

theorem Board.get_coe (b : Board) (p q : Fin 10) :
    b.get (p.val : Int) (q.val : Int) = some (b.cells p q) := by
  have h : 0 ≤ (p.val : Int) ∧ (p.val : Int) < 10 ∧ 0 ≤ (q.val : Int) ∧ (q.val : Int) < 10 := by
    omega
  simp [Board.get, h]

theorem Board.get_eq_none {b : Board} {x y : Int} (h : IsValid x y = false) :
    b.get x y = none := by
  have h' : ¬ (0 ≤ x ∧ x < 10 ∧ 0 ≤ y ∧ y < 10) := by
    rw [← IsValid_iff]; simp [h]
  simp [Board.get, h']

theorem Board.set_coe (b : Board) (p q : Fin 10) (v : Nat) :
    b.set (p.val : Int) (q.val : Int) v =
      some ⟨fun i j => if i = p ∧ j = q then v else b.cells i j⟩ := by
  have h : 0 ≤ (p.val : Int) ∧ (p.val : Int) < 10 ∧ 0 ≤ (q.val : Int) ∧ (q.val : Int) < 10 := by
    omega
  simp only [Board.set, h, and_self, if_true]
  congr 2
  funext i j
  simp [Fin.ext_iff]

/-! ## PlaceShip -/

theorem PlaceShip.check_free (b : Board) (mx my : Int) :
    ∀ (n : Nat) (ix iy : Int),
      (∀ i : Nat, i < n → IsValid (ix + i * mx) (iy + i * my) = true ∧
        ∃ c, b.get (ix + i * mx) (iy + i * my) = some c ∧ c &&& shipMask = 0) →
      PlaceShip.check b mx my n ix iy = some none := by
  intro n
  induction n with
  | zero => intro ix iy _; rfl
  | succ n ih =>
    intro ix iy h
    obtain ⟨hv, c, hc, hz⟩ := h 0 (Nat.succ_pos n)
    simp only [Nat.cast_zero, zero_mul, add_zero] at hv hc
    have hrec : PlaceShip.check b mx my n (ix + mx) (iy + my) = some none := by
      apply ih
      intro i hi
      have := h (i + 1) (Nat.succ_lt_succ hi)
      have e1 : ix + mx + (i : Int) * mx = ix + ((i + 1 : Nat) : Int) * mx := by push_cast; ring
      have e2 : iy + my + (i : Int) * my = iy + ((i + 1 : Nat) : Int) * my := by push_cast; ring
      rw [e1, e2]; exact this
    simp [PlaceShip.check, hv, hc, hz, hrec]

theorem PlaceShip.check_blocked (b : Board) (mx my : Int) :
    ∀ (n : Nat) (ix iy : Int),
      (∃ i : Nat, i < n ∧ (IsValid (ix + i * mx) (iy + i * my) = false ∨
        ∃ c, b.get (ix + i * mx) (iy + i * my) = some c ∧ c &&& shipMask ≠ 0)) →
      ∃ e, PlaceShip.check b mx my n ix iy = some (some e) := by
  intro n
  induction n with
  | zero => intro ix iy ⟨i, hi, _⟩; omega
  | succ n ih =>
    intro ix iy ⟨i, hi, hbad⟩
    by_cases hv : IsValid ix iy = true
    · obtain ⟨p, q, rfl, rfl⟩ := exists_fin_of_valid hv
      by_cases hz : b.cells p q &&& shipMask = 0
      · have hi0 : i ≠ 0 := by
          rintro rfl
          simp only [Nat.cast_zero, zero_mul, add_zero, hv, Board.get_coe] at hbad
          simp [hz] at hbad
        obtain ⟨j, rfl⟩ := Nat.exists_eq_succ_of_ne_zero hi0
        have hrec := ih ((p.val : Int) + mx) ((q.val : Int) + my) ⟨j, by omega, by
          have e1 : (p.val : Int) + mx + (j : Int) * mx = (p.val : Int) + ((j + 1 : Nat) : Int) * mx := by
            push_cast; ring
          have e2 : (q.val : Int) + my + (j : Int) * my = (q.val : Int) + ((j + 1 : Nat) : Int) * my := by
            push_cast; ring
          rw [e1, e2]; exact hbad⟩
        obtain ⟨e, he⟩ := hrec
        exact ⟨e, by simp [PlaceShip.check, hv, Board.get_coe, hz, he]⟩
      · exact ⟨.occupied p.val q.val, by
          simp [PlaceShip.check, hv, Board.get_coe, Nat.pos_iff_ne_zero, hz]⟩
    · exact ⟨.offBoard, by simp [PlaceShip.check, hv]⟩

theorem PlaceShip.write_spec (t : Nat) (mx my : Int) :
    ∀ (n : Nat) (b : Board) (x y : Int),
      (∀ i : Nat, i < n → IsValid (x + i * mx) (y + i * my) = true) →
      ∃ b1, PlaceShip.write t mx my n b x y = some b1 ∧
        ∀ p q : Fin 10, b1.cells p q =
          if ∃ i : Nat, i < n ∧ (p.val : Int) = x + i * mx ∧ (q.val : Int) = y + i * my
          then t else b.cells p q := by
  intro n
  induction n with
  | zero => intro b x y _; exact ⟨b, rfl, by simp⟩
  | succ n ih =>
    intro b x y h
    have hv := h 0 (Nat.succ_pos n)
    simp only [Nat.cast_zero, zero_mul, add_zero] at hv
    obtain ⟨p0, q0, rfl, rfl⟩ := exists_fin_of_valid hv
    obtain ⟨b1, hb1, hcells⟩ := ih ⟨fun i j => if i = p0 ∧ j = q0 then t else b.cells i j⟩
      ((p0.val : Int) + mx) ((q0.val : Int) + my) (by
        intro i hi
        have := h (i + 1) (Nat.succ_lt_succ hi)
        have e1 : (p0.val : Int) + mx + (i : Int) * mx = (p0.val : Int) + ((i + 1 : Nat) : Int) * mx := by
          push_cast; ring
        have e2 : (q0.val : Int) + my + (i : Int) * my = (q0.val : Int) + ((i + 1 : Nat) : Int) * my := by
          push_cast; ring
        rw [e1, e2]; exact this)
    refine ⟨b1, by simp [PlaceShip.write, Board.set_coe, hb1], ?_⟩
    intro p q
    rw [hcells p q]
    by_cases hex : ∃ i : Nat, i < n ∧ (p.val : Int) = (p0.val : Int) + mx + i * mx ∧
        (q.val : Int) = (q0.val : Int) + my + i * my
    · rw [if_pos hex]
      obtain ⟨i, hi, h1, h2⟩ := hex
      rw [if_pos ⟨i + 1, by omega, by push_cast; rw [h1]; ring, by push_cast; rw [h2]; ring⟩]
    · rw [if_neg hex]
      by_cases h0 : p = p0 ∧ q = q0
      · rw [if_pos ⟨0, by omega, by simp [h0.1], by simp [h0.2]⟩]
        simp [h0]
      · have : ¬ ∃ i : Nat, i < n + 1 ∧ (p.val : Int) = (p0.val : Int) + i * mx ∧
            (q.val : Int) = (q0.val : Int) + i * my := by
          rintro ⟨i, hi, h1, h2⟩
          rcases Nat.eq_zero_or_eq_succ_pred i with rfl | hs
          · apply h0
            simp only [Nat.cast_zero, zero_mul, add_zero] at h1 h2
            exact ⟨Fin.ext (by exact_mod_cast h1), Fin.ext (by exact_mod_cast h2)⟩
          · apply hex
            refine ⟨i - 1, by omega, ?_, ?_⟩
            · rw [h1, hs]; push_cast; simp; ring
            · rw [h2, hs]; push_cast; simp; ring
        rw [if_neg this]
        simp [h0]

theorem PlaceShip.length_of_mem {t L : Nat} (h : (t, L) ∈ fleetTable) :
    PlaceShip.length t = some L := by
  simp only [fleetTable, List.mem_cons, Prod.mk.injEq, List.mem_singleton, List.not_mem_nil,
    or_false] at h
  rcases h with ⟨rfl, rfl⟩ | ⟨rfl, rfl⟩ | ⟨rfl, rfl⟩ | ⟨rfl, rfl⟩ | ⟨rfl, rfl⟩ <;> rfl

theorem PlaceShip.vector_of_mem {d mx my : Int} (h : (d, mx, my) ∈ directionTable) :
    PlaceShip.vector d = some (mx, my) := by
  simp only [directionTable, List.mem_cons, Prod.mk.injEq, List.mem_singleton,
    List.not_mem_nil, or_false] at h
  rcases h with ⟨rfl, rfl, rfl⟩ | ⟨rfl, rfl, rfl⟩ | ⟨rfl, rfl, rfl⟩ | ⟨rfl, rfl, rfl⟩ <;> rfl

theorem PlaceShip.length_eq_none {t : Nat} (h : ∀ L, (t, L) ∉ fleetTable) :
    PlaceShip.length t = none := by
  simp only [fleetTable, List.mem_cons, Prod.mk.injEq, List.mem_singleton, List.not_mem_nil,
    or_false, not_or, not_and] at h
  unfold PlaceShip.length
  have h5 := h 5; have h4 := h 4; have h3 := h 3; have h2 := h 2
  simp only [not_true_eq_false, imp_false] at h5 h4 h3 h2
  simp [h5.1, h4.2.1, h3.2.2.1, h3.2.2.2.1, h2.2.2.2.2]

theorem PlaceShip.vector_eq_none {d : Int} (h : ∀ mx my, (d, mx, my) ∉ directionTable) :
    PlaceShip.vector d = none := by
  simp only [directionTable, List.mem_cons, Prod.mk.injEq, List.mem_singleton,
    List.not_mem_nil, or_false, not_or, not_and] at h
  unfold PlaceShip.vector
  have h1 := h 0 1; have h2 := h 0 (-1); have h3 := h (-1) 0; have h4 := h 1 0
  simp only [not_true_eq_false, imp_false, and_true, true_and, and_self] at h1 h2 h3 h4
  simp [h1.1, h2.2.1, h3.2.2.1, h4.2.2.2]

/-- C1. PlaceShip success: for a direction of the table with step `(mx, my)` and a ship
type `t` of length `L`, when each of the `L` cells `(x + i*mx, y + i*my)` is on the grid
and holds no ship tag, `PlaceShip` returns no error, each of those cells holds exactly
`t` afterwards and every other cell of the board is unchanged. -/
theorem PlaceShip_success (b : Board) (x y d mx my : Int) (t L : Nat)
    (hd : (d, mx, my) ∈ directionTable) (ht : (t, L) ∈ fleetTable)
    (hfree : ∀ i : Nat, i < L → IsValid (x + i * mx) (y + i * my) = true ∧
      ∃ c, b.get (x + i * mx) (y + i * my) = some c ∧ c &&& shipMask = 0) :
    ∃ b1, PlaceShip b x y d t = some (b1, none) ∧
      (∀ i : Nat, i < L → b1.get (x + i * mx) (y + i * my) = some t) ∧
      (∀ p q : Fin 10,
        (∀ i : Nat, i < L → ¬ ((p.val : Int) = x + i * mx ∧ (q.val : Int) = y + i * my)) →
        b1.cells p q = b.cells p q) := by
  obtain ⟨b1, hw, hcells⟩ := PlaceShip.write_spec t mx my L b x y (fun i hi => (hfree i hi).1)
  refine ⟨b1, ?_, ?_, ?_⟩
  · simp [PlaceShip, PlaceShip.length_of_mem ht, PlaceShip.vector_of_mem hd,
      PlaceShip.check_free b mx my L x y hfree, hw]
  · intro i hi
    obtain ⟨p, q, hp, hq⟩ := exists_fin_of_valid (hfree i hi).1
    rw [hp, hq, Board.get_coe, hcells p q, if_pos ⟨i, hi, hp.symm, hq.symm⟩]
  · intro p q hpq
    rw [hcells p q, if_neg]
    rintro ⟨i, hi, h1, h2⟩
    exact hpq i hi ⟨h1, h2⟩

/-- C2. PlaceShip failure is atomic: when the ship type is not in the fleet table, or
the direction is not in the direction table, or the run of `L` cells from `(x, y)`
contains an off-grid cell or a cell that already holds a ship tag, `PlaceShip` returns an
error and the board after the call is the board before it. -/
theorem PlaceShip_failure_atomic (b : Board) (x y d : Int) (t : Nat)
    (hbad : (∀ L, (t, L) ∉ fleetTable) ∨ (∀ mx my, (d, mx, my) ∉ directionTable) ∨
      ∃ L mx my, (t, L) ∈ fleetTable ∧ (d, mx, my) ∈ directionTable ∧
        ∃ i : Nat, i < L ∧ (IsValid (x + i * mx) (y + i * my) = false ∨
          ∃ c, b.get (x + i * mx) (y + i * my) = some c ∧ c &&& shipMask ≠ 0)) :
    ∃ e, PlaceShip b x y d t = some (b, some e) := by
  rcases hbad with ht | hd | ⟨L, mx, my, ht, hd, hrun⟩
  · exact ⟨.invalidShipType, by simp [PlaceShip, PlaceShip.length_eq_none ht]⟩
  · cases hl : PlaceShip.length t with
    | none => exact ⟨.invalidShipType, by simp [PlaceShip, hl]⟩
    | some L => exact ⟨.invalidDirection, by simp [PlaceShip, hl, PlaceShip.vector_eq_none hd]⟩
  · obtain ⟨e, he⟩ := PlaceShip.check_blocked b mx my L x y hrun
    exact ⟨e, by simp [PlaceShip, PlaceShip.length_of_mem ht, PlaceShip.vector_of_mem hd, he]⟩

theorem PlaceShip_success_witness :
    ∃ b1, PlaceShip Board.empty 4 2 up shipDestroyer = some (b1, none) ∧
      (∀ i : Nat, i < 3 → b1.get (4 + i * 0) (2 + i * 1) = some shipDestroyer) ∧
      (∀ p q : Fin 10,
        (∀ i : Nat, i < 3 → ¬ ((p.val : Int) = 4 + i * 0 ∧ (q.val : Int) = 2 + i * 1)) →
        b1.cells p q = Board.empty.cells p q) :=
  PlaceShip_success Board.empty 4 2 up 0 1 shipDestroyer 3 (by decide) (by decide)
    (by decide)

theorem PlaceShip_failure_atomic_witness :
    ∃ e, PlaceShip Board.empty 5 9 up shipPatrolBoat = some (Board.empty, some e) :=
  PlaceShip_failure_atomic Board.empty 5 9 up shipPatrolBoat
    (Or.inr (Or.inr ⟨2, 0, 1, by decide, by decide, 1, by decide, Or.inl (by decide)⟩))

/-! ## Position codec: library functions -/

theorem char_eq_of_toNat_eq {a b : Char} (h : a.toNat = b.toNat) : a = b := by
  rw [← Char.ofNat_toNat a, ← Char.ofNat_toNat b, h]

theorem char_toNat_ofNat {n : Nat} (h : n < 55296 ∨ (57343 < n ∧ n < 1114112)) :
    (Char.ofNat n).toNat = n := by
  unfold Char.ofNat
  rw [dif_pos h]
  rfl

theorem strings.lowerChar_toNat_upper {c : Char} (h : 65 ≤ c.toNat ∧ c.toNat ≤ 90) :
    (strings.lowerChar c).toNat = c.toNat + 32 := by
  unfold strings.lowerChar
  rw [if_pos h]
  obtain ⟨h1, h2⟩ := h
  generalize c.toNat = n at h1 h2 ⊢
  interval_cases n <;> rfl

theorem strings.lowerChar_of_not_upper {c : Char} (h : ¬ (65 ≤ c.toNat ∧ c.toNat ≤ 90)) :
    strings.lowerChar c = c := by
  unfold strings.lowerChar
  rw [if_neg h]

theorem unicode.IsSpace_iff (c : Char) :
    unicode.IsSpace c = true ↔
      c.toNat = 9 ∨ c.toNat = 10 ∨ c.toNat = 11 ∨ c.toNat = 12 ∨ c.toNat = 13 ∨ c.toNat = 32 ∨
        c.toNat = 133 ∨ c.toNat = 160 ∨ c.toNat = 5760 ∨ (8192 ≤ c.toNat ∧ c.toNat ≤ 8202) ∨
        c.toNat = 8232 ∨ c.toNat = 8233 ∨ c.toNat = 8239 ∨ c.toNat = 8287 ∨ c.toNat = 12288 := by
  unfold unicode.IsSpace
  by_cases h : c.toNat ≤ 255
  · rw [if_pos h]
    simp only [Bool.or_eq_true, decide_eq_true_eq]
    omega
  · rw [if_neg h]
    simp only [Bool.or_eq_true, Bool.and_eq_true, decide_eq_true_eq]
    omega

theorem unicode.ToLower_ascii {c : Char} (h : c.toNat < 128) :
    unicode.ToLower c = strings.lowerChar c := by
  unfold unicode.ToLower
  rw [if_pos h]

/-- What the case ranges do to a rune beyond ASCII: U+0130 becomes `i`, U+212A becomes
`k`, and every other rune stays beyond ASCII and does not become white space. -/
theorem unicode.ToLower_wide (c : Char) (h : 128 ≤ c.toNat) :
    (c.toNat = 304 ∧ unicode.ToLower c = 'i') ∨ (c.toNat = 8490 ∧ unicode.ToLower c = 'k') ∨
      (128 ≤ (unicode.ToLower c).toNat ∧
        (unicode.IsSpace (unicode.ToLower c) = true → unicode.ToLower c = c)) := by
  have hall : unicode.caseRanges.all (fun e =>
      match e.2.2 with
      | none =>
        decide (128 ≤ e.1) &&
          (decide (e.2.1 + 1 < 55296) || (decide (57343 < e.1) && decide (e.2.1 + 1 < 1114112))) &&
          (decide (e.2.1 + 1 < 133) || decide (133 < e.1)) &&
          (decide (e.2.1 + 1 < 160) || decide (160 < e.1)) &&
          (decide (e.2.1 + 1 < 5760) || decide (5760 < e.1)) &&
          (decide (e.2.1 + 1 < 8192) || decide (8202 < e.1)) &&
          (decide (e.2.1 + 1 < 8232) || decide (8233 < e.1)) &&
          (decide (e.2.1 + 1 < 8239) || decide (8239 < e.1)) &&
          (decide (e.2.1 + 1 < 8287) || decide (8287 < e.1)) &&
          (decide (e.2.1 + 1 < 12288) || decide (12288 < e.1))
      | some t =>
        (decide (e.1 = 304) && decide (e.2.1 = 304) && decide (t = 105)) ||
        (decide (e.1 = 8490) && decide (e.2.1 = 8490) && decide (t = 107)) ||
        (decide (128 ≤ t) &&
          (decide (t + (e.2.1 - e.1) < 55296) ||
            (decide (57343 < t) && decide (t + (e.2.1 - e.1) < 1114112))) &&
          (decide (t + (e.2.1 - e.1) < 133) || decide (133 < t)) &&
          (decide (t + (e.2.1 - e.1) < 160) || decide (160 < t)) &&
          (decide (t + (e.2.1 - e.1) < 5760) || decide (5760 < t)) &&
          (decide (t + (e.2.1 - e.1) < 8192) || decide (8202 < t)) &&
          (decide (t + (e.2.1 - e.1) < 8232) || decide (8233 < t)) &&
          (decide (t + (e.2.1 - e.1) < 8239) || decide (8239 < t)) &&
          (decide (t + (e.2.1 - e.1) < 8287) || decide (8287 < t)) &&
          (decide (t + (e.2.1 - e.1) < 12288) || decide (12288 < t)))) = true := by
    decide
  have hnot : ¬ c.toNat < 128 := by omega
  unfold unicode.ToLower
  rw [if_neg hnot]
  cases hf : unicode.caseRanges.find? (fun e => decide (e.1 ≤ c.toNat ∧ c.toNat ≤ e.2.1)) with
  | none => exact Or.inr (Or.inr ⟨h, fun _ => rfl⟩)
  | some e =>
    obtain ⟨lo, hi, k⟩ := e
    have hmem := List.mem_of_find?_eq_some hf
    have hp := List.find?_some hf
    simp only [decide_eq_true_eq] at hp
    obtain ⟨hp1, hp2⟩ := hp
    have hok := List.all_eq_true.mp hall _ hmem
    cases k with
    | none =>
      simp only [Bool.and_eq_true, Bool.or_eq_true, decide_eq_true_eq] at hok
      have hm : (Char.ofNat (lo + ((c.toNat - lo) / 2 * 2 + 1))).toNat =
          lo + ((c.toNat - lo) / 2 * 2 + 1) := char_toNat_ofNat (by omega)
      refine Or.inr (Or.inr ⟨?_, fun hsp => ?_⟩)
      · show 128 ≤ (Char.ofNat (lo + ((c.toNat - lo) / 2 * 2 + 1))).toNat
        rw [hm]; omega
      · exfalso
        have hsp2 : unicode.IsSpace (Char.ofNat (lo + ((c.toNat - lo) / 2 * 2 + 1))) = true := hsp
        rw [unicode.IsSpace_iff, hm] at hsp2
        omega
    | some t =>
      simp only [Bool.and_eq_true, Bool.or_eq_true, decide_eq_true_eq] at hok
      rcases hok with (⟨⟨h1, h2⟩, h3⟩ | ⟨⟨h1, h2⟩, h3⟩) | hrest
      · have hc : c.toNat = 304 := by omega
        refine Or.inl ⟨hc, ?_⟩
        show Char.ofNat (t + (c.toNat - lo)) = 'i'
        have e1 : t + (c.toNat - lo) = 105 := by omega
        exact (congrArg Char.ofNat e1).trans rfl
      · have hc : c.toNat = 8490 := by omega
        refine Or.inr (Or.inl ⟨hc, ?_⟩)
        show Char.ofNat (t + (c.toNat - lo)) = 'k'
        have e1 : t + (c.toNat - lo) = 107 := by omega
        exact (congrArg Char.ofNat e1).trans rfl
      · have hm : (Char.ofNat (t + (c.toNat - lo))).toNat = t + (c.toNat - lo) :=
          char_toNat_ofNat (by omega)
        refine Or.inr (Or.inr ⟨?_, fun hsp => ?_⟩)
        · show 128 ≤ (Char.ofNat (t + (c.toNat - lo))).toNat
          rw [hm]; omega
        · exfalso
          have hsp2 : unicode.IsSpace (Char.ofNat (t + (c.toNat - lo))) = true := hsp
          rw [unicode.IsSpace_iff, hm] at hsp2
          omega

/-- Lower-casing moves no rune into or out of the codes below `A`: digits, signs and
ASCII white space are what they were. -/
theorem unicode.ToLower_toNat_iff (c : Char) (k : Nat) (hk : k < 65) :
    (unicode.ToLower c).toNat = k ↔ c.toNat = k := by
  by_cases h : c.toNat < 128
  · rw [unicode.ToLower_ascii h]
    by_cases hu : 65 ≤ c.toNat ∧ c.toNat ≤ 90
    · have h1 := strings.lowerChar_toNat_upper hu
      omega
    · rw [strings.lowerChar_of_not_upper hu]
  · rcases unicode.ToLower_wide c (by omega) with ⟨h1, h2⟩ | ⟨h1, h2⟩ | ⟨h1, -⟩
    · rw [h2]
      have : ('i' : Char).toNat = 105 := rfl
      omega
    · rw [h2]
      have : ('k' : Char).toNat = 107 := rfl
      omega
    · omega

/-- The runes that lower-case into `a`..`j`: these letters, `A`..`J`, and U+0130. -/
theorem unicode.ToLower_letter_iff (c : Char) :
    (97 ≤ (unicode.ToLower c).toNat ∧ (unicode.ToLower c).toNat ≤ 106) ↔
      ((97 ≤ c.toNat ∧ c.toNat ≤ 106) ∨ (65 ≤ c.toNat ∧ c.toNat ≤ 74) ∨ c.toNat = 304) := by
  by_cases h : c.toNat < 128
  · rw [unicode.ToLower_ascii h]
    by_cases hu : 65 ≤ c.toNat ∧ c.toNat ≤ 90
    · have h1 := strings.lowerChar_toNat_upper hu
      omega
    · rw [strings.lowerChar_of_not_upper hu]
      omega
  · rcases unicode.ToLower_wide c (by omega) with ⟨h1, h2⟩ | ⟨h1, h2⟩ | ⟨h1, -⟩
    · rw [h2]
      have : ('i' : Char).toNat = 105 := rfl
      omega
    · rw [h2]
      have : ('k' : Char).toNat = 107 := rfl
      omega
    · have hne : c.toNat ≠ 304 := by
        intro h304
        have hl : (unicode.ToLower (Char.ofNat 304)).toNat = 105 := by decide
        rw [char_eq_of_toNat_eq (show c.toNat = (Char.ofNat 304).toNat from h304)] at h1
        omega
      omega

theorem unicode.IsSpace_ToLower {c : Char} (h : unicode.IsSpace c = false) :
    unicode.IsSpace (unicode.ToLower c) = false := by
  by_cases ha : c.toNat < 128
  · rw [unicode.ToLower_ascii ha]
    by_cases hu : 65 ≤ c.toNat ∧ c.toNat ≤ 90
    · have h1 := strings.lowerChar_toNat_upper hu
      rw [← Bool.not_eq_true, unicode.IsSpace_iff]
      omega
    · rw [strings.lowerChar_of_not_upper hu]; exact h
  · rcases unicode.ToLower_wide c (by omega) with ⟨-, h2⟩ | ⟨-, h2⟩ | ⟨-, h2⟩
    · rw [h2]; decide
    · rw [h2]; decide
    · cases hs : unicode.IsSpace (unicode.ToLower c)
      · rfl
      · rw [h2 hs] at hs
        rw [h] at hs
        cases hs

theorem strings.TrimSpace_eq_self {l : List Char}
    (hhead : ∀ c, l.head? = some c → unicode.IsSpace c = false)
    (hlast : ∀ c, l.getLast? = some c → unicode.IsSpace c = false) :
    strings.TrimSpace l = l := by
  have h1 : l.dropWhile unicode.IsSpace = l := by
    cases l with
    | nil => rfl
    | cons a t => simp [List.dropWhile_cons, hhead a rfl]
  have h2 : l.reverse.dropWhile unicode.IsSpace = l.reverse := by
    cases hr : l.reverse with
    | nil => rfl
    | cons a t =>
      have : l.getLast? = some a := by
        rw [← List.head?_reverse, hr]; rfl
      simp [List.dropWhile_cons, hlast a this]
  unfold strings.TrimSpace
  rw [h1, h2, List.reverse_reverse]

theorem strings.TrimSpace_ToLower {s : List Char}
    (hhead : ∀ c, s.head? = some c → unicode.IsSpace c = false)
    (hlast : ∀ c, s.getLast? = some c → unicode.IsSpace c = false) :
    strings.TrimSpace (strings.ToLower s) = strings.ToLower s := by
  apply strings.TrimSpace_eq_self
  · intro c hc
    simp only [strings.ToLower, List.head?_map, Option.map_eq_some'] at hc
    obtain ⟨a, ha, rfl⟩ := hc
    exact unicode.IsSpace_ToLower (hhead a ha)
  · intro c hc
    simp only [strings.ToLower, List.getLast?_map, Option.map_eq_some'] at hc
    obtain ⟨a, ha, rfl⟩ := hc
    exact unicode.IsSpace_ToLower (hlast a ha)

theorem strconv.digitsValue_foldl (ds : List Char) :
    ∀ acc : Nat, ds.foldl (fun acc c => 10 * acc + (c.toNat - 48)) acc =
      acc * 10 ^ ds.length + decimalValue ds := by
  induction ds with
  | nil => intro acc; simp [decimalValue]
  | cons d t ih =>
    intro acc
    rw [List.foldl_cons, ih]
    simp only [decimalValue, List.map_cons, List.reverse_cons, Nat.ofDigits_append,
      Nat.ofDigits_singleton, List.length_reverse, List.length_map, List.length_cons]
    ring

theorem strconv.digitsValue_eq (ds : List Char) :
    strconv.digitsValue ds = decimalValue ds := by
  unfold strconv.digitsValue
  rw [strconv.digitsValue_foldl]; simp

theorem unicode.ToLower_digit_iff (d : Char) :
    (48 ≤ (unicode.ToLower d).toNat ∧ (unicode.ToLower d).toNat ≤ 57) ↔
      (48 ≤ d.toNat ∧ d.toNat ≤ 57) := by
  constructor
  · intro h
    have := (unicode.ToLower_toNat_iff d (unicode.ToLower d).toNat (by omega)).mp rfl
    omega
  · intro h
    have := (unicode.ToLower_toNat_iff d d.toNat (by omega)).mpr rfl
    omega

theorem strconv.ParseUint_eq_some_iff (ds : List Char) (n : Nat) :
    strconv.ParseUint ds = some n ↔
      ds ≠ [] ∧ (∀ d ∈ ds, 48 ≤ d.toNat ∧ d.toNat ≤ 57) ∧ n = decimalValue ds ∧ n < 2 ^ 64 := by
  unfold strconv.ParseUint
  rw [strconv.digitsValue_eq]
  by_cases he : ds = []
  · simp [he]
  · by_cases hd : ∀ d ∈ ds, 48 ≤ d.toNat ∧ d.toNat ≤ 57
    · have hall : ds.all (fun d => decide (48 ≤ d.toNat ∧ d.toNat ≤ 57)) = true := by
        simpa [List.all_eq_true] using hd
      rw [if_neg he, if_pos hall]
      by_cases hlt : decimalValue ds ≥ 2 ^ 64
      · rw [if_pos hlt]
        constructor
        · intro h; cases h
        · rintro ⟨_, _, rfl, h⟩; omega
      · rw [if_neg hlt]
        constructor
        · intro h
          cases h
          exact ⟨he, hd, rfl, by omega⟩
        · rintro ⟨_, _, rfl, _⟩; rfl
    · have hall : ¬ ds.all (fun d => decide (48 ≤ d.toNat ∧ d.toNat ≤ 57)) = true := by
        simpa [List.all_eq_true] using hd
      rw [if_neg he, if_neg hall]
      constructor
      · intro h; cases h
      · rintro ⟨_, h, _⟩; exact absurd h hd

theorem strconv.ParseUint_ToLower (ds : List Char) :
    strconv.ParseUint (strings.ToLower ds) = strconv.ParseUint ds := by
  by_cases hd : ∀ d ∈ ds, 48 ≤ d.toNat ∧ d.toNat ≤ 57
  · have : strings.ToLower ds = ds := by
      unfold strings.ToLower
      conv_rhs => rw [← List.map_id ds]
      apply List.map_congr_left
      intro d hmem
      have := hd d hmem
      exact char_eq_of_toNat_eq
        ((unicode.ToLower_toNat_iff d d.toNat (by omega)).mpr rfl)
    rw [this]
  · have h1 : strconv.ParseUint ds = none := by
      cases h : strconv.ParseUint ds with
      | none => rfl
      | some n => exact absurd ((strconv.ParseUint_eq_some_iff ds n).mp h).2.1 hd
    have h2 : strconv.ParseUint (strings.ToLower ds) = none := by
      cases h : strconv.ParseUint (strings.ToLower ds) with
      | none => rfl
      | some n =>
        exfalso
        apply hd
        intro d hmem
        have := ((strconv.ParseUint_eq_some_iff _ n).mp h).2.1 (unicode.ToLower d)
          (by unfold strings.ToLower; exact List.mem_map_of_mem _ hmem)
        exact (unicode.ToLower_digit_iff d).mp this
    rw [h1, h2]

theorem strconv.Atoi_eq_some_iff (c : Char) (t : List Char) (v : Int) :
    strconv.Atoi (c :: t) = some v ↔
      ∃ n, strconv.ParseUint (if c.toNat = 43 ∨ c.toNat = 45 then t else c :: t) = some n ∧
        ((c.toNat = 45 ∧ n ≤ 2 ^ 63 ∧ v = -(n : Int)) ∨
          (c.toNat ≠ 45 ∧ n < 2 ^ 63 ∧ v = (n : Int))) := by
  simp only [strconv.Atoi]
  cases hp : strconv.ParseUint (if c.toNat = 43 ∨ c.toNat = 45 then t else c :: t) with
  | none => simp
  | some un =>
    simp only [Option.some.injEq, exists_eq_left']
    by_cases hneg : c.toNat = 45
    · simp only [hneg, if_true, true_and, ne_eq, not_true_eq_false, false_and, or_false]
      by_cases hlt : un > 2 ^ 63
      · rw [if_pos hlt]
        constructor
        · intro h; cases h
        · rintro ⟨h, _⟩; omega
      · rw [if_neg hlt]
        constructor
        · intro h; cases h; exact ⟨by omega, rfl⟩
        · rintro ⟨_, rfl⟩; rfl
    · simp only [hneg, if_false, false_and, false_or, ne_eq, not_false_eq_true, true_and]
      by_cases hlt : un ≥ 2 ^ 63
      · rw [if_pos hlt]
        constructor
        · intro h; cases h
        · rintro ⟨h, _⟩; omega
      · rw [if_neg hlt]
        constructor
        · intro h; cases h; exact ⟨by omega, rfl⟩
        · rintro ⟨_, rfl⟩; rfl

theorem strconv.Atoi_ToLower (r : List Char) :
    strconv.Atoi (strings.ToLower r) = strconv.Atoi r := by
  cases r with
  | nil => rfl
  | cons c t =>
    have hk : ∀ k, k < 65 → ((unicode.ToLower c).toNat = k ↔ c.toNat = k) :=
      fun k hk => unicode.ToLower_toNat_iff c k hk
    have e : strings.ToLower (c :: t) = unicode.ToLower c :: strings.ToLower t := rfl
    have hds : (if c.toNat = 43 ∨ c.toNat = 45 then strings.ToLower t
        else unicode.ToLower c :: strings.ToLower t) =
        strings.ToLower (if c.toNat = 43 ∨ c.toNat = 45 then t else c :: t) := by
      split_ifs <;> rfl
    apply Option.ext
    intro v
    rw [e, Option.mem_def, Option.mem_def, strconv.Atoi_eq_some_iff,
      strconv.Atoi_eq_some_iff]
    simp only [hk 43 (by norm_num), hk 45 (by norm_num), ne_eq, hds, strconv.ParseUint_ToLower]

theorem strconv.Atoi_sound {r : List Char} {v : Int} (h : strconv.Atoi r = some v) :
    IsDecimalInteger r v ∧ -2 ^ 63 ≤ v ∧ v < 2 ^ 63 := by
  cases r with
  | nil => simp [strconv.Atoi] at h
  | cons c t =>
    rw [strconv.Atoi_eq_some_iff] at h
    obtain ⟨n, hp, hv⟩ := h
    rw [strconv.ParseUint_eq_some_iff] at hp
    obtain ⟨hne, hdig, hn, -⟩ := hp
    have hrange : -2 ^ 63 ≤ v ∧ v < 2 ^ 63 := by
      rcases hv with ⟨-, h1, rfl⟩ | ⟨-, h1, rfl⟩
      · constructor
        · have : (n : Int) ≤ 2 ^ 63 := by exact_mod_cast h1
          omega
        · have : (0 : Int) ≤ (n : Int) := Int.ofNat_nonneg n
          have : (0 : Int) < 2 ^ 63 := by norm_num
          omega
      · constructor
        · have : (0 : Int) ≤ (n : Int) := Int.ofNat_nonneg n
          have : (0 : Int) < 2 ^ 63 := by norm_num
          omega
        · exact_mod_cast h1
    refine ⟨?_, hrange⟩
    by_cases hs : c.toNat = 43 ∨ c.toNat = 45
    · rw [if_pos hs] at hne hdig hn
      refine ⟨t, hne, hdig, ?_⟩
      rcases hv with ⟨h45, -, rfl⟩ | ⟨h45, -, rfl⟩
      · right; right
        exact ⟨by rw [char_eq_of_toNat_eq (show c.toNat = ('-' : Char).toNat from h45)],
          by rw [hn]⟩
      · right; left
        have h43 : c.toNat = 43 := by omega
        exact ⟨by rw [char_eq_of_toNat_eq (show c.toNat = ('+' : Char).toNat from h43)],
          by rw [hn]⟩
    · rw [if_neg hs] at hne hdig hn
      refine ⟨c :: t, hne, hdig, ?_⟩
      left
      rcases hv with ⟨h45, -, rfl⟩ | ⟨h45, -, rfl⟩
      · omega
      · exact ⟨rfl, by rw [hn]⟩

theorem IsDecimalInteger.unique {r : List Char} {v w : Int}
    (hv : IsDecimalInteger r v) (hw : IsDecimalInteger r w) : v = w := by
  obtain ⟨ds, hne, hdig, hcase⟩ := hv
  obtain ⟨es, hneE, hdigE, hcaseE⟩ := hw
  have plus : ¬ (48 ≤ ('+' : Char).toNat ∧ ('+' : Char).toNat ≤ 57) := by decide
  have minus : ¬ (48 ≤ ('-' : Char).toNat ∧ ('-' : Char).toNat ≤ 57) := by decide
  have pm : ('+' : Char) ≠ '-' := by decide
  rcases hcase with ⟨rfl, rfl⟩ | ⟨rfl, rfl⟩ | ⟨rfl, rfl⟩ <;>
    rcases hcaseE with ⟨h, rfl⟩ | ⟨h, rfl⟩ | ⟨h, rfl⟩
  · rw [h]
  · exact absurd (hdig '+' (by rw [h]; exact List.mem_cons_self _ _)) plus
  · exact absurd (hdig '-' (by rw [h]; exact List.mem_cons_self _ _)) minus
  · exact absurd (hdigE '+' (by rw [← h]; exact List.mem_cons_self _ _)) plus
  · rw [List.cons_inj_right] at h; rw [h]
  · exact absurd (List.head_eq_of_cons_eq h) pm
  · exact absurd (hdigE '-' (by rw [← h]; exact List.mem_cons_self _ _)) minus
  · exact absurd (List.head_eq_of_cons_eq h).symm pm
  · rw [List.cons_inj_right] at h; rw [h]

/-- Every byte `strconv.Atoi` accepts is a sign or a digit. -/
theorem strconv.Atoi_chars {r : List Char} {v : Int} (h : strconv.Atoi r = some v) :
    ∀ a ∈ r, a.toNat = 43 ∨ a.toNat = 45 ∨ (48 ≤ a.toNat ∧ a.toNat ≤ 57) := by
  obtain ⟨⟨ds, -, hdig, hcase⟩, -⟩ := strconv.Atoi_sound h
  intro a ha
  rcases hcase with ⟨rfl, -⟩ | ⟨rfl, -⟩ | ⟨rfl, -⟩
  · exact Or.inr (Or.inr (hdig a ha))
  · rcases List.mem_cons.mp ha with rfl | h1
    · exact Or.inl rfl
    · exact Or.inr (Or.inr (hdig a h1))
  · rcases List.mem_cons.mp ha with rfl | h1
    · exact Or.inr (Or.inl rfl)
    · exact Or.inr (Or.inr (hdig a h1))

/-! ## Position codec: bytes -/

theorem utf8.encodeRune_ascii {c : Char} (h : c.toNat < 128) :
    utf8.encodeRune c = [c.toNat] := by
  unfold utf8.encodeRune
  rw [if_pos h]

/-- The encoding of a rune beyond ASCII starts with a byte from 192 on. -/
theorem utf8.encodeRune_wide {c : Char} (h : 128 ≤ c.toNat) :
    ∃ (b : Nat) (bs : List Nat), utf8.encodeRune c = b :: bs ∧ 192 ≤ b ∧ b < 248 := by
  have hv : c.toNat < 1114112 := by
    have := c.valid
    rcases this with h1 | ⟨-, h2⟩
    · exact lt_trans h1 (by decide)
    · exact h2
  have hv2 : c.toNat < 1114112 := hv
  unfold utf8.encodeRune
  split_ifs with h1 h2 h3
  · omega
  · exact ⟨_, _, rfl, by omega, by omega⟩
  · exact ⟨_, _, rfl, by omega, by omega⟩
  · exact ⟨_, _, rfl, by omega, by omega⟩

theorem utf8.encode_ascii {s : List Char} (h : ∀ a ∈ s, a.toNat < 128) :
    (utf8.encode s).map Char.ofNat = s := by
  induction s with
  | nil => rfl
  | cons c t ih =>
    have hc := h c (List.mem_cons_self _ _)
    have ht := ih fun a ha => h a (List.mem_cons_of_mem _ ha)
    unfold utf8.encode at ht ⊢
    rw [List.flatMap_cons, utf8.encodeRune_ascii hc, List.map_append, ht]
    simp [Char.ofNat_toNat]

theorem utf8.encode_eq_nil {s : List Char} : utf8.encode s = [] ↔ s = [] := by
  constructor
  · intro h
    cases s with
    | nil => rfl
    | cons c t =>
      exfalso
      unfold utf8.encode at h
      rw [List.flatMap_cons] at h
      have hne : utf8.encodeRune c ≠ [] := by
        unfold utf8.encodeRune
        split_ifs <;> exact List.cons_ne_nil _ _
      exact hne (List.append_eq_nil.mp h).1
  · rintro rfl; rfl

/-- `strconv.Atoi` on the bytes of a text is `strconv.Atoi` on its characters: a rune
beyond ASCII is no digit, and neither is any of its bytes. -/
theorem strconv.Atoi_bytes (t : List Char) :
    strconv.Atoi ((utf8.encode t).map Char.ofNat) = strconv.Atoi t := by
  by_cases hall : ∀ a ∈ t, a.toNat < 128
  · rw [utf8.encode_ascii hall]
  · push_neg at hall
    obtain ⟨a, ha, ha128⟩ := hall
    have h1 : strconv.Atoi t = none := by
      cases h : strconv.Atoi t with
      | none => rfl
      | some v =>
        have := strconv.Atoi_chars h a ha
        omega
    have h2 : strconv.Atoi ((utf8.encode t).map Char.ofNat) = none := by
      cases h : strconv.Atoi ((utf8.encode t).map Char.ofNat) with
      | none => rfl
      | some v =>
        exfalso
        obtain ⟨b, bs, hb, hb1, hb2⟩ := utf8.encodeRune_wide ha128
        have hmem : Char.ofNat b ∈ (utf8.encode t).map Char.ofNat := by
          apply List.mem_map_of_mem
          unfold utf8.encode
          rw [List.mem_flatMap]
          exact ⟨a, ha, by rw [hb]; exact List.mem_cons_self _ _⟩
        have := strconv.Atoi_chars h _ hmem
        rw [char_toNat_ofNat (by omega)] at this
        omega
    rw [h1, h2]

/-! ## Position codec: ParsePosition -/

/-- ParsePosition on a text without surrounding white space whose first character is
ASCII, or lower-cases to ASCII. -/
theorem ParsePosition_cons {c : Char} {rest : List Char}
    (hhead : ∀ a, (c :: rest).head? = some a → unicode.IsSpace a = false)
    (hlast : ∀ a, (c :: rest).getLast? = some a → unicode.IsSpace a = false)
    (hc : (unicode.ToLower c).toNat < 128) :
    ParsePosition (c :: rest) =
      match strconv.Atoi rest with
      | none => some (.error (.invalidLocation (strings.ToLower (c :: rest))))
      | some v =>
        if !IsValid (wrap64 (v - 1)) ((((unicode.ToLower c).toNat + 256 - 97) % 256 : Nat) : Int)
        then some (.error (.invalidLocation (strings.ToLower (c :: rest))))
        else some (.ok (wrap64 (v - 1),
          ((((unicode.ToLower c).toNat + 256 - 97) % 256 : Nat) : Int))) := by
  unfold ParsePosition
  rw [if_neg (List.cons_ne_nil _ _)]
  simp only [strings.TrimSpace_ToLower hhead hlast]
  have e : strings.ToLower (c :: rest) = unicode.ToLower c :: strings.ToLower rest := rfl
  have hb : utf8.encode (unicode.ToLower c :: strings.ToLower rest) =
      (unicode.ToLower c).toNat :: utf8.encode (strings.ToLower rest) := by
    unfold utf8.encode
    rw [List.flatMap_cons, utf8.encodeRune_ascii hc]
    rfl
  rw [e, hb]
  simp only [strconv.Atoi_bytes, strconv.Atoi_ToLower]

/-- ParsePosition on a text without surrounding white space whose first character stays
beyond ASCII when lower-cased: the first byte is no letter. -/
theorem ParsePosition_wide {c : Char} {rest : List Char}
    (hhead : ∀ a, (c :: rest).head? = some a → unicode.IsSpace a = false)
    (hlast : ∀ a, (c :: rest).getLast? = some a → unicode.IsSpace a = false)
    (hc : 128 ≤ (unicode.ToLower c).toNat) :
    ∃ e, ParsePosition (c :: rest) = some (.error e) := by
  unfold ParsePosition
  rw [if_neg (List.cons_ne_nil _ _)]
  simp only [strings.TrimSpace_ToLower hhead hlast]
  have e : strings.ToLower (c :: rest) = unicode.ToLower c :: strings.ToLower rest := rfl
  obtain ⟨b, bs, hb, hb1, hb2⟩ := utf8.encodeRune_wide hc
  have hbytes : utf8.encode (unicode.ToLower c :: strings.ToLower rest) =
      b :: (bs ++ utf8.encode (strings.ToLower rest)) := by
    unfold utf8.encode
    rw [List.flatMap_cons, hb]
    rfl
  rw [e, hbytes]
  simp only
  cases strconv.Atoi ((bs ++ utf8.encode (strings.ToLower rest)).map Char.ofNat) with
  | none => exact ⟨_, rfl⟩
  | some v =>
    have hinvalid : IsValid (wrap64 (v - 1)) (((b + 256 - 97) % 256 : Nat) : Int) = false := by
      rw [← Bool.not_eq_true, IsValid_iff]
      omega
    simp only [hinvalid, Bool.not_false, if_true]
    exact ⟨_, rfl⟩

/-- C5 (as stated, refuted). The text `İ1`, the capital letter I with dot above (U+0130)
followed by the digit 1, has no surrounding white space and its first character is
neither in `a`..`j` nor in `A`..`J`, yet `ParsePosition` returns `x = 0, y = 8` with no
error: `strings.ToLower` turns U+0130 into `i`. -/
theorem ParsePosition_accepts_dotted_I :
    unicode.IsSpace (Char.ofNat 304) = false ∧ unicode.IsSpace '1' = false ∧
      ¬ (97 ≤ (Char.ofNat 304).toNat ∧ (Char.ofNat 304).toNat ≤ 106) ∧
      ¬ (65 ≤ (Char.ofNat 304).toNat ∧ (Char.ofNat 304).toNat ≤ 74) ∧
      ParsePosition [Char.ofNat 304, '1'] = some (.ok (0, 8)) := by
  decide

/-- C5 (amended). ParsePosition rejection: for every text without surrounding white
space, `ParsePosition` returns an error when the text is empty, when its first character
is none of `a`..`j`, `A`..`J` and U+0130 (the capital I with dot above, which
`strings.ToLower` turns into `i`), when the remainder after the first character is not a
decimal integer (an optional sign followed by one or more digits; the empty remainder is
none), or when that integer is below 1 (so also when it is 0) or above 10. -/
theorem ParsePosition_rejects (s : List Char)
    (hhead : ∀ a, s.head? = some a → unicode.IsSpace a = false)
    (hlast : ∀ a, s.getLast? = some a → unicode.IsSpace a = false)
    (hbad : s = [] ∨ ∃ c rest, s = c :: rest ∧
      ((¬ (97 ≤ c.toNat ∧ c.toNat ≤ 106) ∧ ¬ (65 ≤ c.toNat ∧ c.toNat ≤ 74) ∧ c.toNat ≠ 304) ∨
        (∀ v, ¬ IsDecimalInteger rest v) ∨
        (∃ v, IsDecimalInteger rest v ∧ (v < 1 ∨ 10 < v)))) :
    ∃ e, ParsePosition s = some (.error e) := by
  rcases hbad with rfl | ⟨c, rest, rfl, hcase⟩
  · exact ⟨.noLocation, rfl⟩
  · by_cases hc : (unicode.ToLower c).toNat < 128
    · rw [ParsePosition_cons hhead hlast hc]
      cases ha : strconv.Atoi rest with
      | none => exact ⟨_, rfl⟩
      | some w =>
        have hsound := strconv.Atoi_sound ha
        have hinvalid : IsValid (wrap64 (w - 1))
            ((((unicode.ToLower c).toNat + 256 - 97) % 256 : Nat) : Int) = false := by
          rw [← Bool.not_eq_true, IsValid_iff]
          rcases hcase with hletter | hnot | ⟨v, hv, hrange⟩
          · have hnl : ¬ (97 ≤ (unicode.ToLower c).toNat ∧ (unicode.ToLower c).toNat ≤ 106) := by
              rw [unicode.ToLower_letter_iff]
              omega
            omega
          · exact absurd hsound.1 (hnot w)
          · have hvw : v = w := IsDecimalInteger.unique hv hsound.1
            subst hvw
            have h1 := hsound.2.1
            have h2 := hsound.2.2
            unfold wrap64
            omega
        simp only [hinvalid, Bool.not_false, if_true]
        exact ⟨_, rfl⟩
    · exact ParsePosition_wide hhead hlast (by omega)

theorem ParsePosition_rejects_witness : ∃ e, ParsePosition ['a', '1', '1'] = some (.error e) :=
  ParsePosition_rejects ['a', '1', '1'] (by decide) (by decide)
    (Or.inr ⟨'a', ['1', '1'], rfl, Or.inr (Or.inr ⟨11,
      ⟨['1', '1'], by decide, by decide, Or.inl ⟨rfl, by decide⟩⟩, Or.inr (by decide)⟩)⟩)

/-- Every success of `ParsePosition` is on the grid. -/
theorem ParsePosition_ok_valid {s : List Char} {x y : Int}
    (h : ParsePosition s = some (.ok (x, y))) : IsValid x y = true := by
  unfold ParsePosition at h
  by_cases hs : s = []
  · rw [if_pos hs] at h; cases h
  · rw [if_neg hs] at h
    dsimp only at h
    split at h
    · cases h
    · split at h
      · cases h
      · split_ifs at h with hv
        · simp at h
        · simp only [Option.some.injEq, Except.ok.injEq, Prod.mk.injEq] at h
          rw [← h.1, ← h.2]
          simpa using hv

/-- `ParsePosition` panics exactly on a non-empty text that trims to the empty text. -/
theorem ParsePosition_eq_none_iff (s : List Char) :
    ParsePosition s = none ↔ s ≠ [] ∧ strings.TrimSpace (strings.ToLower s) = [] := by
  unfold ParsePosition
  by_cases hs : s = []
  · simp [hs]
  · rw [if_neg hs]
    simp only [ne_eq, hs, not_false_eq_true, true_and]
    cases hb : utf8.encode (strings.TrimSpace (strings.ToLower s)) with
    | nil =>
      simp only [true_iff]
      exact utf8.encode_eq_nil.mp hb
    | cons b rest =>
      have hne : strings.TrimSpace (strings.ToLower s) ≠ [] := by
        intro h0
        rw [h0] at hb
        cases hb
      simp only [hne, iff_false]
      cases strconv.Atoi (rest.map Char.ofNat) with
      | none => simp
      | some v =>
        simp only
        split_ifs <;> simp

/-- C3. Round trip: for every on-grid `(x, y)`, parsing the formatted position gives
`(x, y)` back with no error. -/
theorem ParsePosition_FormatPosition (x y : Int) (hx : 0 ≤ x ∧ x < 10) (hy : 0 ≤ y ∧ y < 10) :
    ParsePosition (FormatPosition x y) = some (.ok (x, y)) := by
  have key : ∀ a ∈ List.range 10, ∀ b ∈ List.range 10,
      ParsePosition (FormatPosition (a : Int) (b : Int)) = some (.ok ((a : Int), (b : Int))) := by
    decide
  have h := key x.toNat (by simp; omega) y.toNat (by simp; omega)
  rwa [Int.toNat_of_nonneg hx.1, Int.toNat_of_nonneg hy.1] at h

theorem ParsePosition_FormatPosition_witness :
    ParsePosition (FormatPosition 9 0) = some (.ok (9, 0)) :=
  ParsePosition_FormatPosition 9 0 (by decide) (by decide)

/-- C4. ParsePosition mapping: for the `k`-th letter of the alphabet, `k < 10`, in lower
case (`'a' + k`) or upper case (`'A' + k`), followed by the decimal digits of `n` with
`1 ≤ n ≤ 10`, `ParsePosition` returns no error, `x = n - 1` and `y = k`; both cases of
the letter give the same result. -/
theorem ParsePosition_mapping (k n : Nat) (hk : k < 10) (hn : 1 ≤ n ∧ n ≤ 10) :
    ParsePosition (Char.ofNat (97 + k) :: Nat.toDigits 10 n) =
        some (.ok ((n : Int) - 1, (k : Int))) ∧
      ParsePosition (Char.ofNat (65 + k) :: Nat.toDigits 10 n) =
        some (.ok ((n : Int) - 1, (k : Int))) := by
  have key : ∀ a ∈ List.range 10, ∀ m ∈ List.range 10,
      ParsePosition (Char.ofNat (97 + a) :: Nat.toDigits 10 (m + 1)) =
          some (.ok (((m + 1 : Nat) : Int) - 1, (a : Int))) ∧
        ParsePosition (Char.ofNat (65 + a) :: Nat.toDigits 10 (m + 1)) =
          some (.ok (((m + 1 : Nat) : Int) - 1, (a : Int))) := by
    decide
  have h := key k (by simp; omega) (n - 1) (by simp; omega)
  rwa [Nat.sub_add_cancel hn.1] at h

theorem ParsePosition_mapping_witness :
    ParsePosition (Char.ofNat (97 + 0) :: Nat.toDigits 10 10) =
        some (.ok (((10 : Nat) : Int) - 1, ((0 : Nat) : Int))) ∧
      ParsePosition (Char.ofNat (65 + 0) :: Nat.toDigits 10 10) =
        some (.ok (((10 : Nat) : Int) - 1, ((0 : Nat) : Int))) :=
  ParsePosition_mapping 0 10 (by decide) (by decide)

/-- C6 (failing input). On the one-blank text the empty-text guard does not fire, the
trimmed text is empty and `location[0]` panics. -/
theorem ParsePosition_blank_panics : ParsePosition [' '] = none := by decide

/-! ## Cells and walks -/

theorem Board.cell_coe (b : Board) (p q : Fin 10) :
    b.cell (p.val : Int) (q.val : Int) = b.cells p q := by
  simp [Board.cell, Board.get_coe]

theorem Board.get_of_valid (b : Board) {x y : Int} (h : IsValid x y = true) :
    b.get x y = some (b.cell x y) := by
  obtain ⟨p, q, rfl, rfl⟩ := exists_fin_of_valid h
  rw [Board.get_coe, Board.cell_coe]

/-! ## Bit facts -/

theorem or_flag_and_mask (c f : Nat) (hf : f &&& shipMask = 0) :
    (c ||| f) &&& shipMask = c &&& shipMask := by
  rw [Nat.and_comm, Nat.and_or_distrib_left, Nat.and_comm shipMask f, hf, Nat.or_zero,
    Nat.and_comm]

theorem or_flag_and_flag (c f g : Nat) (hf : f &&& g = 0) :
    (c ||| f) &&& g = c &&& g := by
  rw [Nat.and_comm, Nat.and_or_distrib_left, Nat.and_comm g f, hf, Nat.or_zero,
    Nat.and_comm]

theorem or_opponentHit_and (c : Nat) : (c ||| opponentHit) &&& opponentHit = opponentHit := by
  rw [Nat.and_comm, Nat.and_or_distrib_left]
  apply Nat.eq_of_testBit_eq
  intro i
  simp only [Nat.testBit_or, Nat.testBit_and, Nat.and_self]
  cases (Nat.testBit opponentHit i) <;> simp

theorem fleet_tag {t L : Nat} (h : (t, L) ∈ fleetTable) :
    t &&& shipMask = t ∧ t ≠ 0 ∧ 2 ≤ L ∧ L ≤ 5 := by
  simp only [fleetTable, List.mem_cons, Prod.mk.injEq, List.mem_singleton, List.not_mem_nil,
    or_false] at h
  rcases h with ⟨rfl, rfl⟩ | ⟨rfl, rfl⟩ | ⟨rfl, rfl⟩ | ⟨rfl, rfl⟩ | ⟨rfl, rfl⟩ <;> decide

/-! ## The loops of IsSunk -/

theorem IsSunk.forward_eq_scan (b : Board) (t : Nat) (vert : Bool) :
    ∀ (fuel : Nat) (ix iy : Int),
      IsSunk.forward b t vert fuel ix iy = IsSunk.scan b t (stepX vert) (stepY vert) fuel ix iy := by
  intro fuel
  induction fuel with
  | zero => intro ix iy; rfl
  | succ n ih =>
    intro ix iy
    cases vert <;> simp [IsSunk.forward, IsSunk.scan, ih, stepX, stepY]

theorem IsSunk.backward_eq_scan (b : Board) (t : Nat) (vert : Bool) :
    ∀ (fuel : Nat) (ix iy : Int),
      IsSunk.backward b t vert fuel ix iy =
        IsSunk.scan b t (-stepX vert) (-stepY vert) fuel (ix - stepX vert) (iy - stepY vert) := by
  intro fuel
  induction fuel with
  | zero => intro ix iy; rfl
  | succ n ih =>
    intro ix iy
    cases vert <;> simp [IsSunk.backward, IsSunk.scan, ih, stepX, stepY, sub_eq_add_neg]

/-- The walk returns within its fuel: `φ` grows by one with each step and is at most `B`
on the grid. -/
theorem IsSunk.scan_total (b : Board) (t : Nat) (dx dy : Int) (φ : Int → Int → Int) (B : Int)
    (hφ : ∀ ix iy, φ (ix + dx) (iy + dy) = φ ix iy + 1)
    (hB : ∀ ix iy, IsValid ix iy = true → φ ix iy ≤ B) :
    ∀ (fuel : Nat) (ix iy : Int), 0 < fuel →
      (IsValid ix iy = true → B + 1 - φ ix iy < fuel) →
      ∃ v, IsSunk.scan b t dx dy fuel ix iy = some v := by
  intro fuel
  induction fuel with
  | zero => intro ix iy h; omega
  | succ n ih =>
    intro ix iy _ hfuel
    by_cases hv : IsValid ix iy = true
    · have h1 := hfuel hv
      have h2 := hB ix iy hv
      have hrec := ih (ix + dx) (iy + dy) (by omega) (by
        intro _
        rw [hφ]; omega)
      obtain ⟨v, hv'⟩ := hrec
      simp only [IsSunk.scan, hv, Bool.not_true, Bool.false_eq_true, if_false,
        Board.get_of_valid b hv, hv']
      split_ifs <;> exact ⟨_, rfl⟩
    · exact ⟨true, by simp [IsSunk.scan, hv]⟩

/-- The value of a walk over a stretch of `k` cells tagged `t` that ends off the grid or
on a cell with another tag: it is `true` exactly when all `k` cells carry the
incoming-shot flag. -/
theorem IsSunk.scan_spec (b : Board) (t : Nat) (dx dy : Int) :
    ∀ (k fuel : Nat) (ix iy : Int), k < fuel →
      (∀ j : Nat, j < k → IsValid (ix + j * dx) (iy + j * dy) = true ∧
        b.cell (ix + j * dx) (iy + j * dy) &&& shipMask = t) →
      (IsValid (ix + k * dx) (iy + k * dy) = false ∨
        b.cell (ix + k * dx) (iy + k * dy) &&& shipMask ≠ t) →
      ∃ v, IsSunk.scan b t dx dy fuel ix iy = some v ∧
        (v = true ↔ ∀ j : Nat, j < k →
          b.cell (ix + j * dx) (iy + j * dy) &&& opponentHit ≠ 0) := by
  intro k
  induction k with
  | zero =>
    intro fuel ix iy hfuel _ hend
    obtain ⟨n, rfl⟩ := Nat.exists_eq_succ_of_ne_zero (Nat.pos_iff_ne_zero.mp hfuel)
    simp only [Nat.cast_zero, zero_mul, add_zero] at hend
    refine ⟨true, ?_, by simp⟩
    by_cases hv : IsValid ix iy = true
    · rcases hend with h | h
      · rw [hv] at h; cases h
      · simp [IsSunk.scan, hv, Board.get_of_valid b hv, h]
    · simp [IsSunk.scan, hv]
  | succ k ih =>
    intro fuel ix iy hfuel hrun hend
    obtain ⟨n, rfl⟩ := Nat.exists_eq_succ_of_ne_zero (show fuel ≠ 0 by omega)
    obtain ⟨hv, htag⟩ := hrun 0 (Nat.succ_pos k)
    simp only [Nat.cast_zero, zero_mul, add_zero] at hv htag
    have shift : ∀ j : Nat, ix + dx + (j : Int) * dx = ix + ((j + 1 : Nat) : Int) * dx ∧
        iy + dy + (j : Int) * dy = iy + ((j + 1 : Nat) : Int) * dy := by
      intro j; constructor <;> (push_cast; ring)
    obtain ⟨v, hscan, hiff⟩ := ih n (ix + dx) (iy + dy) (by omega)
      (by intro j hj; rw [(shift j).1, (shift j).2]; exact hrun (j + 1) (by omega))
      (by rw [(shift k).1, (shift k).2]; exact hend)
    by_cases hhit : b.cell ix iy &&& opponentHit = 0
    · refine ⟨false, by simp [IsSunk.scan, hv, Board.get_of_valid b hv, htag, hhit], ?_⟩
      simp only [Bool.false_eq_true, false_iff, not_forall]
      exact ⟨0, Nat.succ_pos k, by simpa using hhit⟩
    · refine ⟨v, by simp [IsSunk.scan, hv, Board.get_of_valid b hv, htag, hhit, hscan], ?_⟩
      rw [hiff]
      constructor
      · intro h j hj
        cases j with
        | zero => simpa using hhit
        | succ i =>
          rw [← (shift i).1, ← (shift i).2]
          exact h i (by omega)
      · intro h j hj
        rw [(shift j).1, (shift j).2]
        exact h (j + 1) (by omega)

theorem IsSunk.vertical_eq (b : Board) (t : Nat) {x y : Int} (h : IsValid x y = true) :
    IsSunk.vertical b t x y =
      some (decide ((y + 1 < 10 ∧ b.cell x (y + 1) &&& shipMask = t) ∨
        (0 ≤ y - 1 ∧ b.cell x (y - 1) &&& shipMask = t))) := by
  have h' := (IsValid_iff x y).mp h
  unfold IsSunk.vertical boardSize
  by_cases h1 : y + 1 < 10 <;> by_cases h2 : y - 1 ≥ 0
  · have v1 : IsValid x (y + 1) = true := by rw [IsValid_iff]; omega
    have v2 : IsValid x (y - 1) = true := by rw [IsValid_iff]; omega
    simp only [h1, h2, if_true, Board.get_of_valid b v1, Board.get_of_valid b v2]
    by_cases e : b.cell x (y + 1) &&& shipMask = t
    · simp [e]
    · have h2' : 0 ≤ y - 1 := h2
      simp [e, h2']
  · have v1 : IsValid x (y + 1) = true := by rw [IsValid_iff]; omega
    have h2' : ¬ 0 ≤ y - 1 := h2
    simp only [h1, h2, if_true, if_false, Board.get_of_valid b v1]
    by_cases e : b.cell x (y + 1) &&& shipMask = t
    · simp [e]
    · simp [e, h2']
  · have v2 : IsValid x (y - 1) = true := by rw [IsValid_iff]; omega
    have h2' : 0 ≤ y - 1 := h2
    simp [h1, h2', Board.get_of_valid b v2]
  · have h2' : ¬ 0 ≤ y - 1 := h2
    simp [h1, h2']

/-- IsSunk on the grid, with its reads resolved and its loops as walks. -/
theorem IsSunk_eq (b : Board) {x y : Int} (h : IsValid x y = true) (vert : Bool)
    (hvert : IsSunk.vertical b (b.cell x y &&& shipMask) x y = some vert) :
    IsSunk b x y =
      if b.cell x y &&& shipMask = 0 then some false
      else
        match IsSunk.scan b (b.cell x y &&& shipMask) (stepX vert) (stepY vert) 11 x y with
        | none => none
        | some false => some false
        | some true =>
          IsSunk.scan b (b.cell x y &&& shipMask) (-stepX vert) (-stepY vert) 11
            (x - stepX vert) (y - stepY vert) := by
  unfold IsSunk
  simp only [Board.get_of_valid b h, hvert, IsSunk.forward_eq_scan, IsSunk.backward_eq_scan]

/-- IsSunk returns on every board and every on-grid cell: no read is out of range and
eleven iterations are enough for each loop. -/
theorem IsSunk_total (b : Board) {x y : Int} (h : IsValid x y = true) :
    ∃ v, IsSunk b x y = some v := by
  have h' := (IsValid_iff x y).mp h
  have hvert := IsSunk.vertical_eq b (b.cell x y &&& shipMask) h
  rw [IsSunk_eq b h _ hvert]
  by_cases h0 : b.cell x y &&& shipMask = 0
  · exact ⟨false, by rw [if_pos h0]⟩
  · rw [if_neg h0]
    generalize (decide ((y + 1 < 10 ∧ b.cell x (y + 1) &&& shipMask = b.cell x y &&& shipMask) ∨
        (0 ≤ y - 1 ∧ b.cell x (y - 1) &&& shipMask = b.cell x y &&& shipMask))) = vert
    have hf : ∃ v, IsSunk.scan b (b.cell x y &&& shipMask) (stepX vert) (stepY vert) 11 x y =
        some v := by
      cases vert
      · exact IsSunk.scan_total b _ _ _ (fun ix _ => ix) 9 (by intro ix iy; simp [stepX])
          (by intro ix iy hv; rw [IsValid_iff] at hv; simp only; omega) 11 x y (by norm_num)
          (by intro _; simp only; push_cast; omega)
      · exact IsSunk.scan_total b _ _ _ (fun _ iy => iy) 9 (by intro ix iy; simp [stepY])
          (by intro ix iy hv; rw [IsValid_iff] at hv; simp only; omega) 11 x y (by norm_num)
          (by intro _; simp only; push_cast; omega)
    have hb : ∃ v, IsSunk.scan b (b.cell x y &&& shipMask) (-stepX vert) (-stepY vert) 11
        (x - stepX vert) (y - stepY vert) = some v := by
      cases vert
      · exact IsSunk.scan_total b _ _ _ (fun ix _ => -ix) 0 (by intro ix iy; simp [stepX]; ring)
          (by intro ix iy hv; rw [IsValid_iff] at hv; simp only; omega) 11 _ _ (by norm_num)
          (by intro _; simp only [stepX]; push_cast; simp; omega)
      · exact IsSunk.scan_total b _ _ _ (fun _ iy => -iy) 0 (by intro ix iy; simp [stepY]; ring)
          (by intro ix iy hv; rw [IsValid_iff] at hv; simp only; omega) 11 _ _ (by norm_num)
          (by intro _; simp only [stepY]; push_cast; simp; omega)
    obtain ⟨vf, hvf⟩ := hf
    obtain ⟨vb, hvb⟩ := hb
    rw [hvf]
    cases vf
    · exact ⟨false, rfl⟩
    · exact ⟨vb, hvb⟩

theorem step_cases (vert : Bool) :
    (stepX vert = 0 ∧ stepY vert = 1) ∨ (stepX vert = 1 ∧ stepY vert = 0) := by
  cases vert <;> simp [stepX, stepY]

theorem IsShipRun.cell_tag {b : Board} {t : Nat} {x0 y0 : Int} {vert : Bool} {L : Nat}
    (hrun : IsShipRun b t x0 y0 vert L) {x y : Int} (hv : IsValid x y = true) :
    b.cell x y &&& shipMask = t ↔ OnRun x0 y0 vert L x y := by
  obtain ⟨p, q, rfl, rfl⟩ := exists_fin_of_valid hv
  rw [Board.cell_coe]
  exact hrun.cells p q

theorem IsShipRun.length_le {b : Board} {t : Nat} {x0 y0 : Int} {vert : Bool} {L : Nat}
    (hrun : IsShipRun b t x0 y0 vert L) : L ≤ 10 := by
  have h0 := (IsValid_iff _ _).mp (hrun.valid 0 (by have := hrun.two_le; omega))
  have h1 := (IsValid_iff _ _).mp (hrun.valid (L - 1) (by have := hrun.two_le; omega))
  have h2 := hrun.two_le
  rcases step_cases vert with ⟨hx, hy⟩ | ⟨hx, hy⟩ <;> rw [hx, hy] at h0 h1 <;>
    simp only [Nat.cast_zero, zero_mul, add_zero, mul_zero, mul_one] at h0 h1 <;> omega

/-- IsSunk on a cell of a ship run: it returns, and it returns true exactly when every
cell of the run carries the incoming-shot flag. -/
theorem IsSunk_on_run {b : Board} {t : Nat} {x0 y0 : Int} {vert : Bool} {L : Nat}
    (hrun : IsShipRun b t x0 y0 vert L) (ht : t ≠ 0) (i0 : Nat) (hi0 : i0 < L) :
    ∃ v, IsSunk b (x0 + i0 * stepX vert) (y0 + i0 * stepY vert) = some v ∧
      (v = true ↔ ∀ i : Nat, i < L →
        b.cell (x0 + i * stepX vert) (y0 + i * stepY vert) &&& opponentHit ≠ 0) := by
  have hL := hrun.length_le
  have h2 := hrun.two_le
  have hcell : ∀ i : Nat, i < L →
      IsValid (x0 + i * stepX vert) (y0 + i * stepY vert) = true ∧
        b.cell (x0 + i * stepX vert) (y0 + i * stepY vert) &&& shipMask = t := by
    intro i hi
    exact ⟨hrun.valid i hi, (hrun.cell_tag (hrun.valid i hi)).mpr ⟨i, hi, rfl, rfl⟩⟩
  obtain ⟨hv, htag⟩ := hcell i0 hi0
  -- orientation
  have hvert : IsSunk.vertical b (b.cell (x0 + i0 * stepX vert) (y0 + i0 * stepY vert) &&& shipMask)
      (x0 + i0 * stepX vert) (y0 + i0 * stepY vert) = some vert := by
    rw [IsSunk.vertical_eq b _ hv, htag]
    congr 1
    have hv' := (IsValid_iff _ _).mp hv
    cases vert
    · -- horizontal: no cell above or below carries the tag
      simp only [stepX, stepY, Bool.false_eq_true, if_false, mul_one, mul_zero, add_zero] at hv' ⊢
      rw [decide_eq_false_iff_not]
      rintro (⟨h1, h2⟩ | ⟨h1, h2⟩)
      · have v1 : IsValid (x0 + i0) (y0 + 1) = true := by rw [IsValid_iff]; omega
        obtain ⟨i, _, _, hy⟩ := (hrun.cell_tag v1).mp h2
        simp [stepY] at hy
      · have v1 : IsValid (x0 + i0) (y0 - 1) = true := by rw [IsValid_iff]; omega
        obtain ⟨i, _, _, hy⟩ := (hrun.cell_tag v1).mp h2
        simp [stepY] at hy
    · -- vertical: the next or the previous cell of the run carries the tag
      simp only [stepX, stepY, if_true, mul_one, mul_zero, add_zero] at hv' ⊢
      rw [decide_eq_true_iff]
      by_cases hnext : i0 + 1 < L
      · left
        obtain ⟨hv1, ht1⟩ := hcell (i0 + 1) hnext
        simp only [stepX, stepY, if_true, mul_one, mul_zero, add_zero] at hv1 ht1
        have e : y0 + ((i0 + 1 : Nat) : Int) = y0 + i0 + 1 := by push_cast; ring
        rw [e] at hv1 ht1
        exact ⟨by have := (IsValid_iff _ _).mp hv1; omega, ht1⟩
      · right
        obtain ⟨hv1, ht1⟩ := hcell (i0 - 1) (by omega)
        simp only [stepX, stepY, if_true, mul_one, mul_zero, add_zero] at hv1 ht1
        have e : y0 + ((i0 - 1 : Nat) : Int) = y0 + i0 - 1 := by
          have : 1 ≤ i0 := by omega
          push_cast [this]; ring
        rw [e] at hv1 ht1
        exact ⟨by have := (IsValid_iff _ _).mp hv1; omega, ht1⟩
  rw [IsSunk_eq b hv vert hvert, htag, if_neg ht]
  -- the forward walk covers the cells i0 .. L-1
  have fshift : ∀ j : Nat, x0 + (i0 : Int) * stepX vert + (j : Int) * stepX vert =
        x0 + ((i0 + j : Nat) : Int) * stepX vert ∧
      y0 + (i0 : Int) * stepY vert + (j : Int) * stepY vert =
        y0 + ((i0 + j : Nat) : Int) * stepY vert := by
    intro j; constructor <;> (push_cast; ring)
  obtain ⟨vf, hvf, hfiff⟩ := IsSunk.scan_spec b t (stepX vert) (stepY vert) (L - i0) 11
    (x0 + i0 * stepX vert) (y0 + i0 * stepY vert) (by omega)
    (by intro j hj; rw [(fshift j).1, (fshift j).2]; exact hcell (i0 + j) (by omega))
    (by
      rw [(fshift (L - i0)).1, (fshift (L - i0)).2]
      have e : i0 + (L - i0) = L := by omega
      rw [e]
      by_cases hvL : IsValid (x0 + (L : Int) * stepX vert) (y0 + (L : Int) * stepY vert) = true
      · right
        rw [ne_eq, hrun.cell_tag hvL]
        rintro ⟨i, hi, h1, h2⟩
        rcases step_cases vert with ⟨hx, hy⟩ | ⟨hx, hy⟩ <;>
          (simp only [hx, hy] at h1 h2; omega)
      · left; simpa using hvL)
  -- the backward walk covers the cells i0-1 .. 0
  have bshift : ∀ j : Nat, j < i0 →
      (x0 + (i0 : Int) * stepX vert - stepX vert + (j : Int) * -stepX vert =
        x0 + ((i0 - 1 - j : Nat) : Int) * stepX vert) ∧
      (y0 + (i0 : Int) * stepY vert - stepY vert + (j : Int) * -stepY vert =
        y0 + ((i0 - 1 - j : Nat) : Int) * stepY vert) := by
    intro j hj
    have e : ((i0 - 1 - j : Nat) : Int) = (i0 : Int) - 1 - j := by omega
    constructor <;> (rw [e]; ring)
  obtain ⟨vb, hvb, hbiff⟩ := IsSunk.scan_spec b t (-stepX vert) (-stepY vert) i0 11
    (x0 + i0 * stepX vert - stepX vert) (y0 + i0 * stepY vert - stepY vert) (by omega)
    (by intro j hj; rw [(bshift j hj).1, (bshift j hj).2]; exact hcell (i0 - 1 - j) (by omega))
    (by
      have e1 : x0 + (i0 : Int) * stepX vert - stepX vert + (i0 : Int) * -stepX vert =
          x0 - stepX vert := by ring
      have e2 : y0 + (i0 : Int) * stepY vert - stepY vert + (i0 : Int) * -stepY vert =
          y0 - stepY vert := by ring
      rw [e1, e2]
      by_cases hvL : IsValid (x0 - stepX vert) (y0 - stepY vert) = true
      · right
        rw [ne_eq, hrun.cell_tag hvL]
        rintro ⟨i, hi, h1, h2⟩
        rcases step_cases vert with ⟨hx, hy⟩ | ⟨hx, hy⟩ <;>
          (simp only [hx, hy] at h1 h2; omega)
      · left; simpa using hvL)
  rw [hvf]
  have hall : (∀ i : Nat, i < L →
        b.cell (x0 + i * stepX vert) (y0 + i * stepY vert) &&& opponentHit ≠ 0) ↔
      (vf = true ∧ vb = true) := by
    rw [hfiff, hbiff]
    constructor
    · intro h
      constructor
      · intro j hj; rw [(fshift j).1, (fshift j).2]; exact h (i0 + j) (by omega)
      · intro j hj; rw [(bshift j hj).1, (bshift j hj).2]; exact h (i0 - 1 - j) (by omega)
    · rintro ⟨hf, hb⟩ i hi
      by_cases hle : i0 ≤ i
      · have := hf (i - i0) (by omega)
        rw [(fshift (i - i0)).1, (fshift (i - i0)).2] at this
        have e : i0 + (i - i0) = i := by omega
        rwa [e] at this
      · have := hb (i0 - 1 - i) (by omega)
        rw [(bshift (i0 - 1 - i) (by omega)).1, (bshift (i0 - 1 - i) (by omega)).2] at this
        have e : i0 - 1 - (i0 - 1 - i) = i := by omega
        rwa [e] at this
  cases vf
  · exact ⟨false, rfl, by rw [hall]; simp⟩
  · exact ⟨vb, hvb, by rw [hall]; simp⟩

/-! ## The fleet invariant -/

theorem PlaceShip.mem_of_length {t L : Nat} (h : PlaceShip.length t = some L) :
    (t, L) ∈ fleetTable := by
  unfold PlaceShip.length at h
  split_ifs at h with h1 h2 h3 h4 h5 <;> cases h <;> subst_vars <;> decide

theorem PlaceShip.mem_of_vector {d mx my : Int} (h : PlaceShip.vector d = some (mx, my)) :
    (d, mx, my) ∈ directionTable := by
  unfold PlaceShip.vector at h
  split_ifs at h with h1 h2 h3 h4 <;> cases h <;> subst_vars <;> decide

/-- What a successful `PlaceShip` call tells: the type and the direction are known, the
run was on the grid and free, and the new board is the old one with the run tagged. -/
theorem PlaceShip_ok_inv {b b1 : Board} {x y d : Int} {t : Nat}
    (h : PlaceShip b x y d t = some (b1, none)) :
    ∃ (L : Nat) (mx my : Int), (t, L) ∈ fleetTable ∧ (d, mx, my) ∈ directionTable ∧
      (∀ i : Nat, i < L → IsValid (x + i * mx) (y + i * my) = true ∧
        b.cell (x + i * mx) (y + i * my) &&& shipMask = 0) ∧
      ∀ p q : Fin 10, b1.cells p q =
        if ∃ i : Nat, i < L ∧ (p.val : Int) = x + i * mx ∧ (q.val : Int) = y + i * my
        then t else b.cells p q := by
  unfold PlaceShip at h
  cases hl : PlaceShip.length t with
  | none => rw [hl] at h; simp at h
  | some L =>
    cases hvec : PlaceShip.vector d with
    | none => rw [hl, hvec] at h; simp at h
    | some m =>
      obtain ⟨mx, my⟩ := m
      rw [hl, hvec] at h
      simp only at h
      cases hc : PlaceShip.check b mx my L x y with
      | none => rw [hc] at h; simp at h
      | some r =>
        cases r with
        | some e => rw [hc] at h; simp at h
        | none =>
          rw [hc] at h
          simp only at h
          have hfree : ∀ i : Nat, i < L → IsValid (x + i * mx) (y + i * my) = true ∧
              b.cell (x + i * mx) (y + i * my) &&& shipMask = 0 := by
            intro i hi
            by_contra hbad
            obtain ⟨e, he⟩ := PlaceShip.check_blocked b mx my L x y ⟨i, hi, by
              by_cases hv : IsValid (x + i * mx) (y + i * my) = true
              · right
                refine ⟨_, Board.get_of_valid b hv, ?_⟩
                intro h0
                exact hbad ⟨hv, h0⟩
              · left; simpa using hv⟩
            rw [hc] at he
            cases he
          obtain ⟨b2, hw, hcells⟩ := PlaceShip.write_spec t mx my L b x y (fun i hi => (hfree i hi).1)
          rw [hw] at h
          simp only [Option.some.injEq, Prod.mk.injEq, and_true] at h
          subst h
          exact ⟨L, mx, my, PlaceShip.mem_of_length hl, PlaceShip.mem_of_vector hvec, hfree, hcells⟩

/-- A run given by a start and a table direction is a run towards increasing
coordinates from its lowest cell. -/
theorem run_normalise {d mx my : Int} (hd : (d, mx, my) ∈ directionTable) (x y : Int) (L : Nat) :
    ∃ (x0 y0 : Int) (vert : Bool), ∀ X Y : Int,
      (∃ i : Nat, i < L ∧ X = x + i * mx ∧ Y = y + i * my) ↔ OnRun x0 y0 vert L X Y := by
  simp only [directionTable, List.mem_cons, Prod.mk.injEq, List.mem_singleton,
    List.not_mem_nil, or_false] at hd
  rcases hd with ⟨-, rfl, rfl⟩ | ⟨-, rfl, rfl⟩ | ⟨-, rfl, rfl⟩ | ⟨-, rfl, rfl⟩
  · refine ⟨x, y, true, fun X Y => ?_⟩
    simp only [OnRun, stepX, stepY, if_true]
  · refine ⟨x, y - ((L : Int) - 1), true, fun X Y => ?_⟩
    simp only [OnRun, stepX, stepY, if_true]
    constructor
    · rintro ⟨i, hi, h1, h2⟩
      exact ⟨L - 1 - i, by omega, by omega, by omega⟩
    · rintro ⟨i, hi, h1, h2⟩
      exact ⟨L - 1 - i, by omega, by omega, by omega⟩
  · refine ⟨x - ((L : Int) - 1), y, false, fun X Y => ?_⟩
    simp only [OnRun, stepX, stepY, Bool.false_eq_true, if_false]
    constructor
    · rintro ⟨i, hi, h1, h2⟩
      exact ⟨L - 1 - i, by omega, by omega, by omega⟩
    · rintro ⟨i, hi, h1, h2⟩
      exact ⟨L - 1 - i, by omega, by omega, by omega⟩
  · refine ⟨x, y, false, fun X Y => ?_⟩
    simp only [OnRun, stepX, stepY, Bool.false_eq_true, if_false]

theorem FleetInv.empty : FleetInv Board.empty [] := by
  refine ⟨fun p q => Or.inl ?_, fun t ht => absurd ht (List.not_mem_nil t)⟩
  simp [Board.empty]

theorem FleetInv.place {b b1 : Board} {ts : List Nat} {x y d : Int} {t : Nat}
    (hinv : FleetInv b ts) (hnew : t ∉ ts) (h : PlaceShip b x y d t = some (b1, none)) :
    FleetInv b1 (t :: ts) := by
  obtain ⟨L, mx, my, ht, hd, hfree, hcells⟩ := PlaceShip_ok_inv h
  obtain ⟨htag, ht0, hL2, -⟩ := fleet_tag ht
  obtain ⟨x0, y0, vert, hnorm⟩ := run_normalise hd x y L
  -- a cell of the new run was free before
  have hold : ∀ p q : Fin 10,
      (∃ i : Nat, i < L ∧ (p.val : Int) = x + i * mx ∧ (q.val : Int) = y + i * my) →
      b.cells p q &&& shipMask = 0 := by
    rintro p q ⟨i, hi, h1, h2⟩
    have := (hfree i hi).2
    rwa [← h1, ← h2, Board.cell_coe] at this
  refine ⟨?_, ?_⟩
  · intro p q
    rw [hcells p q]
    by_cases hin : ∃ i : Nat, i < L ∧ (p.val : Int) = x + i * mx ∧ (q.val : Int) = y + i * my
    · rw [if_pos hin, htag]
      exact Or.inr (List.mem_cons_self _ _)
    · rw [if_neg hin]
      rcases hinv.1 p q with h0 | hmem
      · exact Or.inl h0
      · exact Or.inr (List.mem_cons_of_mem _ hmem)
  · intro t' ht'
    rcases List.mem_cons.mp ht' with rfl | hmem
    · refine ⟨L, x0, y0, vert, ht, ⟨hL2, ?_, ?_⟩⟩
      · intro i hi
        obtain ⟨j, hj, h1, h2⟩ := (hnorm _ _).mpr ⟨i, hi, rfl, rfl⟩
        rw [h1, h2]
        exact (hfree j hj).1
      · intro p q
        rw [hcells p q, ← hnorm]
        by_cases hin : ∃ i : Nat, i < L ∧ (p.val : Int) = x + i * mx ∧ (q.val : Int) = y + i * my
        · rw [if_pos hin, htag]
          exact ⟨fun _ => hin, fun _ => rfl⟩
        · rw [if_neg hin]
          constructor
          · intro h'
            exfalso
            rcases hinv.1 p q with h0 | hm
            · rw [h0] at h'; exact ht0 h'.symm
            · rw [h'] at hm; exact hnew hm
          · intro h'; exact absurd h' hin
    · obtain ⟨L', x0', y0', vert', ht'L, hrun⟩ := hinv.2 t' hmem
      obtain ⟨-, ht'0, -, -⟩ := fleet_tag ht'L
      refine ⟨L', x0', y0', vert', ht'L, ⟨hrun.two_le, hrun.valid, ?_⟩⟩
      intro p q
      rw [← hrun.cells p q, hcells p q]
      by_cases hin : ∃ i : Nat, i < L ∧ (p.val : Int) = x + i * mx ∧ (q.val : Int) = y + i * my
      · rw [if_pos hin, htag, hold p q hin]
        constructor
        · intro h'; rw [← h'] at hmem; exact absurd hmem hnew
        · intro h'; exact absurd h'.symm ht'0
      · rw [if_neg hin]

theorem Placed.fleetInv {b : Board} {ts : List Nat} (h : Placed b ts) : FleetInv b ts := by
  induction h with
  | empty => exact FleetInv.empty
  | place x y d t _ hnew hplace ih => exact FleetInv.place ih hnew hplace

/-! ## Shots -/

theorem OpponentShot_coe (b : Board) (p q : Fin 10) :
    OpponentShot b (p.val : Int) (q.val : Int) =
      if b.cells p q &&& shipMask > 0 then
        match IsSunk (b.mark p q opponentHit) (p.val : Int) (q.val : Int) with
        | none => none
        | some true => some (b.mark p q opponentHit, true, b.cells p q &&& shipMask)
        | some false => some (b.mark p q opponentHit, true, 0)
      else some (b.mark p q opponentHit, false, 0) := by
  have hset : b.set (p.val : Int) (q.val : Int) (b.cells p q ||| opponentHit) =
      some (b.mark p q opponentHit) := by
    rw [Board.set_coe]; rfl
  have hget : (b.mark p q opponentHit).get (p.val : Int) (q.val : Int) =
      some (b.cells p q ||| opponentHit) := by
    rw [Board.get_coe]; simp [Board.mark]
  unfold OpponentShot
  simp only [Board.get_coe, hset, hget, or_flag_and_mask _ opponentHit (by decide)]

theorem PlayerShot_coe (b : Board) (p q : Fin 10) (hit : Bool) :
    PlayerShot b (p.val : Int) (q.val : Int) hit =
      some (b.mark p q (if hit then playerShot ||| playerHit else playerShot)) := by
  unfold PlayerShot
  simp only [Board.get_coe, Board.set_coe]
  cases hit <;> rfl

theorem OpponentShot_valid {b b1 : Board} {x y : Int} {hit : Bool} {sunk : Nat}
    (h : OpponentShot b x y = some (b1, hit, sunk)) : IsValid x y = true := by
  by_contra hv
  have : b.get x y = none := Board.get_eq_none (by simpa using hv)
  simp [OpponentShot, this] at h

theorem PlayerShot_valid {b b1 : Board} {x y : Int} {hit : Bool}
    (h : PlayerShot b x y hit = some b1) : IsValid x y = true := by
  by_contra hv
  have : b.get x y = none := Board.get_eq_none (by simpa using hv)
  simp [PlayerShot, this] at h

theorem OpponentShot_board {b b1 : Board} {x y : Int} {hit : Bool} {sunk : Nat}
    (h : OpponentShot b x y = some (b1, hit, sunk)) :
    ∃ p q : Fin 10, x = (p.val : Int) ∧ y = (q.val : Int) ∧ b1 = b.mark p q opponentHit := by
  obtain ⟨p, q, rfl, rfl⟩ := exists_fin_of_valid (OpponentShot_valid h)
  refine ⟨p, q, rfl, rfl, ?_⟩
  rw [OpponentShot_coe] at h
  split_ifs at h
  · split at h
    · cases h
    · simp only [Option.some.injEq, Prod.mk.injEq] at h; exact h.1.symm
    · simp only [Option.some.injEq, Prod.mk.injEq] at h; exact h.1.symm
  · simp only [Option.some.injEq, Prod.mk.injEq] at h; exact h.1.symm

theorem PlayerShot_board {b b1 : Board} {x y : Int} {hit : Bool}
    (h : PlayerShot b x y hit = some b1) :
    ∃ p q : Fin 10, x = (p.val : Int) ∧ y = (q.val : Int) ∧
      b1 = b.mark p q (if hit then playerShot ||| playerHit else playerShot) := by
  obtain ⟨p, q, rfl, rfl⟩ := exists_fin_of_valid (PlayerShot_valid h)
  refine ⟨p, q, rfl, rfl, ?_⟩
  rw [PlayerShot_coe] at h
  simp only [Option.some.injEq] at h
  exact h.symm

theorem Board.mark_tag (b : Board) (p q : Fin 10) (f : Nat) (hf : f &&& shipMask = 0)
    (i j : Fin 10) :
    (b.mark p q f).cells i j &&& shipMask = b.cells i j &&& shipMask := by
  simp only [Board.mark]
  split_ifs with h
  · rw [or_flag_and_mask _ _ hf, h.1, h.2]
  · rfl

theorem Shots.tag_eq {b0 b : Board} (h : Shots b0 b) (i j : Fin 10) :
    b.cells i j &&& shipMask = b0.cells i j &&& shipMask := by
  induction h with
  | start => rfl
  | opponent x y hit sunk _ hshot ih =>
    obtain ⟨p, q, -, -, rfl⟩ := OpponentShot_board hshot
    rw [Board.mark_tag _ _ _ _ (by decide), ih]
  | player x y hit _ hshot ih =>
    obtain ⟨p, q, -, -, rfl⟩ := PlayerShot_board hshot
    rw [Board.mark_tag _ _ _ _ (by cases hit <;> decide), ih]

theorem FleetInv.of_tag_eq {b b1 : Board} {ts : List Nat} (hinv : FleetInv b ts)
    (htag : ∀ i j : Fin 10, b1.cells i j &&& shipMask = b.cells i j &&& shipMask) :
    FleetInv b1 ts := by
  refine ⟨fun p q => by rw [htag]; exact hinv.1 p q, fun t ht => ?_⟩
  obtain ⟨L, x0, y0, vert, htL, hrun⟩ := hinv.2 t ht
  exact ⟨L, x0, y0, vert, htL, ⟨hrun.two_le, hrun.valid, fun p q => by
    rw [htag]; exact hrun.cells p q⟩⟩

theorem FleetInv.of_shots {b0 b : Board} {ts : List Nat} (hplaced : Placed b0 ts)
    (hshots : Shots b0 b) : FleetInv b ts :=
  hplaced.fleetInv.of_tag_eq (fun i j => hshots.tag_eq i j)

/-- IsSunk on a board that satisfies the fleet invariant: it returns, and it returns true
exactly when the cell holds a ship tag and every cell with that tag carries the
incoming-shot flag. -/
theorem IsSunk_of_fleet {b : Board} {ts : List Nat} (hinv : FleetInv b ts) (p0 q0 : Fin 10) :
    ∃ v, IsSunk b (p0.val : Int) (q0.val : Int) = some v ∧
      (v = true ↔ (b.cells p0 q0 &&& shipMask ≠ 0 ∧
        ∀ p q : Fin 10, b.cells p q &&& shipMask = b.cells p0 q0 &&& shipMask →
          b.cells p q &&& opponentHit ≠ 0)) := by
  rcases hinv.1 p0 q0 with h0 | hmem
  · refine ⟨false, ?_, by simp [h0]⟩
    unfold IsSunk
    simp [Board.get_coe, h0]
  · obtain ⟨L, x0, y0, vert, htL, hrun⟩ := hinv.2 _ hmem
    obtain ⟨-, ht0, -, -⟩ := fleet_tag htL
    obtain ⟨i0, hi0, hx, hy⟩ := (hrun.cells p0 q0).mp rfl
    obtain ⟨v, hv, hiff⟩ := IsSunk_on_run hrun ht0 i0 hi0
    rw [← hx, ← hy] at hv
    refine ⟨v, hv, ?_⟩
    rw [hiff]
    constructor
    · intro h
      refine ⟨ht0, fun p q hpq => ?_⟩
      obtain ⟨i, hi, h1, h2⟩ := (hrun.cells p q).mp hpq
      have := h i hi
      rwa [← h1, ← h2, Board.cell_coe] at this
    · rintro ⟨-, h⟩ i hi
      obtain ⟨p, q, h1, h2⟩ := exists_fin_of_valid (hrun.valid i hi)
      rw [h1, h2, Board.cell_coe]
      exact h p q ((hrun.cells p q).mpr ⟨i, hi, h1.symm, h2.symm⟩)

/-- C7. IsSunk characterisation: on every board obtained from the empty board by
successful PlaceShip calls with pairwise distinct ship types followed by any
OpponentShot and PlayerShot calls, and for every on-grid `(x, y)`, `IsSunk` returns, and
it returns true if and only if the cell holds a ship tag and every cell of the board that
holds the same tag carries the incoming-shot flag. -/
theorem IsSunk_characterisation (b0 b : Board) (ts : List Nat) (x y : Int)
    (hplaced : Placed b0 ts) (hshots : Shots b0 b) (hvalid : IsValid x y = true) :
    IsSunk b x y = some (decide (b.cell x y &&& shipMask ≠ 0 ∧
      ∀ p q : Fin 10, b.cells p q &&& shipMask = b.cell x y &&& shipMask →
        b.cells p q &&& opponentHit ≠ 0)) := by
  obtain ⟨p0, q0, rfl, rfl⟩ := exists_fin_of_valid hvalid
  obtain ⟨v, hv, hiff⟩ := IsSunk_of_fleet (FleetInv.of_shots hplaced hshots) p0 q0
  rw [hv, Board.cell_coe]
  congr 1
  cases v
  · symm
    rw [decide_eq_false_iff_not, ← hiff]
    simp
  · symm
    rw [decide_eq_true_iff, ← hiff]

/-! ## Flags -/

theorem and_two_pow_ne_zero (x k : Nat) : x &&& 2 ^ k ≠ 0 ↔ x.testBit k = true := by
  constructor
  · intro h
    by_contra hk
    apply h
    apply Nat.eq_of_testBit_eq
    intro i
    simp only [Nat.testBit_and, Nat.testBit_two_pow, Nat.zero_testBit]
    by_cases e : k = i
    · subst e; simp [hk]
    · simp [e]
  · intro h h0
    have : (x &&& 2 ^ k).testBit k = true := by
      simp [Nat.testBit_and, Nat.testBit_two_pow, h]
    rw [h0] at this
    simp at this

theorem and_playerShot_ne_zero (x : Nat) : x &&& playerShot ≠ 0 ↔ x.testBit 0 = true :=
  and_two_pow_ne_zero x 0

theorem and_playerHit_ne_zero (x : Nat) : x &&& playerHit ≠ 0 ↔ x.testBit 1 = true :=
  and_two_pow_ne_zero x 1

theorem and_opponentHit_ne_zero (x : Nat) : x &&& opponentHit ≠ 0 ↔ x.testBit 2 = true :=
  and_two_pow_ne_zero x 2

theorem Board.mark_cells_self (b : Board) (p q : Fin 10) (f : Nat) :
    (b.mark p q f).cells p q = b.cells p q ||| f := by
  simp [Board.mark]

theorem Board.mark_cells_other (b : Board) (p q : Fin 10) (f : Nat) (i j : Fin 10)
    (h : ¬ (i = p ∧ j = q)) : (b.mark p q f).cells i j = b.cells i j := by
  simp [Board.mark, h]

theorem option_board_eq {α : Type} {o : Option (Board × α)} (b1 : Board) {a : α}
    (h2 : o.map Prod.snd = some a)
    (h1 : ∀ i j : Fin 10, o.map (fun r => r.1.cells i j) = some (b1.cells i j)) :
    o = some (b1, a) := by
  cases o with
  | none => simp at h2
  | some r =>
    obtain ⟨b', a'⟩ := r
    simp only [Option.map_some', Option.some.injEq] at h1 h2
    subst h2
    have : b' = b1 := Board.ext (funext fun i => funext fun j => h1 i j)
    rw [this]

theorem demoFleet_placed : Placed demoFleet [shipPatrolBoat] :=
  Placed.place 0 0 right shipPatrolBoat Placed.empty (by decide)
    (option_board_eq _ (by decide) (by decide))

theorem demoSunk_shots : Shots demoFleet demoSunk :=
  Shots.opponent 1 0 true shipPatrolBoat
    (Shots.opponent 0 0 true 0 Shots.start
      (option_board_eq demoHit (by decide) (by decide)))
    (option_board_eq _ (by decide) (by decide))

theorem IsSunk_characterisation_witness :
    IsSunk demoSunk 0 0 = some (decide (demoSunk.cell 0 0 &&& shipMask ≠ 0 ∧
      ∀ p q : Fin 10, demoSunk.cells p q &&& shipMask = demoSunk.cell 0 0 &&& shipMask →
        demoSunk.cells p q &&& opponentHit ≠ 0)) :=
  IsSunk_characterisation demoFleet demoSunk [shipPatrolBoat] 0 0 demoFleet_placed
    demoSunk_shots (by decide)

/-- C8. OpponentShot result: for every board and on-grid `(x, y)`, `OpponentShot`
returns; it sets the incoming-shot flag at `(x, y)`; `hit` is true if and only if the
cell holds a ship tag; `IsSunk(x, y)` returns some `s` on the updated board, and `sunk`
is that cell's ship tag if `hit` and `s` are true and `0` otherwise; so a non-zero `sunk`
implies `hit`. -/
theorem OpponentShot_result (b : Board) (x y : Int) (hvalid : IsValid x y = true) :
    ∃ (b1 : Board) (hit : Bool) (sunk : Nat) (s : Bool),
      OpponentShot b x y = some (b1, hit, sunk) ∧
      b1.cell x y = b.cell x y ||| opponentHit ∧
      b1.cell x y &&& opponentHit ≠ 0 ∧
      (hit = true ↔ b.cell x y &&& shipMask ≠ 0) ∧
      IsSunk b1 x y = some s ∧
      sunk = (if hit = true ∧ s = true then b.cell x y &&& shipMask else 0) ∧
      (sunk ≠ 0 → hit = true) := by
  obtain ⟨p, q, rfl, rfl⟩ := exists_fin_of_valid hvalid
  obtain ⟨s, hs⟩ := IsSunk_total (b.mark p q opponentHit) hvalid
  have hcell : (b.mark p q opponentHit).cell (p.val : Int) (q.val : Int) =
      b.cells p q ||| opponentHit := by
    rw [Board.cell_coe, Board.mark_cells_self]
  have hflag : (b.mark p q opponentHit).cell (p.val : Int) (q.val : Int) &&& opponentHit ≠ 0 := by
    rw [hcell, or_opponentHit_and]; decide
  rw [OpponentShot_coe, Board.cell_coe]
  by_cases htag : b.cells p q &&& shipMask > 0
  · have hne : b.cells p q &&& shipMask ≠ 0 := Nat.pos_iff_ne_zero.mp htag
    rw [if_pos htag]
    cases s
    · rw [hs]
      exact ⟨_, true, 0, false, rfl, hcell, hflag, by simp [hne], hs, by simp, by simp⟩
    · rw [hs]
      exact ⟨_, true, _, true, rfl, hcell, hflag, by simp [hne], hs, by simp, by simp⟩
  · have he : b.cells p q &&& shipMask = 0 := by omega
    rw [if_neg htag]
    exact ⟨_, false, 0, s, rfl, hcell, hflag, by simp [he], hs, by simp, by simp⟩

theorem OpponentShot_result_witness :
    ∃ (b1 : Board) (hit : Bool) (sunk : Nat) (s : Bool),
      OpponentShot demoHit 1 0 = some (b1, hit, sunk) ∧
      b1.cell 1 0 = demoHit.cell 1 0 ||| opponentHit ∧
      b1.cell 1 0 &&& opponentHit ≠ 0 ∧
      (hit = true ↔ demoHit.cell 1 0 &&& shipMask ≠ 0) ∧
      IsSunk b1 1 0 = some s ∧
      sunk = (if hit = true ∧ s = true then demoHit.cell 1 0 &&& shipMask else 0) ∧
      (sunk ≠ 0 → hit = true) :=
  OpponentShot_result demoHit 1 0 (by decide)

/-- C9 (as stated, refuted). On the board `demoSunk`, reached by placing a PatrolBoat and
shooting both of its cells, `OpponentShot(0, 0)` returns the sunk type PatrolBoat again,
although `(0, 0)` already carried the incoming-shot flag before the call: the call did
not cause the last un-hit cell to become hit. -/
theorem OpponentShot_sunk_twice :
    Placed demoFleet [shipPatrolBoat] ∧ Shots demoFleet demoSunk ∧
      IsValid 0 0 = true ∧ demoSunk.cell 0 0 &&& shipMask ≠ 0 ∧
      (OpponentShot demoSunk 0 0).map (fun r => r.2) = some (true, shipPatrolBoat) ∧
      ¬ (demoSunk.cell 0 0 &&& opponentHit = 0 ∧
        ∀ p q : Fin 10, demoSunk.cells p q &&& shipMask = demoSunk.cell 0 0 &&& shipMask →
          ¬ ((p.val : Int) = 0 ∧ (q.val : Int) = 0) →
          demoSunk.cells p q &&& opponentHit ≠ 0) :=
  ⟨demoFleet_placed, demoSunk_shots, by decide, by decide, by decide,
    fun h => absurd h.1 (by decide)⟩

/-- C9 (amended). On every board obtained from the empty board by successful PlaceShip
calls with pairwise distinct ship types followed by any shots, and for every on-grid ship
cell `(x, y)`, `OpponentShot(x, y)` returns `hit = true` and a `sunk` that is `0` or the
cell's ship tag, and `sunk` is non-zero if and only if every other cell of the ship
carried the incoming-shot flag before the call; so when `(x, y)` lacked the flag before
the call, `sunk` is non-zero exactly when the call hits the last un-hit cell. -/
theorem OpponentShot_sunk_iff (b0 b : Board) (ts : List Nat) (x y : Int)
    (hplaced : Placed b0 ts) (hshots : Shots b0 b) (hvalid : IsValid x y = true)
    (hship : b.cell x y &&& shipMask ≠ 0) :
    ∃ (b1 : Board) (sunk : Nat),
      OpponentShot b x y = some (b1, true, sunk) ∧
      (sunk = 0 ∨ sunk = b.cell x y &&& shipMask) ∧
      (sunk ≠ 0 ↔
        ∀ p q : Fin 10, b.cells p q &&& shipMask = b.cell x y &&& shipMask →
          ¬ ((p.val : Int) = x ∧ (q.val : Int) = y) → b.cells p q &&& opponentHit ≠ 0) ∧
      (b.cell x y &&& opponentHit = 0 →
        (sunk ≠ 0 ↔ (b.cell x y &&& opponentHit = 0 ∧
          ∀ p q : Fin 10, b.cells p q &&& shipMask = b.cell x y &&& shipMask →
            ¬ ((p.val : Int) = x ∧ (q.val : Int) = y) → b.cells p q &&& opponentHit ≠ 0))) := by
  obtain ⟨p0, q0, rfl, rfl⟩ := exists_fin_of_valid hvalid
  rw [Board.cell_coe] at hship ⊢
  have hinv : FleetInv (b.mark p0 q0 opponentHit) ts :=
    (FleetInv.of_shots hplaced hshots).of_tag_eq
      (fun i j => Board.mark_tag b p0 q0 opponentHit (by decide) i j)
  obtain ⟨v, hv, hiff⟩ := IsSunk_of_fleet hinv p0 q0
  have hpos : b.cells p0 q0 &&& shipMask > 0 := Nat.pos_iff_ne_zero.mpr hship
  -- the characterisation of `v` in terms of the board before the call
  have hiff' : v = true ↔
      ∀ p q : Fin 10, b.cells p q &&& shipMask = b.cells p0 q0 &&& shipMask →
        ¬ ((p.val : Int) = (p0.val : Int) ∧ (q.val : Int) = (q0.val : Int)) →
        b.cells p q &&& opponentHit ≠ 0 := by
    rw [hiff]
    simp only [Board.mark_tag b p0 q0 opponentHit (by decide)]
    constructor
    · rintro ⟨-, h⟩ p q hpq hne
      have hne' : ¬ (p = p0 ∧ q = q0) := by
        rintro ⟨rfl, rfl⟩; exact hne ⟨rfl, rfl⟩
      have := h p q hpq
      rwa [Board.mark_cells_other _ _ _ _ _ _ hne'] at this
    · intro h
      refine ⟨hship, fun p q hpq => ?_⟩
      by_cases he : p = p0 ∧ q = q0
      · rw [he.1, he.2, Board.mark_cells_self, or_opponentHit_and]; decide
      · rw [Board.mark_cells_other _ _ _ _ _ _ he]
        apply h p q hpq
        rintro ⟨h1, h2⟩
        exact he ⟨Fin.ext (by exact_mod_cast h1), Fin.ext (by exact_mod_cast h2)⟩
  rw [OpponentShot_coe, if_pos hpos, hv]
  cases v
  · refine ⟨_, 0, rfl, Or.inl rfl, ?_, ?_⟩
    · rw [← hiff']; simp
    · intro h0; rw [← hiff']; simp
  · refine ⟨_, _, rfl, Or.inr rfl, ?_, ?_⟩
    · rw [← hiff']; simp [hship]
    · intro h0; rw [← hiff']; simp [hship, h0]

theorem OpponentShot_sunk_iff_witness :
    ∃ (b1 : Board) (sunk : Nat),
      OpponentShot demoHit 1 0 = some (b1, true, sunk) ∧
      (sunk = 0 ∨ sunk = demoHit.cell 1 0 &&& shipMask) ∧
      (sunk ≠ 0 ↔
        ∀ p q : Fin 10, demoHit.cells p q &&& shipMask = demoHit.cell 1 0 &&& shipMask →
          ¬ ((p.val : Int) = 1 ∧ (q.val : Int) = 0) → demoHit.cells p q &&& opponentHit ≠ 0) ∧
      (demoHit.cell 1 0 &&& opponentHit = 0 →
        (sunk ≠ 0 ↔ (demoHit.cell 1 0 &&& opponentHit = 0 ∧
          ∀ p q : Fin 10, demoHit.cells p q &&& shipMask = demoHit.cell 1 0 &&& shipMask →
            ¬ ((p.val : Int) = 1 ∧ (q.val : Int) = 0) →
            demoHit.cells p q &&& opponentHit ≠ 0))) :=
  OpponentShot_sunk_iff demoFleet demoHit [shipPatrolBoat] 1 0 demoFleet_placed
    (Shots.opponent 0 0 true 0 Shots.start
      (option_board_eq demoHit (by decide) (by decide)))
    (by decide) (by decide)

theorem PlayerHasShot_coe (b : Board) (p q : Fin 10) :
    PlayerHasShot b (p.val : Int) (q.val : Int) = some ((b.cells p q).testBit 0) := by
  unfold PlayerHasShot
  rw [Board.get_coe]
  simp only [Option.some.injEq, gt_iff_lt, Nat.pos_iff_ne_zero]
  by_cases h : (b.cells p q).testBit 0 = true
  · rw [h, decide_eq_true_iff, and_playerShot_ne_zero]; exact h
  · have h' : (b.cells p q).testBit 0 = false := by simpa using h
    rw [h', decide_eq_false_iff_not, and_playerShot_ne_zero]; exact h

theorem PlayerHasHit_coe (b : Board) (p q : Fin 10) :
    PlayerHasHit b (p.val : Int) (q.val : Int) = some ((b.cells p q).testBit 1) := by
  unfold PlayerHasHit
  rw [Board.get_coe]
  simp only [Option.some.injEq, gt_iff_lt, Nat.pos_iff_ne_zero]
  by_cases h : (b.cells p q).testBit 1 = true
  · rw [h, decide_eq_true_iff, and_playerHit_ne_zero]; exact h
  · have h' : (b.cells p q).testBit 1 = false := by simpa using h
    rw [h', decide_eq_false_iff_not, and_playerHit_ne_zero]; exact h

theorem PlayerHasShot_frame (b b1 : Board) (x y : Int)
    (h : ∀ p q : Fin 10, x = (p.val : Int) → y = (q.val : Int) → b1.cells p q = b.cells p q) :
    PlayerHasShot b1 x y = PlayerHasShot b x y ∧ PlayerHasHit b1 x y = PlayerHasHit b x y := by
  by_cases hv : IsValid x y = true
  · obtain ⟨p, q, rfl, rfl⟩ := exists_fin_of_valid hv
    rw [PlayerHasShot_coe, PlayerHasShot_coe, PlayerHasHit_coe, PlayerHasHit_coe, h p q rfl rfl]
    exact ⟨rfl, rfl⟩
  · have hv' : IsValid x y = false := by simpa using hv
    simp [PlayerHasShot, PlayerHasHit, Board.get_eq_none hv']

/-- What `PlayerShot` does to the two queries, on any grid of cells: for on-grid `(x, y)`
the call returns, afterwards `PlayerHasShot(x, y)` is true, `PlayerHasHit(x, y)` is true
when `wasHit` is true, `PlayerHasHit(x, y)` equals `wasHit` when the cell did not carry
the hit flag before the call, and so when it had not been shot and its hit flag implies
its outgoing-shot flag; both queries at every other cell return what they returned
before. -/
theorem PlayerShot_effect (b : Board) (x y : Int) (wasHit : Bool)
    (hvalid : IsValid x y = true) :
    ∃ b1 : Board, PlayerShot b x y wasHit = some b1 ∧
      PlayerHasShot b1 x y = some true ∧
      (wasHit = true → PlayerHasHit b1 x y = some true) ∧
      (PlayerHasHit b x y = some false → PlayerHasHit b1 x y = some wasHit) ∧
      ((b.cell x y &&& playerHit ≠ 0 → b.cell x y &&& playerShot ≠ 0) →
        PlayerHasShot b x y = some false → PlayerHasHit b1 x y = some wasHit) ∧
      (∀ x1 y1 : Int, ¬ (x1 = x ∧ y1 = y) →
        PlayerHasShot b1 x1 y1 = PlayerHasShot b x1 y1 ∧
          PlayerHasHit b1 x1 y1 = PlayerHasHit b x1 y1) := by
  obtain ⟨p, q, rfl, rfl⟩ := exists_fin_of_valid hvalid
  have hshot : ((b.cells p q ||| (if wasHit = true then playerShot ||| playerHit
      else playerShot)).testBit 0) = true := by
    cases wasHit <;> simp [Nat.testBit_or]
  have hhit : ((b.cells p q ||| (if wasHit = true then playerShot ||| playerHit
      else playerShot)).testBit 1) = ((b.cells p q).testBit 1 || wasHit) := by
    cases wasHit
    · have : Nat.testBit playerShot 1 = false := by decide
      simp [Nat.testBit_or, this]
    · have : Nat.testBit (playerShot ||| playerHit) 1 = true := by decide
      simp [Nat.testBit_or, this]
  have hold : PlayerHasHit b (p.val : Int) (q.val : Int) = some false →
      PlayerHasHit (b.mark p q (if wasHit = true then playerShot ||| playerHit else playerShot))
        (p.val : Int) (q.val : Int) = some wasHit := by
    intro h
    rw [PlayerHasHit_coe] at h
    simp only [Option.some.injEq] at h
    rw [PlayerHasHit_coe, Board.mark_cells_self, hhit, h, Bool.false_or]
  refine ⟨_, PlayerShot_coe b p q wasHit, ?_, ?_, hold, ?_, ?_⟩
  · rw [PlayerHasShot_coe, Board.mark_cells_self, hshot]
  · intro hw
    rw [PlayerHasHit_coe, Board.mark_cells_self, hhit, hw, Bool.or_true]
  · intro hflag hns
    apply hold
    rw [PlayerHasShot_coe] at hns
    simp only [Option.some.injEq] at hns
    rw [Board.cell_coe, and_playerHit_ne_zero, and_playerShot_ne_zero, hns] at hflag
    rw [PlayerHasHit_coe]
    congr 1
    by_contra h
    have := hflag (by simpa using h)
    cases this
  · intro x1 y1 hne
    apply PlayerHasShot_frame
    intro p1 q1 h1 h2
    apply Board.mark_cells_other
    rintro ⟨rfl, rfl⟩
    exact hne ⟨h1, h2⟩

/-! ## Frame of the shot operations -/

theorem testBit_or_of_not (c f k : Nat) (h : f.testBit k = false) :
    (c ||| f).testBit k = c.testBit k := by
  rw [Nat.testBit_or, h, Bool.or_false]

theorem opponentHit_testBit (k : Nat) (hk : k ≠ 2) : Nat.testBit opponentHit k = false := by
  have : opponentHit = 2 ^ 2 := rfl
  rw [this, Nat.testBit_two_pow]
  simpa using fun h => hk h.symm

theorem playerFlags_testBit (wasHit : Bool) (k : Nat) (h0 : k ≠ 0) (h1 : k ≠ 1) :
    Nat.testBit (if wasHit = true then playerShot ||| playerHit else playerShot) k = false := by
  have e1 : playerShot = 2 ^ 0 := rfl
  have e2 : playerHit = 2 ^ 1 := rfl
  cases wasHit
  · simp only [Bool.false_eq_true, if_false]
    rw [e1, Nat.testBit_two_pow]
    simpa using fun h => h0 h.symm
  · simp only [if_true, Nat.testBit_or]
    rw [e1, e2, Nat.testBit_two_pow, Nat.testBit_two_pow]
    have a1 : ¬ (0 = k) := fun h => h0 h.symm
    have a2 : ¬ (1 = k) := fun h => h1 h.symm
    simp [a1, a2]

/-- OpponentShot on the grid returns, and its board is the old one with the
incoming-shot flag or-ed into the cell. -/
theorem OpponentShot_mark (b : Board) (p q : Fin 10) :
    ∃ (hit : Bool) (sunk : Nat),
      OpponentShot b (p.val : Int) (q.val : Int) = some (b.mark p q opponentHit, hit, sunk) := by
  obtain ⟨s, hs⟩ := IsSunk_total (b.mark p q opponentHit) (IsValid_coe p q)
  rw [OpponentShot_coe, hs]
  by_cases htag : b.cells p q &&& shipMask > 0
  · rw [if_pos htag]
    cases s
    · exact ⟨true, 0, rfl⟩
    · exact ⟨true, _, rfl⟩
  · rw [if_neg htag]
    exact ⟨false, 0, rfl⟩

/-- C13. Shot operations never disturb ships or other cells: for every board and on-grid
`(x, y)`, `OpponentShot(x, y)` returns a board on which cell `(x, y)` is the old cell
with the incoming-shot flag (bit 2) or-ed in, and `PlayerShot(x, y, wasHit)` returns a
board on which cell `(x, y)` is the old cell with the outgoing-shot flag (bit 0), and the
hit flag (bit 1) when `wasHit`, or-ed in; in both cases no other bit of the cell changes,
the ship tag of every cell is unchanged, and every other cell is unchanged. -/
theorem shots_frame (b : Board) (x y : Int) (wasHit : Bool) (hvalid : IsValid x y = true) :
    (∃ (b1 : Board) (hit : Bool) (sunk : Nat),
      OpponentShot b x y = some (b1, hit, sunk) ∧
      b1.cell x y = b.cell x y ||| opponentHit ∧
      (∀ k : Nat, k ≠ 2 → (b1.cell x y).testBit k = (b.cell x y).testBit k) ∧
      (∀ p q : Fin 10, b1.cells p q &&& shipMask = b.cells p q &&& shipMask) ∧
      (∀ p q : Fin 10, ¬ ((p.val : Int) = x ∧ (q.val : Int) = y) →
        b1.cells p q = b.cells p q)) ∧
    (∃ b1 : Board,
      PlayerShot b x y wasHit = some b1 ∧
      b1.cell x y =
        b.cell x y ||| (if wasHit = true then playerShot ||| playerHit else playerShot) ∧
      (∀ k : Nat, k ≠ 0 → k ≠ 1 → (b1.cell x y).testBit k = (b.cell x y).testBit k) ∧
      (∀ p q : Fin 10, b1.cells p q &&& shipMask = b.cells p q &&& shipMask) ∧
      (∀ p q : Fin 10, ¬ ((p.val : Int) = x ∧ (q.val : Int) = y) →
        b1.cells p q = b.cells p q)) := by
  obtain ⟨p0, q0, rfl, rfl⟩ := exists_fin_of_valid hvalid
  have hother : ∀ (f : Nat) (p q : Fin 10),
      ¬ ((p.val : Int) = (p0.val : Int) ∧ (q.val : Int) = (q0.val : Int)) →
      (b.mark p0 q0 f).cells p q = b.cells p q := by
    intro f p q hne
    apply Board.mark_cells_other
    rintro ⟨rfl, rfl⟩
    exact hne ⟨rfl, rfl⟩
  constructor
  · obtain ⟨hit, sunk, h⟩ := OpponentShot_mark b p0 q0
    refine ⟨_, hit, sunk, h, ?_, ?_, ?_, hother _⟩
    · rw [Board.cell_coe, Board.cell_coe, Board.mark_cells_self]
    · intro k hk
      rw [Board.cell_coe, Board.cell_coe, Board.mark_cells_self,
        testBit_or_of_not _ _ _ (opponentHit_testBit k hk)]
    · exact Board.mark_tag b p0 q0 opponentHit (by decide)
  · refine ⟨_, PlayerShot_coe b p0 q0 wasHit, ?_, ?_, ?_, hother _⟩
    · rw [Board.cell_coe, Board.cell_coe, Board.mark_cells_self]
    · intro k h0 h1
      rw [Board.cell_coe, Board.cell_coe, Board.mark_cells_self,
        testBit_or_of_not _ _ _ (playerFlags_testBit wasHit k h0 h1)]
    · exact Board.mark_tag b p0 q0 _ (by cases wasHit <;> decide)

theorem shots_frame_witness :
    (∃ (b1 : Board) (hit : Bool) (sunk : Nat),
      OpponentShot demoHit 1 0 = some (b1, hit, sunk) ∧
      b1.cell 1 0 = demoHit.cell 1 0 ||| opponentHit ∧
      (∀ k : Nat, k ≠ 2 → (b1.cell 1 0).testBit k = (demoHit.cell 1 0).testBit k) ∧
      (∀ p q : Fin 10, b1.cells p q &&& shipMask = demoHit.cells p q &&& shipMask) ∧
      (∀ p q : Fin 10, ¬ ((p.val : Int) = 1 ∧ (q.val : Int) = 0) →
        b1.cells p q = demoHit.cells p q)) ∧
    (∃ b1 : Board,
      PlayerShot demoHit 1 0 true = some b1 ∧
      b1.cell 1 0 =
        demoHit.cell 1 0 ||| (if true = true then playerShot ||| playerHit else playerShot) ∧
      (∀ k : Nat, k ≠ 0 → k ≠ 1 → (b1.cell 1 0).testBit k = (demoHit.cell 1 0).testBit k) ∧
      (∀ p q : Fin 10, b1.cells p q &&& shipMask = demoHit.cells p q &&& shipMask) ∧
      (∀ p q : Fin 10, ¬ ((p.val : Int) = 1 ∧ (q.val : Int) = 0) →
        b1.cells p q = demoHit.cells p q)) :=
  shots_frame demoHit 1 0 true (by decide)

/-! ## The flag invariant -/

theorem PlaceShip_failed_board {b b1 : Board} {x y d : Int} {t : Nat} {e : PlaceError}
    (h : PlaceShip b x y d t = some (b1, some e)) : b1 = b := by
  unfold PlaceShip at h
  split at h
  · simp only [Option.some.injEq, Prod.mk.injEq] at h; exact h.1.symm
  · split at h
    · simp only [Option.some.injEq, Prod.mk.injEq] at h; exact h.1.symm
    · split at h
      · cases h
      · simp only [Option.some.injEq, Prod.mk.injEq] at h; exact h.1.symm
      · split at h
        · cases h
        · simp at h

theorem FlagInv.mark {b : Board} (h : FlagInv b) (p q : Fin 10) (f : Nat)
    (hf : f &&& playerHit = 0 ∧ f &&& playerShot = 0 ∨ f &&& playerShot ≠ 0) :
    FlagInv (b.mark p q f) := by
  intro i j hij
  by_cases he : i = p ∧ j = q
  · obtain ⟨rfl, rfl⟩ := he
    rw [Board.mark_cells_self] at hij ⊢
    rcases hf with ⟨h1, h2⟩ | h3
    · rw [or_flag_and_flag _ _ _ h1] at hij
      rw [or_flag_and_flag _ _ _ h2]
      exact h i j hij
    · rw [and_playerShot_ne_zero] at h3 ⊢
      rw [Nat.testBit_or, h3, Bool.or_true]
  · rw [Board.mark_cells_other _ _ _ _ _ _ he] at hij ⊢
    exact h i j hij

theorem Reachable.flagInv {b : Board} (h : Reachable b) : FlagInv b := by
  induction h with
  | empty => intro p q hpq; simp [Board.empty] at hpq
  | place x y d t e _ hplace ih =>
    cases e with
    | some err => rw [PlaceShip_failed_board hplace]; exact ih
    | none =>
      obtain ⟨L, mx, my, ht, -, -, hcells⟩ := PlaceShip_ok_inv hplace
      intro p q hpq
      rw [hcells p q] at hpq ⊢
      split_ifs at hpq ⊢ with hin
      · exfalso
        apply hpq
        simp only [fleetTable, List.mem_cons, Prod.mk.injEq, List.mem_singleton,
          List.not_mem_nil, or_false] at ht
        rcases ht with ⟨rfl, -⟩ | ⟨rfl, -⟩ | ⟨rfl, -⟩ | ⟨rfl, -⟩ | ⟨rfl, -⟩ <;> decide
      · exact ih p q hpq
  | opponent x y hit sunk _ hshot ih =>
    obtain ⟨p, q, -, -, rfl⟩ := OpponentShot_board hshot
    exact ih.mark p q _ (Or.inl (by decide))
  | player x y hit _ hshot ih =>
    obtain ⟨p, q, -, -, rfl⟩ := PlayerShot_board hshot
    exact ih.mark p q _ (Or.inr (by cases hit <;> decide))
  | clear _ _ => intro p q hpq; simp [Board.Clear] at hpq

/-- C11. Flag invariant: on every board reachable from the empty board by any sequence of
PlaceShip, OpponentShot, PlayerShot and Clear calls, every cell whose hit flag
(playerHit) is set also has its outgoing-shot flag (playerShot) set. -/
theorem flag_invariant (b : Board) (h : Reachable b) :
    ∀ p q : Fin 10, b.cells p q &&& playerHit ≠ 0 → b.cells p q &&& playerShot ≠ 0 :=
  h.flagInv

theorem demoSunk_reachable : Reachable demoSunk :=
  Reachable.opponent 1 0 true shipPatrolBoat
    (Reachable.opponent 0 0 true 0
      (Reachable.place 0 0 right shipPatrolBoat none Reachable.empty
        (option_board_eq demoFleet (by decide) (by decide)))
      (option_board_eq demoHit (by decide) (by decide)))
    (option_board_eq _ (by decide) (by decide))

theorem flag_invariant_witness :
    Reachable demoSunk ∧
      ∀ p q : Fin 10, demoSunk.cells p q &&& playerHit ≠ 0 →
        demoSunk.cells p q &&& playerShot ≠ 0 :=
  ⟨demoSunk_reachable, flag_invariant demoSunk demoSunk_reachable⟩

/-! ## PlayerShot and its queries -/

/-- No sequence of calls produces `demoHitOnly`: its cell `(0, 0)` carries the hit flag
without the outgoing-shot flag. -/
theorem demoHitOnly_unreachable : ¬ Reachable demoHitOnly := fun h =>
  h.flagInv 0 0 (by decide) (by decide)

/-- The flag invariant is what makes `PlayerHasHit` equal `wasHit` after a first shot:
on the grid `demoHitOnly`, which breaks it, the cell `(0, 0)` has not been shot, yet
after `PlayerShot(0, 0, false)` the query `PlayerHasHit(0, 0)` is true. -/
theorem PlayerShot_stale_hit :
    IsValid 0 0 = true ∧ PlayerHasShot demoHitOnly 0 0 = some false ∧
      (PlayerShot demoHitOnly 0 0 false).bind (fun b1 => PlayerHasHit b1 0 0) = some true := by
  decide

/-- C10. PlayerShot and its queries: for every board, on-grid `(x, y)` and boolean
`wasHit`, `PlayerShot(x, y, wasHit)` returns, and afterwards `PlayerHasShot(x, y)` is
true, `PlayerHasHit(x, y)` is true when `wasHit` is true, and when the cell had not been
shot before the call `PlayerHasHit(x, y)` equals `wasHit`; `PlayerHasShot` and
`PlayerHasHit` at every other cell return what they returned before.  A board is a grid
that satisfies the invariant of the data model, hit flag set implies outgoing-shot flag
set (`FlagInv`); every board reachable from the empty board by `PlaceShip`,
`OpponentShot`, `PlayerShot` and `Clear` is one (`Reachable.flagInv`). -/
theorem PlayerShot_queries (b : Board) (hb : FlagInv b) (x y : Int) (wasHit : Bool)
    (hvalid : IsValid x y = true) :
    ∃ b1 : Board, PlayerShot b x y wasHit = some b1 ∧
      PlayerHasShot b1 x y = some true ∧
      (wasHit = true → PlayerHasHit b1 x y = some true) ∧
      (PlayerHasShot b x y = some false → PlayerHasHit b1 x y = some wasHit) ∧
      (∀ x1 y1 : Int, ¬ (x1 = x ∧ y1 = y) →
        PlayerHasShot b1 x1 y1 = PlayerHasShot b x1 y1 ∧
          PlayerHasHit b1 x1 y1 = PlayerHasHit b x1 y1) := by
  obtain ⟨b1, h1, h2, h3, -, h5, h6⟩ := PlayerShot_effect b x y wasHit hvalid
  refine ⟨b1, h1, h2, h3, h5 ?_, h6⟩
  obtain ⟨p, q, rfl, rfl⟩ := exists_fin_of_valid hvalid
  rw [Board.cell_coe]
  exact hb p q

theorem PlayerShot_queries_witness :
    Reachable demoSunk ∧ IsValid 3 4 = true ∧
      ∃ b1 : Board, PlayerShot demoSunk 3 4 true = some b1 ∧
        PlayerHasShot b1 3 4 = some true ∧
        (true = true → PlayerHasHit b1 3 4 = some true) ∧
        (PlayerHasShot demoSunk 3 4 = some false → PlayerHasHit b1 3 4 = some true) ∧
        (∀ x1 y1 : Int, ¬ (x1 = 3 ∧ y1 = 4) →
          PlayerHasShot b1 x1 y1 = PlayerHasShot demoSunk x1 y1 ∧
            PlayerHasHit b1 x1 y1 = PlayerHasHit demoSunk x1 y1) :=
  ⟨demoSunk_reachable, by decide,
    PlayerShot_queries demoSunk demoSunk_reachable.flagInv 3 4 true (by decide)⟩

/-! ## The documented example of the codec -/

/-- C17 (as stated, refuted). `ParsePosition("b6")` returns `x = 5, y = 1`, not
`x = 2, y = 6`, and `FormatPosition(2, 6)` returns `"g3"`, not `"b6"`. -/
theorem documented_example_fails :
    ParsePosition ['b', '6'] ≠ some (.ok (2, 6)) ∧ FormatPosition 2 6 ≠ ['b', '6'] := by
  decide

/-- C17 (amended). `ParsePosition("b6")` returns `x = 5, y = 1` with no error (the
letter gives `y`, the number less one gives `x`), `FormatPosition(5, 1)` returns `"b6"`,
and `FormatPosition(2, 6)` returns `"g3"`. -/
theorem documented_example_amended :
    ParsePosition ['b', '6'] = some (.ok (5, 1)) ∧ FormatPosition 5 1 = ['b', '6'] ∧
      FormatPosition 2 6 = ['g', '3'] := by
  decide

/-! ## Counting ship cells -/

theorem FleetReach.reachInv {b : Board} {ts : List Nat} (h : FleetReach b ts) :
    FleetInv b ts := by
  induction h with
  | empty => exact FleetInv.empty
  | place x y d t _ hnew hplace ih => exact FleetInv.place ih hnew hplace
  | failed x y d t e _ hplace ih => rw [PlaceShip_failed_board hplace]; exact ih
  | opponent x y hit sunk _ hshot ih =>
    obtain ⟨p, q, -, -, rfl⟩ := OpponentShot_board hshot
    exact ih.of_tag_eq (Board.mark_tag _ p q _ (by decide))
  | player x y hit _ hshot ih =>
    obtain ⟨p, q, -, -, rfl⟩ := PlayerShot_board hshot
    exact ih.of_tag_eq (Board.mark_tag _ p q _ (by cases hit <;> decide))

theorem IsShipRun.tagCount_eq {b : Board} {t : Nat} {x0 y0 : Int} {vert : Bool} {L : Nat}
    (hrun : IsShipRun b t x0 y0 vert L) : tagCount b t = L := by
  classical
  let f : Nat → Fin 10 × Fin 10 := fun i =>
    (⟨(x0 + i * stepX vert).toNat % 10, Nat.mod_lt _ (by norm_num)⟩,
      ⟨(y0 + i * stepY vert).toNat % 10, Nat.mod_lt _ (by norm_num)⟩)
  have hf : ∀ i : Nat, i < L → (((f i).1.val : Int) = x0 + i * stepX vert ∧
      ((f i).2.val : Int) = y0 + i * stepY vert) := by
    intro i hi
    have hv := (IsValid_iff _ _).mp (hrun.valid i hi)
    simp only [f]
    omega
  have hset : (Finset.univ.filter fun pq : Fin 10 × Fin 10 =>
      b.cells pq.1 pq.2 &&& shipMask = t) = (Finset.range L).image f := by
    ext ⟨p, q⟩
    simp only [Finset.mem_filter, Finset.mem_univ, true_and, Finset.mem_image,
      Finset.mem_range]
    rw [hrun.cells p q]
    constructor
    · rintro ⟨i, hi, h1, h2⟩
      refine ⟨i, hi, ?_⟩
      obtain ⟨e1, e2⟩ := hf i hi
      exact Prod.ext (Fin.ext (by exact_mod_cast e1.trans h1.symm))
        (Fin.ext (by exact_mod_cast e2.trans h2.symm))
    · rintro ⟨i, hi, he⟩
      obtain ⟨e1, e2⟩ := hf i hi
      rw [he] at e1 e2
      exact ⟨i, hi, e1, e2⟩
  unfold tagCount
  rw [hset, Finset.card_image_of_injOn, Finset.card_range]
  intro i hi j hj hij
  simp only [Finset.coe_range, Set.mem_Iio] at hi hj
  obtain ⟨a1, a2⟩ := hf i hi
  obtain ⟨c1, c2⟩ := hf j hj
  rw [hij] at a1 a2
  rcases step_cases vert with ⟨hx, hy⟩ | ⟨hx, hy⟩ <;>
    (simp only [hx, hy] at a1 a2 c1 c2; omega)

theorem FleetInv.tag_cases {b : Board} {ts : List Nat} (hinv : FleetInv b ts) (p q : Fin 10) :
    b.cells p q &&& shipMask = 0 ∨ b.cells p q &&& shipMask = shipCarrier ∨
      b.cells p q &&& shipMask = shipBattleship ∨ b.cells p q &&& shipMask = shipDestroyer ∨
      b.cells p q &&& shipMask = shipSubmarine ∨ b.cells p q &&& shipMask = shipPatrolBoat := by
  rcases hinv.1 p q with h0 | hmem
  · exact Or.inl h0
  · obtain ⟨L, -, -, -, htL, -⟩ := hinv.2 _ hmem
    simp only [fleetTable, List.mem_cons, Prod.mk.injEq, List.mem_singleton,
      List.not_mem_nil, or_false] at htL
    rcases htL with ⟨h, -⟩ | ⟨h, -⟩ | ⟨h, -⟩ | ⟨h, -⟩ | ⟨h, -⟩ <;> simp [h]

theorem FleetInv.shipCount_eq {b : Board} {ts : List Nat} (hinv : FleetInv b ts) :
    shipCount b = tagCount b shipCarrier + tagCount b shipBattleship +
      tagCount b shipDestroyer + tagCount b shipSubmarine + tagCount b shipPatrolBoat := by
  unfold shipCount tagCount
  simp only [Finset.card_filter]
  simp only [← Finset.sum_add_distrib]
  apply Finset.sum_congr rfl
  rintro ⟨p, q⟩ -
  rcases hinv.tag_cases p q with h | h | h | h | h | h <;> simp [h]

theorem FleetInv.shipCount_full {b : Board} {ts : List Nat} (hinv : FleetInv b ts)
    (hall : ∀ tL ∈ fleetTable, tL.1 ∈ ts) : shipCount b = 17 := by
  have key : ∀ t L : Nat, (t, L) ∈ fleetTable → tagCount b t = L := by
    intro t L htL
    obtain ⟨L1, x0, y0, vert, htL1, hrun⟩ := hinv.2 t (hall (t, L) htL)
    have hLL : L1 = L := by
      simp only [fleetTable, List.mem_cons, Prod.mk.injEq, List.mem_singleton,
        List.not_mem_nil, or_false] at htL htL1
      rcases htL with ⟨rfl, rfl⟩ | ⟨rfl, rfl⟩ | ⟨rfl, rfl⟩ | ⟨rfl, rfl⟩ | ⟨rfl, rfl⟩ <;>
        simp at htL1 <;> omega
    rw [← hLL]
    exact hrun.tagCount_eq
  rw [hinv.shipCount_eq, key shipCarrier 5 (by decide), key shipBattleship 4 (by decide),
    key shipDestroyer 3 (by decide), key shipSubmarine 3 (by decide),
    key shipPatrolBoat 2 (by decide)]

/-- C12. Fleet invariant: on every board reachable from the empty board by PlaceShip
calls (with or without error), those without error having pairwise distinct ship types,
interleaved with any shots, the cells tagged with each placed type `t` are exactly the
`L(t)` cells of one straight contiguous run along a row or a column, all on the grid
(so runs of different types share no cell), every tag on the board is a placed type,
and a board with all five types placed has exactly 17 ship cells. -/
theorem fleet_invariant (b : Board) (ts : List Nat) (h : FleetReach b ts) :
    (∀ t ∈ ts, ∃ (L : Nat) (x0 y0 : Int) (vert : Bool),
      (t, L) ∈ fleetTable ∧ IsShipRun b t x0 y0 vert L ∧ tagCount b t = L) ∧
    (∀ p q : Fin 10, b.cells p q &&& shipMask = 0 ∨ b.cells p q &&& shipMask ∈ ts) ∧
    ((∀ tL ∈ fleetTable, tL.1 ∈ ts) → shipCount b = 17) := by
  have hinv := h.reachInv
  refine ⟨fun t ht => ?_, hinv.1, hinv.shipCount_full⟩
  obtain ⟨L, x0, y0, vert, htL, hrun⟩ := hinv.2 t ht
  exact ⟨L, x0, y0, vert, htL, hrun, hrun.tagCount_eq⟩

theorem demoSunk_fleetReach : FleetReach demoSunk [shipPatrolBoat] :=
  FleetReach.opponent 1 0 true shipPatrolBoat
    (FleetReach.opponent 0 0 true 0
      (FleetReach.place 0 0 right shipPatrolBoat FleetReach.empty (by decide)
        (option_board_eq demoFleet (by decide) (by decide)))
      (option_board_eq demoHit (by decide) (by decide)))
    (option_board_eq _ (by decide) (by decide))

theorem fleet_invariant_witness :
    (∀ t ∈ [shipPatrolBoat], ∃ (L : Nat) (x0 y0 : Int) (vert : Bool),
      (t, L) ∈ fleetTable ∧ IsShipRun demoSunk t x0 y0 vert L ∧ tagCount demoSunk t = L) ∧
    (∀ p q : Fin 10, demoSunk.cells p q &&& shipMask = 0 ∨
      demoSunk.cells p q &&& shipMask ∈ [shipPatrolBoat]) ∧
    ((∀ tL ∈ fleetTable, tL.1 ∈ [shipPatrolBoat]) → shipCount demoSunk = 17) :=
  fleet_invariant demoSunk [shipPatrolBoat] demoSunk_fleetReach

theorem RandomBoard.loop_fleetReach (b : Board) (ships rng : List Nat) :
    ∀ (ts : List Nat) (b1 : Board),
      FleetReach b ts → (∀ s ∈ ships, s ∉ ts) → ships.Nodup →
      RandomBoard.loop b ships rng = .ok b1 → FleetReach b1 (ships.reverse ++ ts) := by
  induction b, ships, rng using RandomBoard.loop.induct with
  | case1 t b =>
    intro ts b1 hreach _ _ h
    simp only [RandomBoard.loop, Run.ok.injEq] at h
    subst h
    simpa using hreach
  | case2 b s ships d1 d2 d3 rest hplace =>
    intro ts b1 _ _ _ h
    rw [RandomBoard.loop, hplace] at h
    cases h
  | case3 b s ships d1 d2 d3 rest b2 hplace ih =>
    intro ts b1 hreach hnew hnodup h
    rw [RandomBoard.loop, hplace] at h
    have hs : s ∉ ts := hnew s (List.mem_cons_self _ _)
    have := ih (s :: ts) b1 (FleetReach.place _ _ _ s hreach hs hplace)
      (by
        intro s1 hs1 hmem
        rcases List.mem_cons.mp hmem with rfl | hmem1
        · exact (List.nodup_cons.mp hnodup).1 hs1
        · exact hnew s1 (List.mem_cons_of_mem _ hs1) hmem1)
      (List.nodup_cons.mp hnodup).2 h
    simpa using this
  | case4 b s ships d1 d2 d3 rest b2 e hplace ih =>
    intro ts b1 hreach hnew hnodup h
    rw [RandomBoard.loop, hplace] at h
    exact ih ts b1 (FleetReach.failed _ _ _ s e hreach hplace) hnew hnodup h
  | case5 t b s ships hno =>
    intro ts b1 _ _ _ h
    rw [RandomBoard.loop] at h
    · cases h
    · exact hno

/-- Every board `RandomBoard` returns is reachable with all five types placed, and so
holds exactly 17 ship cells. -/
theorem RandomBoard_shipCount (rng : List Nat) (b : Board) (h : RandomBoard rng = .ok b) :
    FleetReach b
        [shipPatrolBoat, shipSubmarine, shipDestroyer, shipBattleship, shipCarrier] ∧
      shipCount b = 17 := by
  have hreach := RandomBoard.loop_fleetReach Board.empty _ rng [] b FleetReach.empty
    (by simp) (by decide) h
  simp only [List.reverse_cons, List.reverse_nil, List.nil_append, List.cons_append,
    List.append_nil] at hreach
  exact ⟨hreach, hreach.reachInv.shipCount_full (by decide)⟩

/-! ## The AI: queries and walks -/

theorem Board.cell_of_invalid (b : Board) {x y : Int} (h : IsValid x y = false) :
    b.cell x y = 0 := by
  simp [Board.cell, Board.get_eq_none h]

theorem PlayerHasShot_of_valid (b : Board) {x y : Int} (h : IsValid x y = true) :
    PlayerHasShot b x y = some (b.shot x y) := by
  obtain ⟨p, q, rfl, rfl⟩ := exists_fin_of_valid h
  rw [PlayerHasShot_coe, Board.shot, Board.cell_coe]

theorem PlayerHasHit_of_valid (b : Board) {x y : Int} (h : IsValid x y = true) :
    PlayerHasHit b x y = some (b.hit x y) := by
  obtain ⟨p, q, rfl, rfl⟩ := exists_fin_of_valid h
  rw [PlayerHasHit_coe, Board.hit, Board.cell_coe]

theorem PlayerHasShot_of_invalid (b : Board) {x y : Int} (h : IsValid x y = false) :
    PlayerHasShot b x y = none := by
  simp [PlayerHasShot, Board.get_eq_none h]

theorem PlayerHasHit_of_invalid (b : Board) {x y : Int} (h : IsValid x y = false) :
    PlayerHasHit b x y = none := by
  simp [PlayerHasHit, Board.get_eq_none h]

theorem PlayerHasShot_some {b : Board} {x y : Int} {v : Bool} (h : PlayerHasShot b x y = some v) :
    IsValid x y = true ∧ b.shot x y = v := by
  by_cases hv : IsValid x y = true
  · rw [PlayerHasShot_of_valid b hv] at h
    exact ⟨hv, by simpa using h⟩
  · rw [PlayerHasShot_of_invalid b (by simpa using hv)] at h
    cases h

theorem Board.shot_of_invalid (b : Board) {x y : Int} (h : IsValid x y = false) :
    b.shot x y = false := by
  simp [Board.shot, Board.cell_of_invalid b h]

theorem Board.hit_of_invalid (b : Board) {x y : Int} (h : IsValid x y = false) :
    b.hit x y = false := by
  simp [Board.hit, Board.cell_of_invalid b h]

theorem Board.valid_of_hit {b : Board} {x y : Int} (h : b.hit x y = true) :
    IsValid x y = true := by
  by_contra hv
  rw [Board.hit_of_invalid b (by simpa using hv)] at h
  cases h

theorem FlagInv.shot_of_hit {b : Board} (hinv : FlagInv b) {x y : Int} (h : b.hit x y = true) :
    b.shot x y = true := by
  obtain ⟨p, q, rfl, rfl⟩ := exists_fin_of_valid (Board.valid_of_hit h)
  rw [Board.hit, Board.cell_coe, ← and_playerHit_ne_zero] at h
  rw [Board.shot, Board.cell_coe, ← and_playerShot_ne_zero]
  exact hinv p q h

theorem AI.freeAt_eq (a : AI) (inRange : Bool) (x y : Int)
    (h : inRange = true → IsValid x y = true) :
    a.freeAt inRange x y = some (inRange && !a.board.shot x y) := by
  unfold AI.freeAt
  cases inRange
  · simp
  · simp [PlayerHasShot_of_valid a.board (h rfl)]

theorem AI.hitEither_eq (a : AI) (lo : Bool) (x1 y1 : Int) (hi : Bool) (x2 y2 : Int)
    (h1 : lo = true → IsValid x1 y1 = true) (h2 : hi = true → IsValid x2 y2 = true) :
    a.hitEither lo x1 y1 hi x2 y2 =
      some ((lo && a.board.hit x1 y1) || (hi && a.board.hit x2 y2)) := by
  unfold AI.hitEither
  cases lo <;> cases hi
  · simp
  · simp [PlayerHasHit_of_valid a.board (h2 rfl)]
  · simp only [PlayerHasHit_of_valid a.board (h1 rfl), if_true]
    cases a.board.hit x1 y1 <;> simp
  · simp only [PlayerHasHit_of_valid a.board (h1 rfl), PlayerHasHit_of_valid a.board (h2 rfl),
      if_true]
    cases a.board.hit x1 y1 <;> simp

/-- The walk returns when all the cells it may visit are on the grid. -/
theorem AI.walk_total (a : AI) (dx dy : Int) :
    ∀ (n : Nat) (ix iy : Int),
      (∀ j : Nat, j < n → IsValid (ix + j * dx) (iy + j * dy) = true) →
      ∃ r, AI.walk a dx dy n ix iy = some r := by
  intro n
  induction n with
  | zero => intro ix iy _; exact ⟨none, rfl⟩
  | succ n ih =>
    intro ix iy hv
    have h0 := hv 0 (Nat.succ_pos n)
    simp only [Nat.cast_zero, zero_mul, add_zero] at h0
    obtain ⟨r, hr⟩ := ih (ix + dx) (iy + dy) (by
      intro j hj
      have := hv (j + 1) (by omega)
      have e1 : ix + dx + (j : Int) * dx = ix + ((j + 1 : Nat) : Int) * dx := by push_cast; ring
      have e2 : iy + dy + (j : Int) * dy = iy + ((j + 1 : Nat) : Int) * dy := by push_cast; ring
      rw [e1, e2]; exact this)
    simp only [AI.walk, PlayerHasHit_of_valid a.board h0, PlayerHasShot_of_valid a.board h0, hr]
    cases a.board.hit ix iy <;> cases a.board.shot ix iy <;> exact ⟨_, rfl⟩

/-- The walk passes over hit cells: when the first `k` cells are hit and cell `k` is
not, the result is decided by cell `k`. -/
theorem AI.walk_stop (a : AI) (dx dy : Int) :
    ∀ (k n : Nat) (ix iy : Int), k < n →
      (∀ j : Nat, j < k → a.board.hit (ix + j * dx) (iy + j * dy) = true) →
      IsValid (ix + k * dx) (iy + k * dy) = true →
      a.board.hit (ix + k * dx) (iy + k * dy) = false →
      AI.walk a dx dy n ix iy =
        some (if a.board.shot (ix + k * dx) (iy + k * dy) = true then none
          else some (ix + k * dx, iy + k * dy)) := by
  intro k
  induction k with
  | zero =>
    intro n ix iy hn _ hv hh
    obtain ⟨m, rfl⟩ := Nat.exists_eq_succ_of_ne_zero (Nat.pos_iff_ne_zero.mp hn)
    simp only [Nat.cast_zero, zero_mul, add_zero] at hv hh ⊢
    simp only [AI.walk, PlayerHasHit_of_valid a.board hv, PlayerHasShot_of_valid a.board hv, hh]
    cases a.board.shot ix iy <;> rfl
  | succ k ih =>
    intro n ix iy hn hhit hv hh
    obtain ⟨m, rfl⟩ := Nat.exists_eq_succ_of_ne_zero (show n ≠ 0 by omega)
    have shift : ∀ j : Nat, ix + dx + (j : Int) * dx = ix + ((j + 1 : Nat) : Int) * dx ∧
        iy + dy + (j : Int) * dy = iy + ((j + 1 : Nat) : Int) * dy := by
      intro j; constructor <;> (push_cast; ring)
    have h0 := hhit 0 (Nat.succ_pos k)
    simp only [Nat.cast_zero, zero_mul, add_zero] at h0
    have hrec := ih m (ix + dx) (iy + dy) (by omega)
      (by intro j hj; rw [(shift j).1, (shift j).2]; exact hhit (j + 1) (by omega))
      (by rw [(shift k).1, (shift k).2]; exact hv)
      (by rw [(shift k).1, (shift k).2]; exact hh)
    rw [(shift k).1, (shift k).2] at hrec
    simp only [AI.walk, PlayerHasHit_of_valid a.board (Board.valid_of_hit h0), h0, hrec]

/-- The walk finds nothing when all its cells are hit. -/
theorem AI.walk_all_hit (a : AI) (dx dy : Int) :
    ∀ (n : Nat) (ix iy : Int),
      (∀ j : Nat, j < n → a.board.hit (ix + j * dx) (iy + j * dy) = true) →
      AI.walk a dx dy n ix iy = some none := by
  intro n
  induction n with
  | zero => intro ix iy _; rfl
  | succ n ih =>
    intro ix iy hhit
    have h0 := hhit 0 (Nat.succ_pos n)
    simp only [Nat.cast_zero, zero_mul, add_zero] at h0
    have hrec := ih (ix + dx) (iy + dy) (by
      intro j hj
      have := hhit (j + 1) (by omega)
      have e1 : ix + dx + (j : Int) * dx = ix + ((j + 1 : Nat) : Int) * dx := by push_cast; ring
      have e2 : iy + dy + (j : Int) * dy = iy + ((j + 1 : Nat) : Int) * dy := by push_cast; ring
      rw [e1, e2]; exact this)
    simp only [AI.walk, PlayerHasHit_of_valid a.board (Board.valid_of_hit h0), h0, hrec]

/-- What a cell returned by the walk is: a cell on the grid, neither hit nor shot, with
only hit cells before it. -/
theorem AI.walk_found (a : AI) (dx dy : Int) :
    ∀ (n : Nat) (ix iy : Int) (c : Int × Int), AI.walk a dx dy n ix iy = some (some c) →
      ∃ k : Nat, k < n ∧ c = (ix + k * dx, iy + k * dy) ∧ IsValid c.1 c.2 = true ∧
        a.board.hit c.1 c.2 = false ∧ a.board.shot c.1 c.2 = false ∧
        ∀ j : Nat, j < k → a.board.hit (ix + j * dx) (iy + j * dy) = true := by
  intro n
  induction n with
  | zero => intro ix iy c h; simp [AI.walk] at h
  | succ n ih =>
    intro ix iy c h
    by_cases hv : IsValid ix iy = true
    · simp only [AI.walk, PlayerHasHit_of_valid a.board hv, PlayerHasShot_of_valid a.board hv] at h
      cases hh : a.board.hit ix iy
      · rw [hh] at h
        cases hs : a.board.shot ix iy
        · rw [hs] at h
          simp only [Option.some.injEq] at h
          subst h
          exact ⟨0, Nat.succ_pos n, by simp, hv, hh, hs, fun j hj => absurd hj (Nat.not_lt_zero j)⟩
        · rw [hs] at h; simp at h
      · rw [hh] at h
        obtain ⟨k, hk, hc, hvc, hhc, hsc, hbefore⟩ := ih (ix + dx) (iy + dy) c h
        refine ⟨k + 1, by omega, ?_, hvc, hhc, hsc, ?_⟩
        · rw [hc]; push_cast; exact Prod.ext (by ring) (by ring)
        · intro j hj
          cases j with
          | zero => simpa using hh
          | succ i =>
            have := hbefore i (by omega)
            have e1 : ix + dx + (i : Int) * dx = ix + ((i + 1 : Nat) : Int) * dx := by
              push_cast; ring
            have e2 : iy + dy + (i : Int) * dy = iy + ((i + 1 : Nat) : Int) * dy := by
              push_cast; ring
            rw [← e1, ← e2]; exact this
    · simp [AI.walk, PlayerHasHit_of_invalid a.board (by simpa using hv)] at h

theorem AI.findHorizontalShot.right_eq_walk (a : AI) (y : Int) :
    ∀ (n : Nat) (ix : Int),
      AI.findHorizontalShot.right a y n ix =
        (AI.walk a 1 0 n ix y).map (Option.map Prod.fst) := by
  intro n
  induction n with
  | zero => intro ix; rfl
  | succ n ih =>
    intro ix
    simp only [AI.findHorizontalShot.right, AI.walk, ih, add_zero]
    cases PlayerHasHit a.board ix y with
    | none => rfl
    | some h =>
      cases h
      · cases PlayerHasShot a.board ix y with
        | none => rfl
        | some s => cases s <;> rfl
      · rfl

theorem AI.findHorizontalShot.left_eq_walk (a : AI) (y : Int) :
    ∀ (n : Nat) (ix : Int),
      AI.findHorizontalShot.left a y n ix =
        (AI.walk a (-1) 0 n ix y).map (Option.map Prod.fst) := by
  intro n
  induction n with
  | zero => intro ix; rfl
  | succ n ih =>
    intro ix
    simp only [AI.findHorizontalShot.left, AI.walk, ih, add_zero, sub_eq_add_neg]
    cases PlayerHasHit a.board ix y with
    | none => rfl
    | some h =>
      cases h
      · cases PlayerHasShot a.board ix y with
        | none => rfl
        | some s => cases s <;> rfl
      · rfl

theorem AI.findVerticalShot.up_eq_walk (a : AI) (x : Int) :
    ∀ (n : Nat) (iy : Int),
      AI.findVerticalShot.up a x n iy =
        (AI.walk a 0 1 n x iy).map (Option.map Prod.snd) := by
  intro n
  induction n with
  | zero => intro iy; rfl
  | succ n ih =>
    intro iy
    simp only [AI.findVerticalShot.up, AI.walk, ih, add_zero]
    cases PlayerHasHit a.board x iy with
    | none => rfl
    | some h =>
      cases h
      · cases PlayerHasShot a.board x iy with
        | none => rfl
        | some s => cases s <;> rfl
      · rfl

theorem AI.findVerticalShot.down_eq_walk (a : AI) (x : Int) :
    ∀ (n : Nat) (iy : Int),
      AI.findVerticalShot.down a x n iy =
        (AI.walk a 0 (-1) n x iy).map (Option.map Prod.snd) := by
  intro n
  induction n with
  | zero => intro iy; rfl
  | succ n ih =>
    intro iy
    simp only [AI.findVerticalShot.down, AI.walk, ih, add_zero, sub_eq_add_neg]
    cases PlayerHasHit a.board x iy with
    | none => rfl
    | some h =>
      cases h
      · cases PlayerHasShot a.board x iy with
        | none => rfl
        | some s => cases s <;> rfl
      · rfl

/-- A line search in both directions along `(dx, dy)`: the shape shared by
`findHorizontalShot` and `findVerticalShot`. -/
theorem AI.findHorizontalShot_eq (a : AI) (x y : Int) :
    a.findHorizontalShot x y =
      match AI.walk a 1 0 (boardSize - x).toNat x y with
      | none => none
      | some (some c) => some (c.1, true)
      | some none =>
        match AI.walk a (-1) 0 (x + 1).toNat x y with
        | none => none
        | some (some c) => some (c.1, true)
        | some none => some (0, false) := by
  unfold AI.findHorizontalShot
  rw [AI.findHorizontalShot.right_eq_walk, AI.findHorizontalShot.left_eq_walk]
  cases AI.walk a 1 0 (boardSize - x).toNat x y with
  | none => rfl
  | some r =>
    cases r with
    | some c => rfl
    | none =>
      cases AI.walk a (-1) 0 (x + 1).toNat x y with
      | none => rfl
      | some r2 => cases r2 <;> rfl

theorem AI.findVerticalShot_eq (a : AI) (x y : Int) :
    a.findVerticalShot x y =
      match AI.walk a 0 1 (boardSize - y).toNat x y with
      | none => none
      | some (some c) => some (c.2, true)
      | some none =>
        match AI.walk a 0 (-1) (y + 1).toNat x y with
        | none => none
        | some (some c) => some (c.2, true)
        | some none => some (0, false) := by
  unfold AI.findVerticalShot
  rw [AI.findVerticalShot.up_eq_walk, AI.findVerticalShot.down_eq_walk]
  cases AI.walk a 0 1 (boardSize - y).toNat x y with
  | none => rfl
  | some r =>
    cases r with
    | some c => rfl
    | none =>
      cases AI.walk a 0 (-1) (y + 1).toNat x y with
      | none => rfl
      | some r2 => cases r2 <;> rfl

theorem AI.findHorizontalShot_total (a : AI) {x y : Int} (h : IsValid x y = true) :
    ∃ r, a.findHorizontalShot x y = some r := by
  have hv := (IsValid_iff x y).mp h
  obtain ⟨r1, h1⟩ := AI.walk_total a 1 0 (boardSize - x).toNat x y (by
    intro j hj; rw [IsValid_iff]; simp only [boardSize] at hj; omega)
  obtain ⟨r2, h2⟩ := AI.walk_total a (-1) 0 (x + 1).toNat x y (by
    intro j hj; rw [IsValid_iff]; omega)
  rw [AI.findHorizontalShot_eq, h1, h2]
  cases r1 <;> cases r2 <;> exact ⟨_, rfl⟩

theorem AI.findVerticalShot_total (a : AI) {x y : Int} (h : IsValid x y = true) :
    ∃ r, a.findVerticalShot x y = some r := by
  have hv := (IsValid_iff x y).mp h
  obtain ⟨r1, h1⟩ := AI.walk_total a 0 1 (boardSize - y).toNat x y (by
    intro j hj; rw [IsValid_iff]; simp only [boardSize] at hj; omega)
  obtain ⟨r2, h2⟩ := AI.walk_total a 0 (-1) (y + 1).toNat x y (by
    intro j hj; rw [IsValid_iff]; omega)
  rw [AI.findVerticalShot_eq, h1, h2]
  cases r1 <;> cases r2 <;> exact ⟨_, rfl⟩

theorem AI.findHorizontalShot_found (a : AI) {x y c : Int}
    (h : a.findHorizontalShot x y = some (c, true)) :
    IsValid c y = true ∧ a.board.shot c y = false ∧ a.board.hit c y = false := by
  rw [AI.findHorizontalShot_eq] at h
  have key : ∀ (dx : Int) (n : Nat) (r : Int × Int), AI.walk a dx 0 n x y = some (some r) →
      IsValid r.1 y = true ∧ a.board.shot r.1 y = false ∧ a.board.hit r.1 y = false := by
    intro dx n r hr
    obtain ⟨k, -, hc, hv, hh, hs, -⟩ := AI.walk_found a dx 0 n x y r hr
    have hy : r.2 = y := by rw [hc]; simp
    rw [hy] at hv hh hs
    exact ⟨hv, hs, hh⟩
  split at h
  · cases h
  · rename_i r hr
    simp only [Option.some.injEq, Prod.mk.injEq, and_true] at h
    rw [← h]; exact key _ _ r hr
  · split at h
    · cases h
    · rename_i r hr
      simp only [Option.some.injEq, Prod.mk.injEq, and_true] at h
      rw [← h]; exact key _ _ r hr
    · simp at h

theorem AI.findVerticalShot_found (a : AI) {x y c : Int}
    (h : a.findVerticalShot x y = some (c, true)) :
    IsValid x c = true ∧ a.board.shot x c = false ∧ a.board.hit x c = false := by
  rw [AI.findVerticalShot_eq] at h
  have key : ∀ (dy : Int) (n : Nat) (r : Int × Int), AI.walk a 0 dy n x y = some (some r) →
      IsValid x r.2 = true ∧ a.board.shot x r.2 = false ∧ a.board.hit x r.2 = false := by
    intro dy n r hr
    obtain ⟨k, -, hc, hv, hh, hs, -⟩ := AI.walk_found a 0 dy n x y r hr
    have hx : r.1 = x := by rw [hc]; simp
    rw [hx] at hv hh hs
    exact ⟨hv, hs, hh⟩
  split at h
  · cases h
  · rename_i r hr
    simp only [Option.some.injEq, Prod.mk.injEq, and_true] at h
    rw [← h]; exact key _ _ r hr
  · split at h
    · cases h
    · rename_i r hr
      simp only [Option.some.injEq, Prod.mk.injEq, and_true] at h
      rw [← h]; exact key _ _ r hr
    · simp at h

/-! ## The AI: neighbour searches and findShot -/

theorem AI.findAdjacentShot_eq (a : AI) {x y : Int} (h : IsValid x y = true) :
    a.findAdjacentShot x y =
      match firstFree a.board [(x, y + 1), (x, y - 1), (x - 1, y), (x + 1, y)] with
      | some c => some (c.1, c.2, true)
      | none => some (0, 0, false) := by
  have hv := (IsValid_iff x y).mp h
  have e1 : decide (y + 1 < boardSize) = IsValid x (y + 1) := by
    rw [Bool.eq_iff_iff, decide_eq_true_iff, IsValid_iff]; simp only [boardSize]; omega
  have e2 : decide (y - 1 ≥ 0) = IsValid x (y - 1) := by
    rw [Bool.eq_iff_iff, decide_eq_true_iff, IsValid_iff]; omega
  have e3 : decide (x - 1 ≥ 0) = IsValid (x - 1) y := by
    rw [Bool.eq_iff_iff, decide_eq_true_iff, IsValid_iff]; omega
  have e4 : decide (x + 1 < boardSize) = IsValid (x + 1) y := by
    rw [Bool.eq_iff_iff, decide_eq_true_iff, IsValid_iff]; simp only [boardSize]; omega
  unfold AI.findAdjacentShot
  rw [AI.freeAt_eq a _ x (y + 1) (by rw [e1]; exact id),
    AI.freeAt_eq a _ x (y - 1) (by rw [e2]; exact id),
    AI.freeAt_eq a _ (x - 1) y (by rw [e3]; exact id),
    AI.freeAt_eq a _ (x + 1) y (by rw [e4]; exact id), e1, e2, e3, e4]
  simp only [firstFree, List.find?_cons, List.find?_nil]
  cases IsValid x (y + 1) && !a.board.shot x (y + 1) <;>
    cases IsValid x (y - 1) && !a.board.shot x (y - 1) <;>
    cases IsValid (x - 1) y && !a.board.shot (x - 1) y <;>
    cases IsValid (x + 1) y && !a.board.shot (x + 1) y <;> rfl

theorem AI.findDiagonalShot_eq (a : AI) {x y : Int} (h : IsValid x y = true) :
    a.findDiagonalShot x y =
      match firstFree a.board
        [(x - 1, y - 1), (x + 1, y - 1), (x + 1, y + 1), (x - 1, y + 1)] with
      | some c => some (c.1, c.2, true)
      | none => some (0, 0, false) := by
  have hv := (IsValid_iff x y).mp h
  have e1 : (decide (x - 1 ≥ 0) && decide (y - 1 ≥ 0)) = IsValid (x - 1) (y - 1) := by
    rw [Bool.eq_iff_iff, Bool.and_eq_true, decide_eq_true_iff, decide_eq_true_iff, IsValid_iff]
    omega
  have e2 : (decide (x + 1 < boardSize) && decide (y - 1 ≥ 0)) = IsValid (x + 1) (y - 1) := by
    rw [Bool.eq_iff_iff, Bool.and_eq_true, decide_eq_true_iff, decide_eq_true_iff, IsValid_iff]
    simp only [boardSize]; omega
  have e3 : (decide (x + 1 < boardSize) && decide (y + 1 < boardSize)) =
      IsValid (x + 1) (y + 1) := by
    rw [Bool.eq_iff_iff, Bool.and_eq_true, decide_eq_true_iff, decide_eq_true_iff, IsValid_iff]
    simp only [boardSize]; omega
  have e4 : (decide (x - 1 ≥ 0) && decide (y + 1 < boardSize)) = IsValid (x - 1) (y + 1) := by
    rw [Bool.eq_iff_iff, Bool.and_eq_true, decide_eq_true_iff, decide_eq_true_iff, IsValid_iff]
    simp only [boardSize]; omega
  unfold AI.findDiagonalShot
  rw [AI.freeAt_eq a _ (x - 1) (y - 1) (by rw [e1]; exact id),
    AI.freeAt_eq a _ (x + 1) (y - 1) (by rw [e2]; exact id),
    AI.freeAt_eq a _ (x + 1) (y + 1) (by rw [e3]; exact id),
    AI.freeAt_eq a _ (x - 1) (y + 1) (by rw [e4]; exact id), e1, e2, e3, e4]
  simp only [firstFree, List.find?_cons, List.find?_nil]
  cases IsValid (x - 1) (y - 1) && !a.board.shot (x - 1) (y - 1) <;>
    cases IsValid (x + 1) (y - 1) && !a.board.shot (x + 1) (y - 1) <;>
    cases IsValid (x + 1) (y + 1) && !a.board.shot (x + 1) (y + 1) <;>
    cases IsValid (x - 1) (y + 1) && !a.board.shot (x - 1) (y + 1) <;> rfl

theorem firstFree_some {b : Board} {cands : List (Int × Int)} {c : Int × Int}
    (h : firstFree b cands = some c) :
    c ∈ cands ∧ IsValid c.1 c.2 = true ∧ b.shot c.1 c.2 = false := by
  unfold firstFree at h
  have h1 := List.find?_some h
  have h2 := List.mem_of_find?_eq_some h
  simp only [Bool.and_eq_true, Bool.not_eq_true'] at h1
  exact ⟨h2, h1.1, h1.2⟩

/-- The test for a hit neighbour on the row. -/
theorem AI.hitEither_row (a : AI) {x y : Int} (h : IsValid x y = true) :
    a.hitEither (decide (x - 1 ≥ 0)) (x - 1) y (decide (x + 1 < boardSize)) (x + 1) y =
      some (a.board.hit (x - 1) y || a.board.hit (x + 1) y) := by
  have hv := (IsValid_iff x y).mp h
  have e3 : decide (x - 1 ≥ 0) = IsValid (x - 1) y := by
    rw [Bool.eq_iff_iff, decide_eq_true_iff, IsValid_iff]; omega
  have e4 : decide (x + 1 < boardSize) = IsValid (x + 1) y := by
    rw [Bool.eq_iff_iff, decide_eq_true_iff, IsValid_iff]; simp only [boardSize]; omega
  rw [AI.hitEither_eq a _ _ _ _ _ _ (by rw [e3]; exact id) (by rw [e4]; exact id), e3, e4]
  congr 1
  cases h1 : IsValid (x - 1) y <;> cases h2 : IsValid (x + 1) y <;>
    simp [Board.hit_of_invalid, h1, h2]

/-- The test for a hit neighbour on the column. -/
theorem AI.hitEither_column (a : AI) {x y : Int} (h : IsValid x y = true) :
    a.hitEither (decide (y - 1 ≥ 0)) x (y - 1) (decide (y + 1 < boardSize)) x (y + 1) =
      some (a.board.hit x (y - 1) || a.board.hit x (y + 1)) := by
  have hv := (IsValid_iff x y).mp h
  have e3 : decide (y - 1 ≥ 0) = IsValid x (y - 1) := by
    rw [Bool.eq_iff_iff, decide_eq_true_iff, IsValid_iff]; omega
  have e4 : decide (y + 1 < boardSize) = IsValid x (y + 1) := by
    rw [Bool.eq_iff_iff, decide_eq_true_iff, IsValid_iff]; simp only [boardSize]; omega
  rw [AI.hitEither_eq a _ _ _ _ _ _ (by rw [e3]; exact id) (by rw [e4]; exact id), e3, e4]
  congr 1
  cases h1 : IsValid x (y - 1) <;> cases h2 : IsValid x (y + 1) <;>
    simp [Board.hit_of_invalid, h1, h2]

theorem firstFree_result {b : Board} {cands : List (Int × Int)} {sx sy : Int}
    (h : (match firstFree b cands with
      | some c => some (c.1, c.2, true)
      | none => some (0, 0, false)) = some (sx, sy, true)) :
    firstFree b cands = some (sx, sy) ∧ IsValid sx sy = true ∧ b.shot sx sy = false := by
  cases hf : firstFree b cands with
  | none => rw [hf] at h; simp at h
  | some c =>
    rw [hf] at h
    simp only [Option.some.injEq, Prod.mk.injEq, and_true] at h
    obtain ⟨-, h2, h3⟩ := firstFree_some hf
    rw [h.1, h.2] at h2 h3
    exact ⟨by rw [← h.1, ← h.2], h2, h3⟩

theorem AI.findShot.finish_total (a : AI) {x y : Int} (h : IsValid x y = true)
    (hs vs : Bool) : ∃ r, AI.findShot.finish a x y hs vs = some r := by
  unfold AI.findShot.finish
  rw [AI.findDiagonalShot_eq a h, AI.findAdjacentShot_eq a h]
  cases hs <;> cases vs <;> simp only [Bool.and_self, Bool.and_false, Bool.false_and,
    Bool.or_self, Bool.or_false, Bool.or_true, Bool.false_eq_true, if_false, if_true]
  · cases firstFree a.board [(x, y + 1), (x, y - 1), (x - 1, y), (x + 1, y)] <;>
      exact ⟨_, rfl⟩
  · exact ⟨_, rfl⟩
  · exact ⟨_, rfl⟩
  · cases firstFree a.board [(x - 1, y - 1), (x + 1, y - 1), (x + 1, y + 1), (x - 1, y + 1)] <;>
      exact ⟨_, rfl⟩

theorem AI.findShot.finish_found (a : AI) {x y : Int} (h : IsValid x y = true)
    {hs vs : Bool} {sx sy : Int}
    (hf : AI.findShot.finish a x y hs vs = some (sx, sy, true)) :
    IsValid sx sy = true ∧ a.board.shot sx sy = false := by
  unfold AI.findShot.finish at hf
  rw [AI.findDiagonalShot_eq a h, AI.findAdjacentShot_eq a h] at hf
  cases hs <;> cases vs <;> simp only [Bool.and_self, Bool.and_false, Bool.false_and,
    Bool.or_self, Bool.or_false, Bool.or_true, Bool.false_eq_true, if_false, if_true] at hf
  · exact (firstFree_result hf).2
  · simp at hf
  · simp at hf
  · cases hd : firstFree a.board
        [(x - 1, y - 1), (x + 1, y - 1), (x + 1, y + 1), (x - 1, y + 1)] with
    | none => rw [hd] at hf; simp at hf
    | some c =>
      rw [hd] at hf
      simp only [Option.some.injEq, Prod.mk.injEq, and_true] at hf
      obtain ⟨-, h2, h3⟩ := firstFree_some hd
      rw [hf.1, hf.2] at h2 h3
      exact ⟨h2, h3⟩

theorem AI.findShot.vertical_total (a : AI) {x y : Int} (h : IsValid x y = true)
    (hs : Bool) : ∃ r, AI.findShot.vertical a x y hs = some r := by
  unfold AI.findShot.vertical
  rw [AI.hitEither_column a h]
  cases a.board.hit x (y - 1) || a.board.hit x (y + 1)
  · exact AI.findShot.finish_total a h hs false
  · obtain ⟨r, hr⟩ := AI.findVerticalShot_total a h
    simp only [hr]
    obtain ⟨c, ok⟩ := r
    cases ok
    · exact AI.findShot.finish_total a h hs true
    · exact ⟨_, rfl⟩

theorem AI.findShot.vertical_found (a : AI) {x y : Int} (h : IsValid x y = true)
    {hs : Bool} {sx sy : Int}
    (hf : AI.findShot.vertical a x y hs = some (sx, sy, true)) :
    IsValid sx sy = true ∧ a.board.shot sx sy = false := by
  unfold AI.findShot.vertical at hf
  rw [AI.hitEither_column a h] at hf
  cases hv : a.board.hit x (y - 1) || a.board.hit x (y + 1)
  · rw [hv] at hf
    exact AI.findShot.finish_found a h hf
  · rw [hv] at hf
    obtain ⟨r, hr⟩ := AI.findVerticalShot_total a h
    obtain ⟨c, ok⟩ := r
    simp only [hr] at hf
    cases ok
    · exact AI.findShot.finish_found a h hf
    · simp only [Option.some.injEq, Prod.mk.injEq, and_true] at hf
      obtain ⟨h1, h2, -⟩ := AI.findVerticalShot_found a hr
      rw [← hf.1, ← hf.2]
      exact ⟨h1, h2⟩

/-- findShot returns on every on-grid cell: none of its reads is out of range. -/
theorem AI.findShot_total (a : AI) {x y : Int} (h : IsValid x y = true) :
    ∃ r, a.findShot x y = some r := by
  unfold AI.findShot
  rw [PlayerHasHit_of_valid a.board h, AI.hitEither_row a h]
  cases a.board.hit x y
  · exact ⟨_, rfl⟩
  · cases a.board.hit (x - 1) y || a.board.hit (x + 1) y
    · exact AI.findShot.vertical_total a h false
    · obtain ⟨r, hr⟩ := AI.findHorizontalShot_total a h
      simp only [hr]
      obtain ⟨c, ok⟩ := r
      cases ok
      · exact AI.findShot.vertical_total a h true
      · exact ⟨_, rfl⟩

/-- Every shot findShot comes up with is on the grid and has not been shot. -/
theorem AI.findShot_found (a : AI) {x y sx sy : Int}
    (hf : a.findShot x y = some (sx, sy, true)) :
    IsValid sx sy = true ∧ a.board.shot sx sy = false := by
  by_cases h : IsValid x y = true
  · unfold AI.findShot at hf
    rw [PlayerHasHit_of_valid a.board h, AI.hitEither_row a h] at hf
    cases hh : a.board.hit x y
    · rw [hh] at hf; simp at hf
    · rw [hh] at hf
      cases hn : a.board.hit (x - 1) y || a.board.hit (x + 1) y
      · rw [hn] at hf
        exact AI.findShot.vertical_found a h hf
      · rw [hn] at hf
        obtain ⟨r, hr⟩ := AI.findHorizontalShot_total a h
        obtain ⟨c, ok⟩ := r
        simp only [hr] at hf
        cases ok
        · exact AI.findShot.vertical_found a h hf
        · simp only [Option.some.injEq, Prod.mk.injEq, and_true] at hf
          obtain ⟨h1, h2, -⟩ := AI.findHorizontalShot_found a hr
          rw [← hf.1, ← hf.2]
          exact ⟨h1, h2⟩
  · unfold AI.findShot at hf
    rw [PlayerHasHit_of_invalid a.board (by simpa using h)] at hf
    cases hf

/-! ## The AI: Turn -/

theorem AI.Turn.loopY_eq (a : AI) (x : Int) :
    ∀ (n : Nat) (y : Int), (∀ j : Nat, j < n → IsValid x (y + j) = true) →
      AI.Turn.loopY a x n y =
        some ((List.range n).findSome? fun (j : Nat) =>
          followUp (a.findShot x (y + (j : Int)))) := by
  intro n
  induction n with
  | zero => intro y _; rfl
  | succ n ih =>
    intro y hv
    have h0 := hv 0 (Nat.succ_pos n)
    simp only [Nat.cast_zero, add_zero] at h0
    obtain ⟨r, hr⟩ := AI.findShot_total a h0
    have hrec := ih (y + 1) (by
      intro j hj
      have := hv (j + 1) (by omega)
      have e : y + 1 + (j : Int) = y + ((j + 1 : Nat) : Int) := by push_cast; ring
      rw [e]; exact this)
    rw [List.range_succ_eq_map, List.findSome?_cons, List.findSome?_map]
    simp only [Nat.cast_zero, add_zero, AI.Turn.loopY, hr, hrec]
    have e : ∀ j : Nat, y + 1 + (j : Int) = y + ((j + 1 : Nat) : Int) := by
      intro j; push_cast; ring
    obtain ⟨sx, sy, ok⟩ := r
    cases ok
    · simp only [followUp, Function.comp_def, e, Nat.succ_eq_add_one]
    · simp only [followUp]

theorem AI.Turn.loopX_eq (a : AI) (g : Int → Option (Int × Int))
    (hg : ∀ x : Int, 0 ≤ x → x < 10 → AI.Turn.loopY a x 10 0 = some (g x)) :
    ∀ (n : Nat) (x : Int), (∀ i : Nat, i < n → 0 ≤ x + i ∧ x + i < 10) →
      AI.Turn.loopX a n x = some ((List.range n).findSome? fun (i : Nat) => g (x + (i : Int))) := by
  intro n
  induction n with
  | zero => intro x _; rfl
  | succ n ih =>
    intro x hv
    have h0 := hv 0 (Nat.succ_pos n)
    simp only [Nat.cast_zero, add_zero] at h0
    have hy := hg x h0.1 h0.2
    have hrec := ih (x + 1) (by
      intro i hi
      have := hv (i + 1) (by omega)
      push_cast at this
      omega)
    rw [List.range_succ_eq_map, List.findSome?_cons, List.findSome?_map]
    simp only [Nat.cast_zero, add_zero, AI.Turn.loopX, hy, hrec]
    have e : ∀ i : Nat, x + 1 + (i : Int) = x + ((i + 1 : Nat) : Int) := by
      intro i; push_cast; ring
    cases g x with
    | none => simp only [Function.comp_def, e, Nat.succ_eq_add_one]
    | some c => rfl

/-- The target phase of `Turn` comes up with `firstFollowUp`. -/
theorem AI.Turn.loopX_firstFollowUp (a : AI) :
    AI.Turn.loopX a 10 0 = some (firstFollowUp a) := by
  rw [AI.Turn.loopX_eq a
    (fun x => (List.range 10).findSome? fun (j : Nat) => followUp (a.findShot x (j : Int)))
    (by
      intro x h1 h2
      rw [AI.Turn.loopY_eq a x 10 0 (by intro j hj; rw [IsValid_iff]; omega)]
      simp only [zero_add])
    10 0 (by intro i hi; omega)]
  simp only [zero_add, firstFollowUp]

theorem AI.Turn.target_eq (a : AI) (rng : List Nat) :
    AI.Turn.target a rng =
      match firstFollowUp a with
      | some (shootx, shooty) => .ok (shootx, shooty, rng)
      | none => a.getRandomShot rng := by
  unfold AI.Turn.target
  rw [AI.Turn.loopX_firstFollowUp]
  cases firstFollowUp a with
  | none => rfl
  | some c => rfl

theorem firstFollowUp_found {a : AI} {sx sy : Int} (h : firstFollowUp a = some (sx, sy)) :
    ∃ x y : Int, IsValid x y = true ∧ a.findShot x y = some (sx, sy, true) := by
  unfold firstFollowUp at h
  obtain ⟨i, hi, h1⟩ := List.exists_of_findSome?_eq_some h
  obtain ⟨j, hj, h2⟩ := List.exists_of_findSome?_eq_some h1
  rw [List.mem_range] at hi hj
  refine ⟨i, j, by rw [IsValid_iff]; omega, ?_⟩
  unfold followUp at h2
  split at h2
  · rename_i hr
    simp only [Option.some.injEq, Prod.mk.injEq] at h2
    rw [hr, h2.1, h2.2]
  · cases h2

theorem AI.getRandomShot_cons (a : AI) (d1 d2 : Nat) (rest : List Nat) :
    a.getRandomShot (d1 :: d2 :: rest) =
      match PlayerHasShot a.board ((d1 % 10 : Nat) : Int) ((d2 % 10 : Nat) : Int) with
      | none => .panic
      | some false => .ok (((d1 % 10 : Nat) : Int), ((d2 % 10 : Nat) : Int), rest)
      | some true => a.getRandomShot rest := rfl

theorem AI.getRandomShot_short (a : AI) (t : List Nat)
    (h : ∀ (d1 d2 : Nat) (rest : List Nat), t = d1 :: d2 :: rest → False) :
    a.getRandomShot t = .starved := by
  match t, h with
  | [], _ => rfl
  | [_], _ => rfl
  | d1 :: d2 :: rest, h => exact (h d1 d2 rest rfl).elim

theorem AI.getRandomShot_found (a : AI) :
    ∀ (rng : List Nat) (sx sy : Int) (rest : List Nat),
      a.getRandomShot rng = .ok (sx, sy, rest) →
      IsValid sx sy = true ∧ a.board.shot sx sy = false := by
  intro rng
  induction rng using AI.getRandomShot.induct a with
  | case1 d1 d2 rest hq =>
    intro sx sy r h
    rw [AI.getRandomShot_cons, hq] at h
    cases h
  | case2 d1 d2 rest hq =>
    intro sx sy r h
    rw [AI.getRandomShot_cons, hq] at h
    simp only [Run.ok.injEq, Prod.mk.injEq] at h
    obtain ⟨hv, hs⟩ := PlayerHasShot_some hq
    rw [← h.1, ← h.2.1]
    exact ⟨hv, hs⟩
  | case3 d1 d2 rest hq ih =>
    intro sx sy r h
    rw [AI.getRandomShot_cons, hq] at h
    exact ih sx sy r h
  | case4 t hno =>
    intro sx sy r h
    rw [AI.getRandomShot_short a t hno] at h
    cases h

theorem AI.getRandomShot_ne_panic (a : AI) :
    ∀ rng : List Nat, a.getRandomShot rng ≠ .panic := by
  intro rng
  induction rng using AI.getRandomShot.induct a with
  | case1 d1 d2 rest hq =>
    exfalso
    have hv : IsValid ((d1 % 10 : Nat) : Int) ((d2 % 10 : Nat) : Int) = true := by
      rw [IsValid_iff]; omega
    rw [PlayerHasShot_of_valid a.board hv] at hq
    cases hq
  | case2 d1 d2 rest hq => rw [AI.getRandomShot_cons, hq]; intro h; cases h
  | case3 d1 d2 rest hq ih => rw [AI.getRandomShot_cons, hq]; exact ih
  | case4 t hno =>
    rw [AI.getRandomShot_short a t hno]
    intro h; cases h

/-- The position `Turn` passes to `shoot` is on the grid and has not been shot. -/
theorem AI.Turn.target_found (a : AI) {rng rest : List Nat} {sx sy : Int}
    (h : AI.Turn.target a rng = .ok (sx, sy, rest)) :
    IsValid sx sy = true ∧ a.board.shot sx sy = false := by
  rw [AI.Turn.target_eq] at h
  cases hf : firstFollowUp a with
  | none =>
    rw [hf] at h
    exact AI.getRandomShot_found a rng sx sy rest h
  | some c =>
    obtain ⟨cx, cy⟩ := c
    rw [hf] at h
    simp only [Run.ok.injEq, Prod.mk.injEq] at h
    obtain ⟨x, y, -, hfs⟩ := firstFollowUp_found hf
    rw [← h.1, ← h.2.1]
    exact AI.findShot_found a hfs

theorem AI.Turn.target_ne_panic (a : AI) (rng : List Nat) : AI.Turn.target a rng ≠ .panic := by
  rw [AI.Turn.target_eq]
  cases firstFollowUp a with
  | none => exact AI.getRandomShot_ne_panic a rng
  | some c => intro h; cases h

/-- shoot at an on-grid position that has not been shot: one `TakeShot`, then the flags
or-ed into the cell and the score counted up on a sinking. -/
theorem AI.shoot_eq {σ : Type} (a : AI) (p q : Fin 10) (remote : Link σ) (s : σ)
    (hfree : a.board.shot (p.val : Int) (q.val : Int) = false) :
    a.shoot (p.val : Int) (q.val : Int) remote s =
      match remote s (p.val : Int) (q.val : Int) with
      | none => none
      | some (s1, hit, sunk) =>
        some (⟨a.board.mark p q (if hit = true then playerShot ||| playerHit else playerShot),
          if sunk ≠ 0 then wrap64 (a.score + 1) else a.score⟩, s1) := by
  unfold AI.shoot
  rw [PlayerHasShot_of_valid a.board (IsValid_coe p q), hfree]
  cases remote s (p.val : Int) (q.val : Int) with
  | none => rfl
  | some r =>
    obtain ⟨s1, hit, sunk⟩ := r
    simp only [PlayerShot_coe]

/-! ## The AI: follow-up on an isolated hit -/

/-- findShot on a hit cell without a hit neighbour is findAdjacentShot. -/
theorem AI.findShot_isolated (a : AI) {x y : Int} (hhit : a.board.hit x y = true)
    (hup : a.board.hit x (y + 1) = false) (hdown : a.board.hit x (y - 1) = false)
    (hleft : a.board.hit (x - 1) y = false) (hright : a.board.hit (x + 1) y = false) :
    a.findShot x y =
      match firstFree a.board [(x, y + 1), (x, y - 1), (x - 1, y), (x + 1, y)] with
      | some c => some (c.1, c.2, true)
      | none => some (0, 0, false) := by
  have hv := Board.valid_of_hit hhit
  unfold AI.findShot
  rw [PlayerHasHit_of_valid a.board hv, AI.hitEither_row a hv, hhit, hleft, hright]
  simp only [Bool.or_self]
  unfold AI.findShot.vertical
  rw [AI.hitEither_column a hv, hup, hdown]
  simp only [Bool.or_self]
  unfold AI.findShot.finish
  simp only [Bool.and_self, Bool.or_self, Bool.false_eq_true, if_false]
  exact AI.findAdjacentShot_eq a hv

/-- C20. Isolated hit follow-up: on every AI board, for every hit cell `(x, y)` none of
whose four axis neighbours is a hit cell, findShot returns, with `ok = true`, the first
neighbour that is on the grid and has not been shot in the order up `(x, y+1)`, down
`(x, y-1)`, left `(x-1, y)`, right `(x+1, y)`, and it returns `ok = false` (with the
shot `(0, 0)`) exactly when every neighbour on the grid has already been shot. -/
theorem findShot_isolated_hit (a : AI) (x y : Int) (hhit : a.board.hit x y = true)
    (hup : a.board.hit x (y + 1) = false) (hdown : a.board.hit x (y - 1) = false)
    (hleft : a.board.hit (x - 1) y = false) (hright : a.board.hit (x + 1) y = false) :
    (a.findShot x y =
      match firstFree a.board [(x, y + 1), (x, y - 1), (x - 1, y), (x + 1, y)] with
      | some c => some (c.1, c.2, true)
      | none => some (0, 0, false)) ∧
    (∃ shootx shooty ok, a.findShot x y = some (shootx, shooty, ok) ∧
      (ok = false ↔ ∀ c ∈ [(x, y + 1), (x, y - 1), (x - 1, y), (x + 1, y)],
        IsValid c.1 c.2 = true → a.board.shot c.1 c.2 = true)) := by
  have heq := AI.findShot_isolated a hhit hup hdown hleft hright
  refine ⟨heq, ?_⟩
  rw [heq]
  cases hf : firstFree a.board [(x, y + 1), (x, y - 1), (x - 1, y), (x + 1, y)] with
  | none =>
    refine ⟨0, 0, false, rfl, ?_⟩
    simp only [true_iff]
    intro c hc hvc
    unfold firstFree at hf
    have := List.find?_eq_none.mp hf c hc
    simpa [hvc] using this
  | some c =>
    refine ⟨c.1, c.2, true, rfl, ?_⟩
    obtain ⟨hmem, hvc, hsc⟩ := firstFree_some hf
    simp only [Bool.true_eq_false, false_iff]
    intro hall
    rw [hall c hmem hvc] at hsc
    cases hsc

theorem findShot_isolated_hit_witness :
    (AI.findShot ⟨demoLone, 0⟩ 4 4 =
      match firstFree demoLone [(4, 4 + 1), (4, 4 - 1), (4 - 1, 4), (4 + 1, 4)] with
      | some c => some (c.1, c.2, true)
      | none => some (0, 0, false)) ∧
    (∃ shootx shooty ok, AI.findShot ⟨demoLone, 0⟩ 4 4 = some (shootx, shooty, ok) ∧
      (ok = false ↔ ∀ c ∈ [((4 : Int), (4 : Int) + 1), (4, 4 - 1), (4 - 1, 4), (4 + 1, 4)],
        IsValid c.1 c.2 = true → demoLone.shot c.1 c.2 = true)) :=
  findShot_isolated_hit ⟨demoLone, 0⟩ 4 4 (by decide) (by decide) (by decide) (by decide)
    (by decide)

theorem demoLone_findShot : AI.findShot ⟨demoLone, 0⟩ 4 4 = some (4, 3, true) := by decide

/-! ## The AI: no cell is shot twice -/

/-- Turn panics only when `TakeShot` does: the guard of shoot never fires. -/
theorem AI.Turn_panic_iff {σ : Type} (a : AI) (remote : Link σ) (s : σ) (rng : List Nat) :
    a.Turn remote s rng = .panic ↔
      ∃ (shootx shooty : Int) (rest : List Nat),
        AI.Turn.target a rng = .ok (shootx, shooty, rest) ∧ remote s shootx shooty = none := by
  unfold AI.Turn
  cases ht : AI.Turn.target a rng with
  | panic => exact absurd ht (AI.Turn.target_ne_panic a rng)
  | starved => simp
  | ok t =>
    obtain ⟨sx, sy, rest⟩ := t
    obtain ⟨hv, hs⟩ := AI.Turn.target_found a ht
    obtain ⟨p, q, rfl, rfl⟩ := exists_fin_of_valid hv
    simp only [AI.shoot_eq a p q remote s hs]
    cases hr : remote s (p.val : Int) (q.val : Int) with
    | none => exact ⟨fun _ => ⟨_, _, rest, rfl, hr⟩, fun _ => rfl⟩
    | some v =>
      obtain ⟨s1, hit, sunk⟩ := v
      constructor
      · intro h; cases h
      · rintro ⟨x, y, r, hxy, hnone⟩
        simp only [Run.ok.injEq, Prod.mk.injEq] at hxy
        rw [← hxy.1, ← hxy.2.1, hr] at hnone
        cases hnone

/-- C14. The AI never fires at a cell it has already shot: on every AI board, every shot
findShot returns with `ok = true` for a cell on the grid and every cell getRandomShot
returns is on the grid with `PlayerHasShot` false; so is the position Turn passes to
shoot, whose guard is therefore never the reason of a panic: for every Link, Turn panics
only when `TakeShot` itself does, so with the local link it never panics. -/
theorem AI_never_reshoots (a : AI) :
    (∀ x y shootx shooty : Int, IsValid x y = true →
      a.findShot x y = some (shootx, shooty, true) →
      IsValid shootx shooty = true ∧ PlayerHasShot a.board shootx shooty = some false) ∧
    (∀ (rng rest : List Nat) (shootx shooty : Int),
      a.getRandomShot rng = .ok (shootx, shooty, rest) →
      IsValid shootx shooty = true ∧ PlayerHasShot a.board shootx shooty = some false) ∧
    (∀ (rng rest : List Nat) (shootx shooty : Int),
      AI.Turn.target a rng = .ok (shootx, shooty, rest) →
      IsValid shootx shooty = true ∧ PlayerHasShot a.board shootx shooty = some false) ∧
    (∀ (σ : Type) (remote : Link σ) (s : σ) (rng : List Nat),
      a.Turn remote s rng = .panic ↔
        ∃ (shootx shooty : Int) (rest : List Nat),
          AI.Turn.target a rng = .ok (shootx, shooty, rest) ∧
            remote s shootx shooty = none) ∧
    (∀ (ob : Board) (rng : List Nat), a.Turn localLink ob rng ≠ .panic) := by
  have key : ∀ sx sy : Int, IsValid sx sy = true ∧ a.board.shot sx sy = false →
      IsValid sx sy = true ∧ PlayerHasShot a.board sx sy = some false := by
    rintro sx sy ⟨hv, hs⟩
    exact ⟨hv, by rw [PlayerHasShot_of_valid a.board hv, hs]⟩
  refine ⟨fun x y sx sy _ h => key sx sy (AI.findShot_found a h),
    fun rng rest sx sy h => key sx sy (AI.getRandomShot_found a rng sx sy rest h),
    fun rng rest sx sy h => key sx sy (AI.Turn.target_found a h),
    fun σ remote s rng => AI.Turn_panic_iff a remote s rng, ?_⟩
  intro ob rng hp
  obtain ⟨sx, sy, rest, ht, hnone⟩ := (AI.Turn_panic_iff a localLink ob rng).mp hp
  obtain ⟨p, q, rfl, rfl⟩ := exists_fin_of_valid (AI.Turn.target_found a ht).1
  obtain ⟨hit, sunk, hshot⟩ := OpponentShot_mark ob p q
  rw [localLink, hshot] at hnone
  cases hnone

theorem AI_never_reshoots_witness :
    IsValid 4 3 = true ∧ PlayerHasShot demoLone 4 3 = some false :=
  (AI_never_reshoots ⟨demoLone, 0⟩).1 4 4 4 3 (by decide) demoLone_findShot

/-! ## The AI: order of the target phase -/

theorem findSome?_range_none {β : Type} (f : Nat → Option β) (n : Nat)
    (h : ∀ j : Nat, j < n → f j = none) : (List.range n).findSome? f = none := by
  rw [List.findSome?_eq_none_iff]
  intro j hj
  exact h j (List.mem_range.mp hj)

theorem findSome?_range_first {β : Type} (f : Nat → Option β) (k : Nat) (v : β)
    (hv : f k = some v) (hfirst : ∀ j : Nat, j < k → f j = none) :
    ∀ n : Nat, k < n → (List.range n).findSome? f = some v := by
  intro n
  induction n with
  | zero => intro h; omega
  | succ n ih =>
    intro hk
    rw [List.range_succ, List.findSome?_append]
    by_cases hkn : k < n
    · rw [ih hkn]; rfl
    · have hkeq : k = n := by omega
      subst hkeq
      rw [findSome?_range_none f k hfirst]
      simp [hv]

theorem firstFollowUp_none {a : AI}
    (h : ∀ x y : Nat, x < 10 → y < 10 → followUp (a.findShot (x : Int) (y : Int)) = none) :
    firstFollowUp a = none := by
  unfold firstFollowUp
  exact findSome?_range_none _ 10 fun x hx => findSome?_range_none _ 10 fun y hy => h x y hx hy

theorem firstFollowUp_first {a : AI} {x y : Nat} {shot : Int × Int} (hx : x < 10) (hy : y < 10)
    (hfound : followUp (a.findShot (x : Int) (y : Int)) = some shot)
    (hfirst : ∀ i j : Nat, i < 10 → j < 10 → (i < x ∨ (i = x ∧ j < y)) →
      followUp (a.findShot (i : Int) (j : Int)) = none) :
    firstFollowUp a = some shot := by
  unfold firstFollowUp
  refine findSome?_range_first _ x shot ?_ ?_ 10 hx
  · exact findSome?_range_first _ y shot hfound
      (fun j hj => hfirst x j hx (by omega) (Or.inr ⟨rfl, hj⟩)) 10 hy
  · intro i hi
    exact findSome?_range_none _ 10 fun j hj => hfirst i j (by omega) hj (Or.inl hi)

theorem AI.findShot_not_hit (a : AI) {x y : Int} (h : a.board.hit x y = false) :
    followUp (a.findShot x y) = none := by
  by_cases hv : IsValid x y = true
  · unfold AI.findShot
    rw [PlayerHasHit_of_valid a.board hv, h]
    rfl
  · unfold AI.findShot
    rw [PlayerHasHit_of_invalid a.board (by simpa using hv)]
    rfl

/-- C18. Target phase order and determinism.  When `(x, y)` is the first cell, in the order
`x = 0..9` outer, `y = 0..9` inner, for which findShot returns `ok = true`, Turn passes the
shot findShot returns for it to shoot and hands the random source on untouched, whatever
the source holds, so that the AI and the remote state after the turn do not depend on the
source.  A cell without the own-hit flag yields no follow-up shot, and when no cell
yields one Turn shoots the cell chosen by getRandomShot. -/
theorem Turn_target_phase (a : AI) :
    (∀ (x y : Nat) (shot : Int × Int), x < 10 → y < 10 →
      followUp (a.findShot (x : Int) (y : Int)) = some shot →
      (∀ i j : Nat, i < 10 → j < 10 → (i < x ∨ (i = x ∧ j < y)) →
        followUp (a.findShot (i : Int) (j : Int)) = none) →
      (∀ rng : List Nat, AI.Turn.target a rng = .ok (shot.1, shot.2, rng)) ∧
      (∀ (σ : Type) (remote : Link σ) (s : σ) (rng : List Nat),
        a.Turn remote s rng =
          match a.shoot shot.1 shot.2 remote s with
          | none => .panic
          | some (a1, s1) => .ok ⟨a1, s1, rng, decide (a1.score ≥ 5), none⟩) ∧
      (∀ (σ : Type) (remote : Link σ) (s : σ) (rng1 rng2 : List Nat) (r1 r2 : TurnResult σ),
        a.Turn remote s rng1 = .ok r1 → a.Turn remote s rng2 = .ok r2 →
        r1.ai = r2.ai ∧ r1.remote = r2.remote ∧ r1.won = r2.won ∧
          r1.rng = rng1 ∧ r2.rng = rng2)) ∧
    (∀ x y : Int, a.board.hit x y = false → followUp (a.findShot x y) = none) ∧
    ((∀ x y : Nat, x < 10 → y < 10 → followUp (a.findShot (x : Int) (y : Int)) = none) →
      ∀ rng : List Nat, AI.Turn.target a rng = a.getRandomShot rng) := by
  refine ⟨?_, fun x y h => AI.findShot_not_hit a h, ?_⟩
  · intro x y shot hx hy hfound hfirst
    have hff := firstFollowUp_first hx hy hfound hfirst
    have htarget : ∀ rng : List Nat, AI.Turn.target a rng = .ok (shot.1, shot.2, rng) := by
      intro rng
      rw [AI.Turn.target_eq, hff]
    have hturn : ∀ (σ : Type) (remote : Link σ) (s : σ) (rng : List Nat),
        a.Turn remote s rng =
          match a.shoot shot.1 shot.2 remote s with
          | none => .panic
          | some (a1, s1) => .ok ⟨a1, s1, rng, decide (a1.score ≥ 5), none⟩ := by
      intro σ remote s rng
      unfold AI.Turn
      simp only [htarget rng]
    refine ⟨htarget, hturn, ?_⟩
    intro σ remote s rng1 rng2 r1 r2 h1 h2
    rw [hturn] at h1 h2
    cases hs : a.shoot shot.1 shot.2 remote s with
    | none => rw [hs] at h1; cases h1
    | some v =>
      obtain ⟨a1, s1⟩ := v
      rw [hs] at h1 h2
      simp only [Run.ok.injEq] at h1 h2
      subst h1 h2
      exact ⟨rfl, rfl, rfl, rfl, rfl⟩
  · intro hnone rng
    rw [AI.Turn.target_eq, firstFollowUp_none hnone]

theorem Turn_target_phase_witness :
    (∀ rng : List Nat, AI.Turn.target ⟨demoLone, 0⟩ rng = .ok (4, 3, rng)) ∧
    (∀ (σ : Type) (remote : Link σ) (s : σ) (rng : List Nat),
      AI.Turn ⟨demoLone, 0⟩ remote s rng =
        match AI.shoot ⟨demoLone, 0⟩ 4 3 remote s with
        | none => .panic
        | some (a1, s1) => .ok ⟨a1, s1, rng, decide (a1.score ≥ 5), none⟩) ∧
    (∀ (σ : Type) (remote : Link σ) (s : σ) (rng1 rng2 : List Nat) (r1 r2 : TurnResult σ),
      AI.Turn ⟨demoLone, 0⟩ remote s rng1 = .ok r1 →
      AI.Turn ⟨demoLone, 0⟩ remote s rng2 = .ok r2 →
      r1.ai = r2.ai ∧ r1.remote = r2.remote ∧ r1.won = r2.won ∧
        r1.rng = rng1 ∧ r2.rng = rng2) :=
  (Turn_target_phase ⟨demoLone, 0⟩).1 4 4 (4, 3) (by decide) (by decide)
    (by decide)
    (fun i j _ _ hij => AI.findShot_not_hit _ (by
      have hne : ¬ (i = 4 ∧ j = 4) := by omega
      by_cases hv : IsValid (i : Int) (j : Int) = true
      · obtain ⟨p, q, hp, hq⟩ := exists_fin_of_valid hv
        rw [hp, hq, Board.hit, Board.cell_coe]
        have hp1 : i = p.val := by exact_mod_cast hp
        have hq1 : j = q.val := by exact_mod_cast hq
        simp only [demoLone]
        split_ifs with h1 h2
        · exact absurd ⟨hp1.trans h1.1, hq1.trans h1.2⟩ hne
        · decide
        · decide
      · exact Board.hit_of_invalid _ (by simpa using hv)))

/-! ## The AI: what a turn does -/

theorem wrap64_of_range {n : Int} (h1 : -2 ^ 63 ≤ n) (h2 : n < 2 ^ 63) : wrap64 n = n := by
  unfold wrap64
  rw [Int.emod_eq_of_lt (by omega) (by omega)]
  omega

/-- What a returning Turn has done, in terms of `Board.mark`. -/
theorem AI.Turn_ok {σ : Type} {a : AI} {remote : Link σ} {s : σ} {rng : List Nat}
    {r : TurnResult σ} (h : a.Turn remote s rng = .ok r) :
    ∃ (p q : Fin 10) (hit : Bool) (sunk : Nat),
      AI.Turn.target a rng = .ok ((p.val : Int), (q.val : Int), r.rng) ∧
      a.board.shot (p.val : Int) (q.val : Int) = false ∧
      remote s (p.val : Int) (q.val : Int) = some (r.remote, hit, sunk) ∧
      r.ai.board =
        a.board.mark p q (if hit = true then playerShot ||| playerHit else playerShot) ∧
      r.ai.score = (if sunk ≠ 0 then wrap64 (a.score + 1) else a.score) ∧
      r.err = none ∧ r.won = decide (r.ai.score ≥ 5) := by
  unfold AI.Turn at h
  cases ht : AI.Turn.target a rng with
  | panic => rw [ht] at h; cases h
  | starved => rw [ht] at h; cases h
  | ok t =>
    obtain ⟨sx, sy, rest⟩ := t
    obtain ⟨hv, hs⟩ := AI.Turn.target_found a ht
    obtain ⟨p, q, rfl, rfl⟩ := exists_fin_of_valid hv
    rw [ht] at h
    simp only [AI.shoot_eq a p q remote s hs] at h
    cases hr : remote s (p.val : Int) (q.val : Int) with
    | none => rw [hr] at h; cases h
    | some v =>
      obtain ⟨s1, hit, sunk⟩ := v
      rw [hr] at h
      simp only [Run.ok.injEq] at h
      subst h
      exact ⟨p, q, hit, sunk, rfl, hs, hr, rfl, rfl, rfl, rfl⟩

/-- Turn returns when the random source starts with a cell that has not been shot and
`TakeShot` returns. -/
theorem AI.Turn_returns {σ : Type} (a : AI) (remote : Link σ) (s : σ) (p0 q0 : Fin 10)
    (hfree : a.board.shot (p0.val : Int) (q0.val : Int) = false)
    (hremote : ∀ x y : Int, IsValid x y = true → remote s x y ≠ none) :
    ∃ r, a.Turn remote s [p0.val, q0.val] = .ok r := by
  have htarget : ∃ (sx sy : Int) (rest : List Nat),
      AI.Turn.target a [p0.val, q0.val] = .ok (sx, sy, rest) := by
    rw [AI.Turn.target_eq]
    cases firstFollowUp a with
    | some c => exact ⟨c.1, c.2, _, rfl⟩
    | none =>
      have hp : p0.val % 10 = p0.val := Nat.mod_eq_of_lt p0.isLt
      have hq : q0.val % 10 = q0.val := Nat.mod_eq_of_lt q0.isLt
      simp only [AI.getRandomShot_cons, hp, hq, PlayerHasShot_of_valid a.board (IsValid_coe p0 q0),
        hfree]
      exact ⟨_, _, _, rfl⟩
  obtain ⟨sx, sy, rest, ht⟩ := htarget
  obtain ⟨hv, hs⟩ := AI.Turn.target_found a ht
  obtain ⟨p, q, rfl, rfl⟩ := exists_fin_of_valid hv
  unfold AI.Turn
  rw [ht]
  simp only [AI.shoot_eq a p q remote s hs]
  cases hr : remote s (p.val : Int) (q.val : Int) with
  | none => exact absurd hr (hremote _ _ hv)
  | some v => exact ⟨_, rfl⟩

/-- The local link returns for every cell of the grid. -/
theorem localLink_ne_none (ob : Board) (x y : Int) (hv : IsValid x y = true) :
    localLink ob x y ≠ none := by
  obtain ⟨p, q, rfl, rfl⟩ := exists_fin_of_valid hv
  obtain ⟨hit, sunk, hshot⟩ := OpponentShot_mark ob p q
  rw [localLink, hshot]
  exact fun h => nomatch h

/-- C15. Turn postcondition.  For every AI state with at least one cell that has not been
shot and every Link: a Turn call that returns has called `TakeShot` once, from the remote
state `s` at a cell `(p, q)` of the grid that had not been shot, and leaves the remote
state that call left; the AI board is the old one with the outgoing-shot flag, and the
hit flag when `TakeShot` reported a hit, or-ed into `(p, q)`, every other cell and every
other bit unchanged; the score is the old one incremented (as a 64-bit `int`, so by one
for every score short of the largest `int`) when `TakeShot` reported a non-zero sunk
type and unchanged otherwise; `err` is `nil` and `won` is `updated score >= 5`.  And
Turn does return for some random source when `TakeShot` returns. -/
theorem Turn_postcondition {σ : Type} (a : AI) (remote : Link σ) (s : σ)
    (hfree : ∃ p q : Fin 10, a.board.shot (p.val : Int) (q.val : Int) = false) :
    (∀ (rng : List Nat) (r : TurnResult σ), a.Turn remote s rng = .ok r →
      ∃ (p q : Fin 10) (hit : Bool) (sunk : Nat),
        a.board.shot (p.val : Int) (q.val : Int) = false ∧
        remote s (p.val : Int) (q.val : Int) = some (r.remote, hit, sunk) ∧
        r.ai.board =
          a.board.mark p q (if hit = true then playerShot ||| playerHit else playerShot) ∧
        r.ai.board.shot (p.val : Int) (q.val : Int) = true ∧
        r.ai.board.hit (p.val : Int) (q.val : Int) =
          (a.board.hit (p.val : Int) (q.val : Int) || hit) ∧
        (∀ k : Nat, k ≠ 0 → k ≠ 1 →
          (r.ai.board.cells p q).testBit k = (a.board.cells p q).testBit k) ∧
        (∀ i j : Fin 10, ¬ (i = p ∧ j = q) → r.ai.board.cells i j = a.board.cells i j) ∧
        r.ai.score = (if sunk ≠ 0 then wrap64 (a.score + 1) else a.score) ∧
        (-2 ^ 63 ≤ a.score → a.score < 2 ^ 63 - 1 →
          r.ai.score = if sunk ≠ 0 then a.score + 1 else a.score) ∧
        r.err = none ∧ r.won = decide (r.ai.score ≥ 5)) ∧
    ((∀ x y : Int, IsValid x y = true → remote s x y ≠ none) →
      ∃ (rng : List Nat) (r : TurnResult σ), a.Turn remote s rng = .ok r) := by
  constructor
  · intro rng r hret
    obtain ⟨p, q, hit, sunk, -, hs, hremote, hboard, hscore, herr, hwon⟩ := AI.Turn_ok hret
    refine ⟨p, q, hit, sunk, hs, hremote, hboard, ?_, ?_, ?_, ?_, hscore, ?_, herr, hwon⟩
    · have hbit : Nat.testBit (if hit = true then playerShot ||| playerHit else playerShot) 0 =
          true := by cases hit <;> decide
      rw [hboard, Board.shot, Board.cell_coe, Board.mark_cells_self, Nat.testBit_or, hbit,
        Bool.or_true]
    · have hbit : Nat.testBit (if hit = true then playerShot ||| playerHit else playerShot) 1 =
          hit := by cases hit <;> decide
      rw [hboard, Board.hit, Board.hit, Board.cell_coe, Board.cell_coe, Board.mark_cells_self,
        Nat.testBit_or, hbit]
    · intro k h0 h1
      rw [hboard, Board.mark_cells_self, testBit_or_of_not _ _ _ (playerFlags_testBit hit k h0 h1)]
    · intro i j hij
      rw [hboard, Board.mark_cells_other _ _ _ _ _ _ hij]
    · intro h1 h2
      rw [hscore, wrap64_of_range (by omega) (by omega)]
  · intro hremote
    obtain ⟨p0, q0, h0⟩ := hfree
    obtain ⟨r, hr⟩ := AI.Turn_returns a remote s p0 q0 h0 hremote
    exact ⟨_, r, hr⟩

theorem Turn_postcondition_witness :
    ∃ (rng : List Nat) (r : TurnResult Board),
      AI.Turn ⟨demoLone, 0⟩ localLink demoFleet rng = .ok r :=
  (Turn_postcondition ⟨demoLone, 0⟩ localLink demoFleet ⟨0, 0, by decide⟩).2
    (localLink_ne_none demoFleet)

/-! ## The AI: follow-up along a row -/

theorem AI.walk_right_reach (a : AI) {x y c : Int} (hinv : FlagInv a.board)
    (h : ReachRight a.board x y c) :
    AI.walk a 1 0 (boardSize - x).toNat x y = some (some (c, y)) := by
  obtain ⟨hxc, hv, hs, hbetween⟩ := h
  have hvc := (IsValid_iff c y).mp hv
  obtain ⟨k, hk⟩ : ∃ k : Nat, (k : Int) = c - x := ⟨(c - x).toNat, Int.toNat_of_nonneg (by omega)⟩
  have ex : x + (k : Int) * 1 = c := by omega
  have ey : y + (k : Int) * 0 = y := by omega
  have hh : a.board.hit c y = false := by
    cases hc : a.board.hit c y
    · rfl
    · rw [hinv.shot_of_hit hc] at hs; cases hs
  have hstop := AI.walk_stop a 1 0 k (boardSize - x).toNat x y
    (by rw [Int.lt_toNat]; simp only [boardSize]; omega)
    (by
      intro j hj
      have e1 : y + (j : Int) * 0 = y := by omega
      rw [e1]
      exact hbetween _ (by omega) (by omega))
    (by rw [ex, ey]; exact hv) (by rw [ex, ey]; exact hh)
  rw [hstop, ex, ey, hs]
  rfl

theorem AI.walk_left_reach (a : AI) {x y c : Int} (hinv : FlagInv a.board)
    (h : ReachLeft a.board x y c) :
    AI.walk a (-1) 0 (x + 1).toNat x y = some (some (c, y)) := by
  obtain ⟨hxc, hv, hs, hbetween⟩ := h
  have hvc := (IsValid_iff c y).mp hv
  obtain ⟨k, hk⟩ : ∃ k : Nat, (k : Int) = x - c := ⟨(x - c).toNat, Int.toNat_of_nonneg (by omega)⟩
  have ex : x + (k : Int) * (-1) = c := by omega
  have ey : y + (k : Int) * 0 = y := by omega
  have hh : a.board.hit c y = false := by
    cases hc : a.board.hit c y
    · rfl
    · rw [hinv.shot_of_hit hc] at hs; cases hs
  have hstop := AI.walk_stop a (-1) 0 k (x + 1).toNat x y
    (by rw [Int.lt_toNat]; omega)
    (by
      intro j hj
      have e1 : y + (j : Int) * 0 = y := by omega
      rw [e1]
      exact hbetween _ (by omega) (by omega))
    (by rw [ex, ey]; exact hv) (by rw [ex, ey]; exact hh)
  rw [hstop, ex, ey, hs]
  rfl

theorem AI.walk_right_none (a : AI) {x y : Int} (hhit : a.board.hit x y = true)
    (hno : ¬ ∃ c, ReachRight a.board x y c) :
    AI.walk a 1 0 (boardSize - x).toNat x y = some none := by
  have hv := (IsValid_iff x y).mp (Board.valid_of_hit hhit)
  obtain ⟨r, hr⟩ := AI.walk_total a 1 0 (boardSize - x).toNat x y (by
    intro j hj
    rw [Int.lt_toNat] at hj
    simp only [boardSize] at hj
    rw [IsValid_iff]
    omega)
  cases r with
  | none => exact hr
  | some c =>
    exfalso
    obtain ⟨k, -, hc, hvc, hhc, hsc, hbefore⟩ := AI.walk_found a 1 0 _ x y c hr
    have hk : k ≠ 0 := by
      rintro rfl
      have e : c = (x, y) := by rw [hc]; simp
      rw [e, hhit] at hhc
      cases hhc
    have e1 : c.1 = x + k := by rw [hc]; simp
    have e2 : c.2 = y := by rw [hc]; simp
    rw [e2] at hvc hsc
    refine hno ⟨c.1, by omega, hvc, hsc, ?_⟩
    intro i hi1 hi2
    obtain ⟨j, hj⟩ : ∃ j : Nat, (j : Int) = i - x := ⟨(i - x).toNat, Int.toNat_of_nonneg (by omega)⟩
    have := hbefore j (by omega)
    have e3 : x + (j : Int) * 1 = i := by omega
    have e4 : y + (j : Int) * 0 = y := by omega
    rw [e3, e4] at this
    exact this

/-- findShot on a hit cell with a hit neighbour on its row starts with
findHorizontalShot. -/
theorem AI.findShot_row (a : AI) {x y : Int} (hhit : a.board.hit x y = true)
    (hnb : a.board.hit (x - 1) y = true ∨ a.board.hit (x + 1) y = true) {c : Int}
    (h : a.findHorizontalShot x y = some (c, true)) :
    a.findShot x y = some (c, y, true) := by
  have hv := Board.valid_of_hit hhit
  have hor : (a.board.hit (x - 1) y || a.board.hit (x + 1) y) = true := by
    rcases hnb with h1 | h1 <;> simp [h1]
  unfold AI.findShot
  rw [PlayerHasHit_of_valid a.board hv, AI.hitEither_row a hv, hhit, hor]
  simp only [h]

/-- C19 (as stated, refuted). On the board `demoRow`, which satisfies the flag invariant,
the cell `(5, 0)` is hit and so is its neighbour `(6, 0)`; the cell `(4, 0)` has not been
shot and is next to `(5, 0)` on the left, yet findShot returns `(8, 0)`, the cell reached
to the right at distance 3. -/
theorem findShot_not_nearest :
    FlagInv demoRow ∧ demoRow.hit 5 0 = true ∧ demoRow.hit (5 + 1) 0 = true ∧
      ReachLeft demoRow 5 0 4 ∧ ReachRight demoRow 5 0 8 ∧
      AI.findShot ⟨demoRow, 0⟩ 5 0 = some (8, 0, true) ∧
      Int.natAbs (4 - 5) < Int.natAbs (8 - 5) := by
  refine ⟨by unfold FlagInv; decide, by decide, by decide, ⟨by decide, by decide, by decide, ?_⟩,
    ⟨by decide, by decide, by decide, ?_⟩, by decide, by decide⟩
  · intro i h1 h2
    have : i = 5 := by omega
    subst this
    decide
  · intro i h1 h2
    have : i = 5 ∨ i = 6 ∨ i = 7 := by omega
    rcases this with rfl | rfl | rfl <;> decide

/-- C19 (amended). In-line follow-up: on every AI board that satisfies the flag
invariant, for every hit cell `(x, y)` with a hit horizontal neighbour, when a cell of
row `y` that has not been shot is reached from `(x, y)` to the right over hit cells only,
findShot returns that cell with `ok = true`; when there is no such cell to the right but
one to the left, findShot returns the one to the left.  So whenever a cell is reached
in either direction the shot is such a cell of row `y`, the right one taking precedence
whatever the distances. -/
theorem findShot_in_line (a : AI) (x y : Int) (hinv : FlagInv a.board)
    (hhit : a.board.hit x y = true)
    (hnb : a.board.hit (x - 1) y = true ∨ a.board.hit (x + 1) y = true) :
    (∀ c : Int, ReachRight a.board x y c → a.findShot x y = some (c, y, true)) ∧
    ((¬ ∃ c : Int, ReachRight a.board x y c) →
      ∀ c : Int, ReachLeft a.board x y c → a.findShot x y = some (c, y, true)) ∧
    ((∃ c : Int, ReachRight a.board x y c ∨ ReachLeft a.board x y c) →
      ∃ shootx : Int, a.findShot x y = some (shootx, y, true) ∧
        a.board.shot shootx y = false ∧
        (ReachRight a.board x y shootx ∨ ReachLeft a.board x y shootx)) := by
  have hright : ∀ c : Int, ReachRight a.board x y c → a.findShot x y = some (c, y, true) := by
    intro c hc
    apply AI.findShot_row a hhit hnb
    rw [AI.findHorizontalShot_eq, AI.walk_right_reach a hinv hc]
  have hleft : (¬ ∃ c : Int, ReachRight a.board x y c) →
      ∀ c : Int, ReachLeft a.board x y c → a.findShot x y = some (c, y, true) := by
    intro hno c hc
    apply AI.findShot_row a hhit hnb
    rw [AI.findHorizontalShot_eq, AI.walk_right_none a hhit hno, AI.walk_left_reach a hinv hc]
  refine ⟨hright, hleft, ?_⟩
  rintro ⟨c, hc⟩
  by_cases hex : ∃ c : Int, ReachRight a.board x y c
  · obtain ⟨c1, hc1⟩ := hex
    exact ⟨c1, hright c1 hc1, hc1.2.2.1, Or.inl hc1⟩
  · rcases hc with hc | hc
    · exact absurd ⟨c, hc⟩ hex
    · exact ⟨c, hleft hex c hc, hc.2.2.1, Or.inr hc⟩

theorem findShot_in_line_witness :
    (∀ c : Int, ReachRight demoRow 5 0 c → AI.findShot ⟨demoRow, 0⟩ 5 0 = some (c, 0, true)) ∧
    ((¬ ∃ c : Int, ReachRight demoRow 5 0 c) →
      ∀ c : Int, ReachLeft demoRow 5 0 c → AI.findShot ⟨demoRow, 0⟩ 5 0 = some (c, 0, true)) ∧
    ((∃ c : Int, ReachRight demoRow 5 0 c ∨ ReachLeft demoRow 5 0 c) →
      ∃ shootx : Int, AI.findShot ⟨demoRow, 0⟩ 5 0 = some (shootx, 0, true) ∧
        demoRow.shot shootx 0 = false ∧
        (ReachRight demoRow 5 0 shootx ∨ ReachLeft demoRow 5 0 shootx)) :=
  findShot_in_line ⟨demoRow, 0⟩ 5 0 (by unfold FlagInv; decide) (by decide)
    (Or.inr (by decide))

/-! ## Length of a game -/

theorem Board.mark_testBit (b : Board) (p q : Fin 10) (f : Nat) (i j : Fin 10) (k : Nat) :
    ((b.mark p q f).cells i j).testBit k =
      ((b.cells i j).testBit k || (decide (i = p ∧ j = q) && f.testBit k)) := by
  by_cases h : i = p ∧ j = q
  · obtain ⟨rfl, rfl⟩ := h
    rw [Board.mark_cells_self, Nat.testBit_or]
    simp
  · rw [Board.mark_cells_other _ _ _ _ _ _ h]
    simp [h]

theorem Placed.no_flags {b : Board} {ts : List Nat} (h : Placed b ts) (p q : Fin 10) :
    b.cells p q &&& opponentHit = 0 := by
  induction h generalizing p q with
  | empty => simp [Board.empty]
  | place x y d t _ _ hplace ih =>
    obtain ⟨L, mx, my, ht, -, -, hcells⟩ := PlaceShip_ok_inv hplace
    rw [hcells]
    split_ifs
    · simp only [fleetTable, List.mem_cons, Prod.mk.injEq, List.mem_singleton,
        List.not_mem_nil, or_false] at ht
      rcases ht with ⟨rfl, -⟩ | ⟨rfl, -⟩ | ⟨rfl, -⟩ | ⟨rfl, -⟩ | ⟨rfl, -⟩ <;> decide
    · exact ih p q

theorem fleetTypes_table {t : Nat} (h : t ∈ fleetTypes) : ∃ L, (t, L) ∈ fleetTable := by
  simp only [fleetTypes, List.mem_cons, List.mem_singleton, List.not_mem_nil, or_false] at h
  rcases h with rfl | rfl | rfl | rfl | rfl
  · exact ⟨5, by decide⟩
  · exact ⟨4, by decide⟩
  · exact ⟨3, by decide⟩
  · exact ⟨3, by decide⟩
  · exact ⟨2, by decide⟩

/-- A type of the fleet invariant has a cell on the board. -/
theorem FleetInv.exists_cell {b : Board} {ts : List Nat} (hinv : FleetInv b ts) {t : Nat}
    (ht : t ∈ ts) : ∃ p q : Fin 10, b.cells p q &&& shipMask = t := by
  obtain ⟨L, x0, y0, vert, -, hrun⟩ := hinv.2 t ht
  have hv := hrun.valid 0 (by have := hrun.two_le; omega)
  simp only [Nat.cast_zero, zero_mul, add_zero] at hv
  obtain ⟨p, q, rfl, rfl⟩ := exists_fin_of_valid hv
  exact ⟨p, q, (hrun.cells p q).mpr ⟨0, by have := hrun.two_le; omega, by simp, by simp⟩⟩

/-- No ship is sunk on a board that has only seen placements. -/
theorem Placed.sunkCount_eq {b : Board} {ts : List Nat} (h : Placed b ts)
    (hfive : ts.Perm fleetTypes) : sunkCount b = 0 := by
  unfold sunkCount
  rw [List.countP_eq_zero]
  intro t ht
  simp only [decide_eq_true_eq]
  intro hall
  obtain ⟨p, q, hpq⟩ := h.fleetInv.exists_cell (hfive.mem_iff.mpr ht)
  exact hall p q hpq (h.no_flags p q)

theorem countP_le_succ (P Q : Nat → Bool) (t0 : Nat) :
    ∀ l : List Nat, l.Nodup → (∀ t ∈ l, t ≠ t0 → Q t = true → P t = true) →
      l.countP Q ≤ l.countP P + 1 := by
  intro l
  induction l with
  | nil => intro _ _; simp
  | cons t l ih =>
    intro hnd h
    rw [List.nodup_cons] at hnd
    by_cases ht : t = t0
    · subst ht
      have hmono : l.countP Q ≤ l.countP P :=
        List.countP_mono_left fun s hs hq =>
          h s (List.mem_cons_of_mem _ hs) (fun e => hnd.1 (e ▸ hs)) hq
      rw [List.countP_cons, List.countP_cons]
      have h1 : (if Q t = true then 1 else 0) ≤ 1 := by split_ifs <;> omega
      omega
    · have hrec := ih hnd.2 fun s hs => h s (List.mem_cons_of_mem _ hs)
      have hhead := h t (List.mem_cons_self _ _) ht
      rw [List.countP_cons, List.countP_cons]
      cases hq : Q t
      · simp only [Bool.false_eq_true, if_false]
        omega
      · rw [hhead hq]
        simp only [if_true]
        omega

/-- The report of `OpponentShot` on a board with the fleet invariant: a shot that leaves
every cell of the ship of `(p, q)` hit reports a sunk type. -/
theorem OpponentShot_sunk_of_allHit {b b1 : Board} {ts : List Nat} (hinv : FleetInv b ts)
    (p q : Fin 10) {hit : Bool} {sunk : Nat}
    (h : OpponentShot b (p.val : Int) (q.val : Int) = some (b1, hit, sunk))
    (htag : b.cells p q &&& shipMask ≠ 0)
    (hall : (b.mark p q opponentHit).allHit (b.cells p q &&& shipMask)) : sunk ≠ 0 := by
  have hinv1 : FleetInv (b.mark p q opponentHit) ts :=
    hinv.of_tag_eq (Board.mark_tag b p q opponentHit (by decide))
  obtain ⟨v, hv, hiff⟩ := IsSunk_of_fleet hinv1 p q
  have htag1 : (b.mark p q opponentHit).cells p q &&& shipMask = b.cells p q &&& shipMask :=
    Board.mark_tag b p q opponentHit (by decide) p q
  have hvt : v = true := by
    rw [hiff, htag1]
    exact ⟨htag, hall⟩
  subst hvt
  rw [OpponentShot_coe, if_pos (Nat.pos_of_ne_zero htag), hv] at h
  simp only [Option.some.injEq, Prod.mk.injEq] at h
  rw [← h.2.2]
  exact htag

/-- One shot sinks at most one ship, and `OpponentShot` reports it. -/
theorem sunkCount_shot {b b1 : Board} {ts : List Nat} (hinv : FleetInv b ts)
    (p q : Fin 10) {hit : Bool} {sunk : Nat}
    (h : OpponentShot b (p.val : Int) (q.val : Int) = some (b1, hit, sunk)) :
    sunkCount b1 ≤ sunkCount b + (if sunk ≠ 0 then 1 else 0) := by
  obtain ⟨p1, q1, hp, hq, hb1⟩ := OpponentShot_board h
  have hp1 : p1 = p := Fin.ext (by exact_mod_cast hp.symm)
  have hq1 : q1 = q := Fin.ext (by exact_mod_cast hq.symm)
  subst hp1 hq1
  have hother : ∀ t : Nat, t ≠ b.cells p1 q1 &&& shipMask →
      (b.mark p1 q1 opponentHit).allHit t → b.allHit t := by
    intro t hne hall i j hij
    have hcell : ¬ (i = p1 ∧ j = q1) := by
      rintro ⟨rfl, rfl⟩
      exact hne hij.symm
    have := hall i j (by rw [Board.mark_tag _ _ _ _ (by decide)]; exact hij)
    rw [Board.mark_cells_other _ _ _ _ _ _ hcell] at this
    exact this
  unfold sunkCount
  by_cases hs : sunk = 0
  · simp only [hs, ne_eq, not_true_eq_false, if_false, add_zero]
    apply List.countP_mono_left
    intro t ht hq
    simp only [decide_eq_true_eq] at hq ⊢
    by_cases hne : t = b.cells p1 q1 &&& shipMask
    · exfalso
      obtain ⟨L, hL⟩ := fleetTypes_table ht
      have ht0 := (fleet_tag hL).2.1
      rw [hb1, hne] at hq
      exact (OpponentShot_sunk_of_allHit hinv p1 q1 h (hne ▸ ht0) hq) hs
    · rw [hb1] at hq
      exact hother t hne hq
  · simp only [ne_eq, hs, not_false_eq_true, if_true]
    apply countP_le_succ _ _ (b.cells p1 q1 &&& shipMask) _ (by decide)
    intro t _ hne hq
    simp only [decide_eq_true_eq] at hq ⊢
    rw [hb1] at hq
    exact hother t hne hq

/-- Recording a shot of one's own leaves the ships and the incoming shots as they are. -/
theorem sunkCount_player (b : Board) (p q : Fin 10) (hit : Bool) :
    sunkCount (b.mark p q (if hit then playerShot ||| playerHit else playerShot)) =
      sunkCount b := by
  have hflag : ∀ i j : Fin 10,
      (b.mark p q (if hit then playerShot ||| playerHit else playerShot)).cells i j &&&
        opponentHit ≠ 0 ↔ b.cells i j &&& opponentHit ≠ 0 := by
    intro i j
    rw [and_opponentHit_ne_zero, and_opponentHit_ne_zero, Board.mark_testBit,
      playerFlags_testBit hit 2 (by decide) (by decide)]
    simp
  have htag := Board.mark_tag b p q (if hit then playerShot ||| playerHit else playerShot)
    (by cases hit <;> decide)
  unfold sunkCount
  congr 1
  funext t
  rw [decide_eq_decide]
  unfold Board.allHit
  constructor
  · intro h i j hij
    exact (hflag i j).mp (h i j (by rw [htag]; exact hij))
  · intro h i j hij
    rw [htag] at hij
    exact (hflag i j).mpr (h i j hij)

theorem shotCount_le (b : Board) : shotCount b ≤ 100 := by
  unfold shotCount
  exact (Finset.card_filter_le _ _).trans (by simp)

theorem shotCount_lt {b : Board} {p q : Fin 10} (h : (b.cells p q).testBit 0 = false) :
    shotCount b < 100 := by
  unfold shotCount
  have hlt := Finset.card_lt_univ_of_not_mem (show (p, q) ∉
      Finset.univ.filter fun pq : Fin 10 × Fin 10 => (b.cells pq.1 pq.2).testBit 0 = true by
    intro hmem
    have h2 : (b.cells p q).testBit 0 = true := (Finset.mem_filter.mp hmem).2
    rw [h] at h2
    cases h2)
  simpa using hlt

theorem shotCount_eq_of {b b1 : Board}
    (h : ∀ i j : Fin 10, (b1.cells i j).testBit 0 = (b.cells i j).testBit 0) :
    shotCount b1 = shotCount b := by
  unfold shotCount
  congr 1
  ext pq
  simp [h]

theorem shotCount_mark {b : Board} {p q : Fin 10} {f : Nat}
    (hfree : (b.cells p q).testBit 0 = false) (hf : f.testBit 0 = true) :
    shotCount (b.mark p q f) = shotCount b + 1 := by
  unfold shotCount
  have hset : (Finset.univ.filter fun pq : Fin 10 × Fin 10 =>
      ((b.mark p q f).cells pq.1 pq.2).testBit 0 = true) =
      insert (p, q) (Finset.univ.filter fun pq : Fin 10 × Fin 10 =>
        (b.cells pq.1 pq.2).testBit 0 = true) := by
    ext pq
    obtain ⟨i, j⟩ := pq
    simp only [Finset.mem_filter, Finset.mem_univ, true_and, Finset.mem_insert, Prod.mk.injEq,
      Board.mark_testBit, hf, Bool.and_true, Bool.or_eq_true, decide_eq_true_eq]
    tauto
  rw [hset, Finset.card_insert_of_not_mem]
  intro hmem
  have h2 : (b.cells p q).testBit 0 = true := (Finset.mem_filter.mp hmem).2
  rw [hfree] at h2
  cases h2

theorem OpponentShot_coe_board {b b1 : Board} {p q : Fin 10} {hit : Bool} {sunk : Nat}
    (h : OpponentShot b (p.val : Int) (q.val : Int) = some (b1, hit, sunk)) :
    b1 = b.mark p q opponentHit := by
  obtain ⟨hit1, sunk1, h1⟩ := OpponentShot_mark b p q
  rw [h1] at h
  simp only [Option.some.injEq, Prod.mk.injEq] at h
  exact h.1.symm

/-- Through the local link Turn never panics. -/
theorem AI.Turn_localLink_ne_panic (a : AI) (ob : Board) (rng : List Nat) :
    a.Turn localLink ob rng ≠ .panic := by
  intro hp
  obtain ⟨sx, sy, rest, ht, hnone⟩ := (AI.Turn_panic_iff a localLink ob rng).mp hp
  obtain ⟨p, q, rfl, rfl⟩ := exists_fin_of_valid (AI.Turn.target_found a ht).1
  obtain ⟨hit, sunk, hshot⟩ := OpponentShot_mark ob p q
  rw [localLink, hshot] at hnone
  cases hnone

/-- What holds after `k` turns of a game: the opponent board has only seen shots, every
cell the AI has shot carries the incoming-shot flag there, the AI has shot `k` cells,
and its score lies between the number of sunk ships and `k`. -/
theorem Played.inv {a0 : AI} {ob0 : Board} {ts : List Nat}
    (hfresh : ∀ p q : Fin 10, a0.board.shot (p.val : Int) (q.val : Int) = false)
    (hscore : a0.score = 0) (hplaced : Placed ob0 ts) (hfive : ts.Perm fleetTypes)
    {k : Nat} {a : AI} {ob : Board} {w : Bool} (h : Played a0 ob0 k a ob w) :
    Shots ob0 ob ∧
    (∀ p q : Fin 10, (a.board.cells p q).testBit 0 = true → ob.cells p q &&& opponentHit ≠ 0) ∧
    shotCount a.board = k ∧ a.score ≤ (k : Int) ∧ (sunkCount ob : Int) ≤ a.score ∧
    (w = false → a.score < 5) := by
  induction h with
  | start =>
    have h0 : ∀ p q : Fin 10, (a0.board.cells p q).testBit 0 = false := by
      intro p q
      have := hfresh p q
      rwa [Board.shot, Board.cell_coe] at this
    refine ⟨Shots.start, ?_, ?_, ?_, ?_, ?_⟩
    · intro p q hbit
      rw [h0 p q] at hbit
      cases hbit
    · unfold shotCount
      rw [Finset.card_eq_zero, Finset.filter_eq_empty_iff]
      intro pq _
      rw [h0]
      exact Bool.false_ne_true
    · rw [hscore]; exact le_refl _
    · rw [hscore, hplaced.sunkCount_eq hfive]; exact le_refl _
    · intro _; rw [hscore]; decide
  | turn rng r hprev hturn ih =>
    rename_i k a ob
    obtain ⟨hshots, hmarked, hcount, hle, hsunk, -⟩ := ih
    obtain ⟨p, q, hit, sunk, -, hs, hremote, hboard, hsc, -, hwon⟩ := AI.Turn_ok hturn
    have hshot : OpponentShot ob (p.val : Int) (q.val : Int) = some (r.remote, hit, sunk) :=
      hremote
    have hb1 := OpponentShot_coe_board hshot
    have hfree : (a.board.cells p q).testBit 0 = false := by
      rwa [Board.shot, Board.cell_coe] at hs
    have hflag : Nat.testBit (if hit = true then playerShot ||| playerHit else playerShot) 0 =
        true := by cases hit <;> decide
    have hk : k ≤ 100 := hcount ▸ shotCount_le a.board
    have hstep := sunkCount_shot (FleetInv.of_shots hplaced hshots) p q hshot
    have hscore1 : r.ai.score = if sunk ≠ 0 then a.score + 1 else a.score := by
      rw [hsc]
      split_ifs
      · exact wrap64_of_range (by omega) (by omega)
      · rfl
    refine ⟨Shots.opponent _ _ hit sunk hshots hshot, ?_, ?_, ?_, ?_, ?_⟩
    · intro i j hbit
      rw [hb1, and_opponentHit_ne_zero, Board.mark_testBit]
      rw [hboard, Board.mark_testBit] at hbit
      by_cases hij : i = p ∧ j = q
      · simp only [hij, and_self, decide_True, Bool.true_and, Bool.or_eq_true]
        exact Or.inr (by decide)
      · simp only [hij, decide_False, Bool.false_and, Bool.or_false] at hbit ⊢
        exact (and_opponentHit_ne_zero _).mp (hmarked i j hbit)
    · rw [hboard, shotCount_mark hfree hflag, hcount]
    · rw [hscore1]; push_cast; split_ifs <;> omega
    · rw [hscore1]
      split_ifs with h0
      · rw [if_pos h0] at hstep; omega
      · rw [if_neg h0] at hstep; omega
    · intro hw
      rw [hwon] at hw
      simpa using hw
  | incoming x y hit sunk hprev hshot ih =>
    rename_i k a ob b1
    obtain ⟨hshots, hmarked, hcount, hle, hsunk, hlt⟩ := ih
    obtain ⟨p, q, -, -, hb1⟩ := OpponentShot_board hshot
    have hbit : ∀ i j : Fin 10, (b1.cells i j).testBit 0 = (a.board.cells i j).testBit 0 := by
      intro i j
      rw [hb1, Board.mark_testBit, opponentHit_testBit 0 (by decide)]
      simp
    refine ⟨hshots, ?_, ?_, hle, hsunk, hlt⟩
    · intro i j h1
      exact hmarked i j (by rw [← hbit]; exact h1)
    · exact (shotCount_eq_of hbit).trans hcount
  | recorded x y hit hprev hshot ih =>
    rename_i k a ob ob1
    obtain ⟨hshots, hmarked, hcount, hle, hsunk, hlt⟩ := ih
    obtain ⟨p, q, -, -, hb1⟩ := PlayerShot_board hshot
    refine ⟨Shots.player _ _ hit hshots hshot, ?_, hcount, hle, ?_, hlt⟩
    · intro i j h1
      rw [hb1, and_opponentHit_ne_zero, Board.mark_testBit]
      simp only [Bool.or_eq_true]
      exact Or.inl ((and_opponentHit_ne_zero _).mp (hmarked i j h1))
    · rw [hb1, sunkCount_player]; exact hsunk

/-- While the score is below five a ship of the fleet has a cell without the
incoming-shot flag. -/
theorem exists_unhit_of_sunkCount {b : Board} (h : sunkCount b < 5) :
    ∃ p q : Fin 10, b.cells p q &&& opponentHit = 0 := by
  by_contra hno
  have hall : ∀ t : Nat, b.allHit t := by
    intro t p q _ h0
    exact hno ⟨p, q, h0⟩
  have : sunkCount b = 5 := by
    unfold sunkCount
    rw [List.countP_eq_length.mpr]
    · rfl
    · intro t _
      simpa using hall t
  omega

theorem demoShips_placed :
    Placed (demoShips 5)
      [shipPatrolBoat, shipSubmarine, shipDestroyer, shipBattleship, shipCarrier] :=
  Placed.place 0 4 right shipPatrolBoat
    (Placed.place 0 3 right shipSubmarine
      (Placed.place 0 2 right shipDestroyer
        (Placed.place 0 1 right shipBattleship
          (Placed.place 0 0 right shipCarrier Placed.empty (by decide)
            (option_board_eq (demoShips 1) (by decide) (by decide)))
          (by decide) (option_board_eq (demoShips 2) (by decide) (by decide)))
        (by decide) (option_board_eq (demoShips 3) (by decide) (by decide)))
      (by decide) (option_board_eq (demoShips 4) (by decide) (by decide)))
    (by decide) (option_board_eq (demoShips 5) (by decide) (by decide))

/-- C16. Bounded game length.  An AI whose board has no outgoing shot and whose score is 0
fires through the local link at a board on which the five ship types have each been
placed once by PlaceShip; the random source of every turn is arbitrary, and between the
turns the opponent may fire at the AI and record its own shots.  In every such game the
number `k` of returning Turn calls is at most 100, the 100th, when it is reached, returns
`won = true`, and as long as no turn has returned `won = true` the next Turn call does
not panic, whatever the random source, and returns for some random source. -/
theorem bounded_game_length (a0 : AI) (ob0 : Board) (ts : List Nat)
    (hfresh : ∀ p q : Fin 10, a0.board.shot (p.val : Int) (q.val : Int) = false)
    (hscore : a0.score = 0) (hplaced : Placed ob0 ts) (hfive : ts.Perm fleetTypes)
    (k : Nat) (a : AI) (ob : Board) (won : Bool) (hplay : Played a0 ob0 k a ob won) :
    k ≤ 100 ∧ (k = 100 → won = true) ∧
    (won = false →
      (∀ rng : List Nat, a.Turn localLink ob rng ≠ .panic) ∧
      ∃ (rng : List Nat) (r : TurnResult Board), a.Turn localLink ob rng = .ok r) := by
  obtain ⟨-, hmarked, hcount, -, hsunk, hlt⟩ := Played.inv hfresh hscore hplaced hfive hplay
  have hfree : won = false → ∃ p q : Fin 10, (a.board.cells p q).testBit 0 = false := by
    intro hw
    have h5 := hlt hw
    obtain ⟨p, q, hpq⟩ := exists_unhit_of_sunkCount (b := ob) (by omega)
    refine ⟨p, q, ?_⟩
    cases hbit : (a.board.cells p q).testBit 0
    · rfl
    · exact absurd hpq (hmarked p q hbit)
  refine ⟨hcount ▸ shotCount_le a.board, ?_, ?_⟩
  · intro hk
    cases hw : won
    · obtain ⟨p, q, hpq⟩ := hfree hw
      have := shotCount_lt hpq
      omega
    · rfl
  · intro hw
    refine ⟨fun rng => AI.Turn_localLink_ne_panic a ob rng, ?_⟩
    obtain ⟨p, q, hpq⟩ := hfree hw
    obtain ⟨r, hr⟩ := AI.Turn_returns a localLink ob p q
      (by rw [Board.shot, Board.cell_coe]; exact hpq) (localLink_ne_none ob)
    exact ⟨_, r, hr⟩

theorem bounded_game_length_witness :
    ∃ (a : AI) (ob : Board) (won : Bool),
      Played ⟨Board.empty, 0⟩ (demoShips 5) 1 a ob won ∧
      1 ≤ 100 ∧ (1 = 100 → won = true) ∧
      (won = false →
        (∀ rng : List Nat, a.Turn localLink ob rng ≠ .panic) ∧
        ∃ (rng : List Nat) (r : TurnResult Board), a.Turn localLink ob rng = .ok r) :=
  match AI.Turn_returns ⟨Board.empty, 0⟩ localLink (demoShips 5) 0 0 (by decide)
      (localLink_ne_none (demoShips 5)) with
  | ⟨r, hr⟩ =>
    ⟨r.ai, r.remote, r.won, Played.turn _ r Played.start hr,
      bounded_game_length ⟨Board.empty, 0⟩ (demoShips 5)
        [shipPatrolBoat, shipSubmarine, shipDestroyer, shipBattleship, shipCarrier]
        (by decide) rfl demoShips_placed (by decide) 1 r.ai r.remote r.won
        (Played.turn _ r Played.start hr)⟩

/-! ## The AI: diagonal fallback and exhausted lines -/

/-- findShot on a hit cell, with the two tests for a hit neighbour evaluated. -/
theorem AI.findShot_hit (a : AI) {x y : Int} (hhit : a.board.hit x y = true) :
    a.findShot x y =
      match (if (a.board.hit (x - 1) y || a.board.hit (x + 1) y) = true
        then a.findHorizontalShot x y else some (0, false)) with
      | none => none
      | some (shootx, true) => some (shootx, y, true)
      | some (_, false) =>
        match (if (a.board.hit x (y - 1) || a.board.hit x (y + 1)) = true
          then a.findVerticalShot x y else some (0, false)) with
        | none => none
        | some (shooty, true) => some (x, shooty, true)
        | some (_, false) =>
          AI.findShot.finish a x y (a.board.hit (x - 1) y || a.board.hit (x + 1) y)
            (a.board.hit x (y - 1) || a.board.hit x (y + 1)) := by
  have hv := Board.valid_of_hit hhit
  unfold AI.findShot AI.findShot.vertical
  rw [PlayerHasHit_of_valid a.board hv, AI.hitEither_row a hv, AI.hitEither_column a hv, hhit]
  cases hrow : a.board.hit (x - 1) y || a.board.hit (x + 1) y <;>
    cases hcol : a.board.hit x (y - 1) || a.board.hit x (y + 1)
  · rfl
  · cases a.findVerticalShot x y with
    | none => rfl
    | some r => obtain ⟨c, ok⟩ := r; cases ok <;> rfl
  · cases a.findHorizontalShot x y with
    | none => rfl
    | some r => obtain ⟨c, ok⟩ := r; cases ok <;> rfl
  · cases a.findHorizontalShot x y with
    | none => rfl
    | some r =>
      obtain ⟨c, ok⟩ := r
      cases ok
      · cases a.findVerticalShot x y with
        | none => rfl
        | some r2 => obtain ⟨c2, ok2⟩ := r2; cases ok2 <;> rfl
      · rfl

/-- C21. Diagonal fallback.  On every AI board, for every hit cell `(x, y)` with a hit
neighbour on its row and a hit neighbour on its column for which neither
findHorizontalShot nor findVerticalShot finds a shot, findShot returns, with
`ok = true`, the first diagonal neighbour that is on the grid and has not been shot in
the order bottom-left `(x-1, y-1)`, bottom-right `(x+1, y-1)`, top-right `(x+1, y+1)`,
top-left `(x-1, y+1)`, and `ok = false` exactly when all diagonal neighbours on the grid
have been shot.  In no other situation does the diagonal search give the shot: whenever
findShot returns a shot off both the row and the column of `(x, y)`, as every diagonal
neighbour is, the cell is in that situation and the shot is the first free diagonal
neighbour. -/
theorem findShot_diagonal (a : AI) (x y : Int) :
    (a.board.hit x y = true →
      (a.board.hit (x - 1) y = true ∨ a.board.hit (x + 1) y = true) →
      (a.board.hit x (y - 1) = true ∨ a.board.hit x (y + 1) = true) →
      (∃ c : Int, a.findHorizontalShot x y = some (c, false)) →
      (∃ c : Int, a.findVerticalShot x y = some (c, false)) →
      (a.findShot x y =
        match firstFree a.board
          [(x - 1, y - 1), (x + 1, y - 1), (x + 1, y + 1), (x - 1, y + 1)] with
        | some c => some (c.1, c.2, true)
        | none => some (0, 0, false)) ∧
      ∃ shootx shooty ok, a.findShot x y = some (shootx, shooty, ok) ∧
        (ok = false ↔
          ∀ c ∈ [(x - 1, y - 1), (x + 1, y - 1), (x + 1, y + 1), (x - 1, y + 1)],
            IsValid c.1 c.2 = true → a.board.shot c.1 c.2 = true)) ∧
    (∀ shootx shooty : Int, a.findShot x y = some (shootx, shooty, true) →
      shootx ≠ x → shooty ≠ y →
      a.board.hit x y = true ∧
      (a.board.hit (x - 1) y = true ∨ a.board.hit (x + 1) y = true) ∧
      (a.board.hit x (y - 1) = true ∨ a.board.hit x (y + 1) = true) ∧
      (∃ c : Int, a.findHorizontalShot x y = some (c, false)) ∧
      (∃ c : Int, a.findVerticalShot x y = some (c, false)) ∧
      firstFree a.board [(x - 1, y - 1), (x + 1, y - 1), (x + 1, y + 1), (x - 1, y + 1)] =
        some (shootx, shooty)) := by
  constructor
  · intro hhit hrow hcol hrowfail hcolfail
    obtain ⟨c1, h1⟩ := hrowfail
    obtain ⟨c2, h2⟩ := hcolfail
    have hv := Board.valid_of_hit hhit
    have hr : (a.board.hit (x - 1) y || a.board.hit (x + 1) y) = true := by
      rcases hrow with h | h <;> simp [h]
    have hc : (a.board.hit x (y - 1) || a.board.hit x (y + 1)) = true := by
      rcases hcol with h | h <;> simp [h]
    have heq : a.findShot x y =
        match firstFree a.board
          [(x - 1, y - 1), (x + 1, y - 1), (x + 1, y + 1), (x - 1, y + 1)] with
        | some c => some (c.1, c.2, true)
        | none => some (0, 0, false) := by
      rw [AI.findShot_hit a hhit, hr, hc]
      simp only [if_true, h1, h2]
      unfold AI.findShot.finish
      simp only [Bool.and_self, Bool.or_self, if_true]
      rw [AI.findDiagonalShot_eq a hv]
      cases firstFree a.board [(x - 1, y - 1), (x + 1, y - 1), (x + 1, y + 1), (x - 1, y + 1)] <;>
        rfl
    refine ⟨heq, ?_⟩
    rw [heq]
    cases hf : firstFree a.board
        [(x - 1, y - 1), (x + 1, y - 1), (x + 1, y + 1), (x - 1, y + 1)] with
    | none =>
      refine ⟨0, 0, false, rfl, ?_⟩
      simp only [true_iff]
      intro c hc hvc
      unfold firstFree at hf
      have := List.find?_eq_none.mp hf c hc
      simpa [hvc] using this
    | some c =>
      refine ⟨c.1, c.2, true, rfl, ?_⟩
      obtain ⟨hmem, hvc, hsc⟩ := firstFree_some hf
      simp only [Bool.true_eq_false, false_iff]
      intro hall
      rw [hall c hmem hvc] at hsc
      cases hsc
  · intro sx sy h hx hy
    cases hhit : a.board.hit x y
    · have := AI.findShot_not_hit a hhit
      rw [h] at this
      cases this
    · have hv := Board.valid_of_hit hhit
      rw [AI.findShot_hit a hhit] at h
      have hadj : ¬ (match firstFree a.board [(x, y + 1), (x, y - 1), (x - 1, y), (x + 1, y)] with
          | some c => some (c.1, c.2, true)
          | none => some (0, 0, false)) = some (sx, sy, true) := by
        intro hres
        obtain ⟨hf, -, -⟩ := firstFree_result hres
        obtain ⟨hmem, -, -⟩ := firstFree_some hf
        simp only [List.mem_cons, Prod.mk.injEq, List.mem_singleton, List.not_mem_nil,
          or_false] at hmem
        rcases hmem with ⟨e, -⟩ | ⟨e, -⟩ | ⟨-, e⟩ | ⟨-, e⟩
        · exact hx e
        · exact hx e
        · exact hy e
        · exact hy e
      have hfinish : ∀ hs vs : Bool, AI.findShot.finish a x y hs vs = some (sx, sy, true) →
          hs = true ∧ vs = true ∧
          firstFree a.board [(x - 1, y - 1), (x + 1, y - 1), (x + 1, y + 1), (x - 1, y + 1)] =
            some (sx, sy) := by
        intro hs vs hres
        unfold AI.findShot.finish at hres
        rw [AI.findDiagonalShot_eq a hv, AI.findAdjacentShot_eq a hv] at hres
        cases hs <;> cases vs <;> simp only [Bool.and_self, Bool.and_false, Bool.false_and,
          Bool.or_self, Bool.or_false, Bool.or_true, Bool.false_eq_true, if_false, if_true]
          at hres
        · exact absurd hres hadj
        · cases hres
        · cases hres
        · cases hf : firstFree a.board
              [(x - 1, y - 1), (x + 1, y - 1), (x + 1, y + 1), (x - 1, y + 1)] with
          | none => rw [hf] at hres; cases hres
          | some c =>
            rw [hf] at hres
            simp only [Option.some.injEq, Prod.mk.injEq, and_true] at hres
            exact ⟨rfl, rfl, by rw [← hres.1, ← hres.2]⟩
      cases hrow : a.board.hit (x - 1) y || a.board.hit (x + 1) y <;>
        cases hcol : a.board.hit x (y - 1) || a.board.hit x (y + 1) <;>
        rw [hrow, hcol] at h <;>
        simp only [Bool.false_eq_true, if_false, if_true] at h
      · exact absurd (hfinish _ _ h).1 (by decide)
      · cases hV : a.findVerticalShot x y with
        | none => rw [hV] at h; cases h
        | some r =>
          obtain ⟨c, ok⟩ := r
          rw [hV] at h
          cases ok
          · exact absurd (hfinish _ _ h).1 (by decide)
          · simp only [Option.some.injEq, Prod.mk.injEq, and_true] at h
            exact absurd h.1.symm hx
      · cases hH : a.findHorizontalShot x y with
        | none => rw [hH] at h; cases h
        | some r =>
          obtain ⟨c, ok⟩ := r
          rw [hH] at h
          cases ok
          · exact absurd (hfinish _ _ h).2.1 (by decide)
          · simp only [Option.some.injEq, Prod.mk.injEq, and_true] at h
            exact absurd h.2.symm hy
      · cases hH : a.findHorizontalShot x y with
        | none => rw [hH] at h; cases h
        | some r =>
          obtain ⟨c, ok⟩ := r
          rw [hH] at h
          cases ok
          · cases hV : a.findVerticalShot x y with
            | none => rw [hV] at h; cases h
            | some r2 =>
              obtain ⟨c2, ok2⟩ := r2
              simp only [hV] at h
              cases ok2
              · simp only [Bool.or_eq_true] at hrow hcol
                exact ⟨rfl, hrow, hcol, ⟨c, rfl⟩, ⟨c2, rfl⟩, (hfinish _ _ h).2.2⟩
              · simp only [Option.some.injEq, Prod.mk.injEq, and_true] at h
                exact absurd h.1.symm hx
          · simp only [Option.some.injEq, Prod.mk.injEq, and_true] at h
            exact absurd h.2.symm hy

theorem findShot_diagonal_witness :
    (AI.findShot ⟨demoCross, 0⟩ 5 5 =
      match firstFree demoCross [(5 - 1, 5 - 1), (5 + 1, 5 - 1), (5 + 1, 5 + 1), (5 - 1, 5 + 1)] with
      | some c => some (c.1, c.2, true)
      | none => some (0, 0, false)) ∧
    ∃ shootx shooty ok, AI.findShot ⟨demoCross, 0⟩ 5 5 = some (shootx, shooty, ok) ∧
      (ok = false ↔
        ∀ c ∈ [((5 : Int) - 1, (5 : Int) - 1), (5 + 1, 5 - 1), (5 + 1, 5 + 1), (5 - 1, 5 + 1)],
          IsValid c.1 c.2 = true → demoCross.shot c.1 c.2 = true) :=
  (findShot_diagonal ⟨demoCross, 0⟩ 5 5).1 (by decide) (Or.inr (by decide))
    (Or.inr (by decide)) ⟨0, by decide⟩ ⟨0, by decide⟩

/-- C22. Exhausted line yields no shot.  On every AI board, for every hit cell `(x, y)`
with a hit neighbour on its row and none on its column for which findHorizontalShot
finds no shot, or with a hit neighbour on its column and none on its row for which
findVerticalShot finds no shot, findShot returns `ok = false`; nothing is asked of the
neighbours on the other axis, which may well not have been shot. -/
theorem findShot_exhausted_line (a : AI) (x y : Int) (hhit : a.board.hit x y = true)
    (hone :
      ((a.board.hit (x - 1) y = true ∨ a.board.hit (x + 1) y = true) ∧
        (a.board.hit x (y - 1) = false ∧ a.board.hit x (y + 1) = false) ∧
        ∃ c : Int, a.findHorizontalShot x y = some (c, false)) ∨
      ((a.board.hit x (y - 1) = true ∨ a.board.hit x (y + 1) = true) ∧
        (a.board.hit (x - 1) y = false ∧ a.board.hit (x + 1) y = false) ∧
        ∃ c : Int, a.findVerticalShot x y = some (c, false))) :
    a.findShot x y = some (0, 0, false) := by
  rw [AI.findShot_hit a hhit]
  rcases hone with ⟨hrow, ⟨hc1, hc2⟩, c, hfail⟩ | ⟨hcol, ⟨hr1, hr2⟩, c, hfail⟩
  · have hr : (a.board.hit (x - 1) y || a.board.hit (x + 1) y) = true := by
      rcases hrow with h | h <;> simp [h]
    rw [hr, hc1, hc2]
    simp only [if_true, hfail, Bool.or_self, Bool.false_eq_true, if_false]
    unfold AI.findShot.finish
    simp
  · have hc : (a.board.hit x (y - 1) || a.board.hit x (y + 1)) = true := by
      rcases hcol with h | h <;> simp [h]
    rw [hc, hr1, hr2]
    simp only [if_true, hfail, Bool.or_self, Bool.false_eq_true, if_false]
    unfold AI.findShot.finish
    simp

theorem findShot_exhausted_line_witness :
    IsValid 5 6 = true ∧ demoDeadEnd.shot 5 6 = false ∧
      AI.findShot ⟨demoDeadEnd, 0⟩ 5 5 = some (0, 0, false) :=
  ⟨by decide, by decide,
    findShot_exhausted_line ⟨demoDeadEnd, 0⟩ 5 5 (by decide)
      (Or.inl ⟨Or.inr (by decide), ⟨by decide, by decide⟩, ⟨0, by decide⟩⟩)⟩

/-! ## The AI: the in-line searches -/

theorem AI.walk_right_scan (a : AI) {x y c : Int} (h : ScanRight a.board x y c) :
    AI.walk a 1 0 (boardSize - x).toNat x y = some (some (c, y)) := by
  obtain ⟨hxc, hv, hh, hs, hbetween⟩ := h
  have hvc := (IsValid_iff c y).mp hv
  obtain ⟨k, hk⟩ : ∃ k : Nat, (k : Int) = c - x := ⟨(c - x).toNat, Int.toNat_of_nonneg (by omega)⟩
  have ex : x + (k : Int) * 1 = c := by omega
  have ey : y + (k : Int) * 0 = y := by omega
  have hstop := AI.walk_stop a 1 0 k (boardSize - x).toNat x y
    (by rw [Int.lt_toNat]; simp only [boardSize]; omega)
    (by
      intro j hj
      have e1 : y + (j : Int) * 0 = y := by omega
      rw [e1]
      exact hbetween _ (by omega) (by omega))
    (by rw [ex, ey]; exact hv) (by rw [ex, ey]; exact hh)
  rw [hstop, ex, ey, hs]
  rfl

theorem AI.walk_left_scan (a : AI) {x y c : Int} (h : ScanLeft a.board x y c) :
    AI.walk a (-1) 0 (x + 1).toNat x y = some (some (c, y)) := by
  obtain ⟨hxc, hv, hh, hs, hbetween⟩ := h
  have hvc := (IsValid_iff c y).mp hv
  obtain ⟨k, hk⟩ : ∃ k : Nat, (k : Int) = x - c := ⟨(x - c).toNat, Int.toNat_of_nonneg (by omega)⟩
  have ex : x + (k : Int) * (-1) = c := by omega
  have ey : y + (k : Int) * 0 = y := by omega
  have hstop := AI.walk_stop a (-1) 0 k (x + 1).toNat x y
    (by rw [Int.lt_toNat]; omega)
    (by
      intro j hj
      have e1 : y + (j : Int) * 0 = y := by omega
      rw [e1]
      exact hbetween _ (by omega) (by omega))
    (by rw [ex, ey]; exact hv) (by rw [ex, ey]; exact hh)
  rw [hstop, ex, ey, hs]
  rfl

theorem AI.walk_right_found (a : AI) {x y : Int} (hhit : a.board.hit x y = true) {n : Nat}
    {c : Int × Int} (h : AI.walk a 1 0 n x y = some (some c)) :
    c.2 = y ∧ ScanRight a.board x y c.1 := by
  obtain ⟨k, -, hc, hvc, hhc, hsc, hbefore⟩ := AI.walk_found a 1 0 n x y c h
  have hk : k ≠ 0 := by
    rintro rfl
    have e : c = (x, y) := by rw [hc]; simp
    rw [e, hhit] at hhc
    cases hhc
  have e1 : c.1 = x + k := by rw [hc]; simp
  have e2 : c.2 = y := by rw [hc]; simp
  rw [e2] at hvc hhc hsc
  refine ⟨e2, by omega, hvc, hhc, hsc, ?_⟩
  intro i hi1 hi2
  obtain ⟨j, hj⟩ : ∃ j : Nat, (j : Int) = i - x := ⟨(i - x).toNat, Int.toNat_of_nonneg (by omega)⟩
  have := hbefore j (by omega)
  have e3 : x + (j : Int) * 1 = i := by omega
  have e4 : y + (j : Int) * 0 = y := by omega
  rw [e3, e4] at this
  exact this

theorem AI.walk_left_found (a : AI) {x y : Int} (hhit : a.board.hit x y = true) {n : Nat}
    {c : Int × Int} (h : AI.walk a (-1) 0 n x y = some (some c)) :
    c.2 = y ∧ ScanLeft a.board x y c.1 := by
  obtain ⟨k, -, hc, hvc, hhc, hsc, hbefore⟩ := AI.walk_found a (-1) 0 n x y c h
  have hk : k ≠ 0 := by
    rintro rfl
    have e : c = (x, y) := by rw [hc]; simp
    rw [e, hhit] at hhc
    cases hhc
  have e1 : c.1 = x - k := by rw [hc]; simp; ring
  have e2 : c.2 = y := by rw [hc]; simp
  rw [e2] at hvc hhc hsc
  refine ⟨e2, by omega, hvc, hhc, hsc, ?_⟩
  intro i hi1 hi2
  obtain ⟨j, hj⟩ : ∃ j : Nat, (j : Int) = x - i := ⟨(x - i).toNat, Int.toNat_of_nonneg (by omega)⟩
  have := hbefore j (by omega)
  have e3 : x + (j : Int) * (-1) = i := by omega
  have e4 : y + (j : Int) * 0 = y := by omega
  rw [e3, e4] at this
  exact this

theorem Board.get_transpose (b : Board) (x y : Int) : b.transpose.get y x = b.get x y := by
  unfold Board.get
  by_cases h : 0 ≤ x ∧ x < 10 ∧ 0 ≤ y ∧ y < 10
  · have h2 : 0 ≤ y ∧ y < 10 ∧ 0 ≤ x ∧ x < 10 := ⟨h.2.2.1, h.2.2.2, h.1, h.2.1⟩
    rw [dif_pos h, dif_pos h2]
    rfl
  · have h2 : ¬ (0 ≤ y ∧ y < 10 ∧ 0 ≤ x ∧ x < 10) := fun h3 =>
      h ⟨h3.2.2.1, h3.2.2.2, h3.1, h3.2.1⟩
    rw [dif_neg h, dif_neg h2]

theorem AI.walk_transpose (a : AI) (dx dy : Int) :
    ∀ (n : Nat) (ix iy : Int),
      AI.walk a.transpose dy dx n iy ix =
        (AI.walk a dx dy n ix iy).map (Option.map Prod.swap) := by
  intro n
  induction n with
  | zero => intro ix iy; rfl
  | succ n ih =>
    intro ix iy
    have e1 : PlayerHasHit a.transpose.board iy ix = PlayerHasHit a.board ix iy := by
      unfold PlayerHasHit AI.transpose
      rw [Board.get_transpose]
    have e2 : PlayerHasShot a.transpose.board iy ix = PlayerHasShot a.board ix iy := by
      unfold PlayerHasShot AI.transpose
      rw [Board.get_transpose]
    simp only [AI.walk, e1, e2, ih]
    cases PlayerHasHit a.board ix iy with
    | none => rfl
    | some v =>
      cases v
      · cases PlayerHasShot a.board ix iy with
        | none => rfl
        | some w => cases w <;> rfl
      · rfl

theorem AI.findVerticalShot_transpose (a : AI) (x y : Int) :
    a.findVerticalShot x y = a.transpose.findHorizontalShot y x := by
  rw [AI.findVerticalShot_eq, AI.findHorizontalShot_eq, AI.walk_transpose, AI.walk_transpose]
  cases AI.walk a 0 1 (boardSize - y).toNat x y with
  | none => rfl
  | some r =>
    cases r with
    | some c => rfl
    | none =>
      cases AI.walk a 0 (-1) (y + 1).toNat x y with
      | none => rfl
      | some r2 => cases r2 <;> rfl

/-- C25. In-line search characterisation.  On every AI board, for every hit cell
`(x, y)`, findHorizontalShot returns, and it returns `ok = true` exactly when the scan
from `x` to the right or the scan from `x` to the left, passing over the hit cells of row
`y`, reaches a cell that has not been shot before a missed cell or the edge of the board.
The result is the cell reached to the right when there is one, otherwise the cell reached
to the left, and every cell strictly between it and `x` is a hit cell.
findVerticalShot at `(x, y)` is findHorizontalShot at `(y, x)` on the transposed board,
so upwards is tried before downwards. -/
theorem findHorizontalShot_characterisation (a : AI) (x y : Int)
    (hhit : a.board.hit x y = true) :
    (∃ r, a.findHorizontalShot x y = some r) ∧
    ((∃ c : Int, a.findHorizontalShot x y = some (c, true)) ↔
      ∃ c : Int, ScanRight a.board x y c ∨ ScanLeft a.board x y c) ∧
    (∀ c : Int, ScanRight a.board x y c → a.findHorizontalShot x y = some (c, true)) ∧
    ((¬ ∃ c : Int, ScanRight a.board x y c) →
      ∀ c : Int, ScanLeft a.board x y c → a.findHorizontalShot x y = some (c, true)) ∧
    (∀ c : Int, a.findHorizontalShot x y = some (c, true) →
      (ScanRight a.board x y c ∨ ScanLeft a.board x y c) ∧
      ∀ i : Int, (x < i ∧ i < c) ∨ (c < i ∧ i < x) → a.board.hit i y = true) ∧
    (∀ u v : Int, a.findVerticalShot u v = a.transpose.findHorizontalShot v u) := by
  have hv := Board.valid_of_hit hhit
  have hright : ∀ c : Int, ScanRight a.board x y c →
      a.findHorizontalShot x y = some (c, true) := by
    intro c hc
    rw [AI.findHorizontalShot_eq, AI.walk_right_scan a hc]
  have hscan : ∀ c : Int, a.findHorizontalShot x y = some (c, true) →
      ScanRight a.board x y c ∨ ScanLeft a.board x y c := by
    intro c h
    rw [AI.findHorizontalShot_eq] at h
    cases hw : AI.walk a 1 0 (boardSize - x).toNat x y with
    | none => rw [hw] at h; cases h
    | some r =>
      cases r with
      | some c1 =>
        rw [hw] at h
        simp only [Option.some.injEq, Prod.mk.injEq, and_true] at h
        exact Or.inl (h ▸ (AI.walk_right_found a hhit hw).2)
      | none =>
        rw [hw] at h
        cases hw2 : AI.walk a (-1) 0 (x + 1).toNat x y with
        | none => rw [hw2] at h; cases h
        | some r2 =>
          cases r2 with
          | some c2 =>
            rw [hw2] at h
            simp only [Option.some.injEq, Prod.mk.injEq, and_true] at h
            exact Or.inr (h ▸ (AI.walk_left_found a hhit hw2).2)
          | none => rw [hw2] at h; simp at h
  have hleft : (¬ ∃ c : Int, ScanRight a.board x y c) →
      ∀ c : Int, ScanLeft a.board x y c → a.findHorizontalShot x y = some (c, true) := by
    intro hno c hc
    have hv2 := (IsValid_iff x y).mp hv
    obtain ⟨r, hr⟩ := AI.walk_total a 1 0 (boardSize - x).toNat x y (by
      intro j hj
      rw [Int.lt_toNat] at hj
      simp only [boardSize] at hj
      rw [IsValid_iff]
      omega)
    cases r with
    | some c1 => exact absurd ⟨c1.1, (AI.walk_right_found a hhit hr).2⟩ hno
    | none => rw [AI.findHorizontalShot_eq, hr, AI.walk_left_scan a hc]
  refine ⟨AI.findHorizontalShot_total a hv, ⟨?_, ?_⟩, hright, hleft, ?_,
    fun u v => AI.findVerticalShot_transpose a u v⟩
  · rintro ⟨c, hc⟩
    exact ⟨c, hscan c hc⟩
  · rintro ⟨c, hc⟩
    by_cases hex : ∃ c : Int, ScanRight a.board x y c
    · obtain ⟨c1, hc1⟩ := hex
      exact ⟨c1, hright c1 hc1⟩
    · rcases hc with hc | hc
      · exact absurd ⟨c, hc⟩ hex
      · exact ⟨c, hleft hex c hc⟩
  · intro c hc
    refine ⟨hscan c hc, ?_⟩
    intro i hi
    rcases hscan c hc with hs | hs
    · rcases hi with hi | hi
      · exact hs.2.2.2.2 i (by omega) hi.2
      · have := hs.1; omega
    · rcases hi with hi | hi
      · have := hs.1; omega
      · exact hs.2.2.2.2 i hi.1 (by omega)

theorem findHorizontalShot_characterisation_witness :
    AI.findHorizontalShot ⟨demoRow, 0⟩ 5 0 = some (8, true) ∧
      ScanRight demoRow 5 0 8 ∧ ScanLeft demoRow 5 0 4 :=
  have hright : ScanRight demoRow 5 0 8 :=
    ⟨by decide, by decide, by decide, by decide, fun i h1 h2 => by
      have : i = 5 ∨ i = 6 ∨ i = 7 := by omega
      rcases this with rfl | rfl | rfl <;> decide⟩
  have hleft : ScanLeft demoRow 5 0 4 :=
    ⟨by decide, by decide, by decide, by decide, fun i h1 h2 => by
      have : i = 5 := by omega
      subst this
      decide⟩
  ⟨(findHorizontalShot_characterisation ⟨demoRow, 0⟩ 5 0 (by decide)).2.2.1 8 hright,
    hright, hleft⟩

/-! ## Board.String -/

theorem Board.String.topCell_eq (c : Nat) : Board.String.topCell c = topText c := by
  unfold Board.String.topCell topText
  have h1 : c &&& playerHit > 0 ↔ c.testBit 1 = true := by
    rw [← and_playerHit_ne_zero]; exact Nat.pos_iff_ne_zero
  have h0 : c &&& playerShot > 0 ↔ c.testBit 0 = true := by
    rw [← and_playerShot_ne_zero]; exact Nat.pos_iff_ne_zero
  simp only [h1, h0]

theorem Board.String.bottomCell_eq (c : Nat) : Board.String.bottomCell c = bottomText c := by
  unfold Board.String.bottomCell bottomText shipInitial
  have h2 : c &&& opponentHit > 0 ↔ c.testBit 2 = true := by
    rw [← and_opponentHit_ne_zero]; exact Nat.pos_iff_ne_zero
  have hs : c &&& shipMask > 0 ↔ c &&& shipMask ≠ 0 := Nat.pos_iff_ne_zero
  simp only [h2, hs]
  split_ifs <;> rfl

theorem Board.String.loopX_text (b : Board) (cellText : Nat → List Char) (y : Nat) (hy : y < 10) :
    ∀ n x : Nat, x + n ≤ 10 →
      Board.String.loopX b cellText (y : Int) n (x : Int) =
        some ((List.range' x n).flatMap fun (i : Nat) => cellText (b.cell (i : Int) (y : Int))) := by
  intro n
  induction n with
  | zero => intro x _; rfl
  | succ n ih =>
    intro x hx
    have hv : IsValid (x : Int) (y : Int) = true := by rw [IsValid_iff]; omega
    have hget : b.get (x : Int) (y : Int) = some (b.cell (x : Int) (y : Int)) := by
      obtain ⟨p, q, hp, hq⟩ := exists_fin_of_valid hv
      rw [hp, hq, Board.get_coe, Board.cell_coe]
    have hrec := ih (x + 1) (by omega)
    push_cast at hrec
    simp only [Board.String.loopX, hget, hrec, List.range'_succ, List.flatMap_cons]

theorem letter_eq (y : Nat) (hy : y < 10) :
    runeToString (wrap64 (65 + (y : Int))) = [Char.ofNat (65 + y)] := by
  interval_cases y <;> decide

theorem Board.String.loopY_text (b : Board) (cellText : Nat → List Char) :
    ∀ n : Nat, n ≤ 10 →
      Board.String.loopY b cellText n ((n : Int) - 1) =
        some (((List.range n).reverse.map (rowText b cellText)).flatMap
          fun line => line ++ ['\n']) := by
  intro n
  induction n with
  | zero => intro _; rfl
  | succ n ih =>
    intro hn
    have hrow := Board.String.loopX_text b cellText n (by omega) 10 0 (by omega)
    have hrec := ih (by omega)
    have e1 : ((n + 1 : Nat) : Int) - 1 = (n : Int) := by push_cast; ring
    simp only [Nat.cast_zero] at hrow
    have hline : runeToString (wrap64 (65 + (n : Int))) ++ [' '] ++
        ((List.range' 0 10).flatMap fun (i : Nat) => cellText (b.cell (i : Int) (n : Int))) =
        rowText b cellText n := by
      rw [letter_eq n (by omega), rowText, List.range_eq_range']
      rfl
    rw [e1, List.range_succ, List.reverse_append, List.reverse_singleton, List.singleton_append,
      List.map_cons, List.flatMap_cons, ← hline]
    simp only [Board.String.loopY, hrow, hrec, List.append_assoc]

theorem Board.String_eq (b : Board) :
    b.String = some ((renderLines b).flatMap fun line => line ++ ['\n']) := by
  have htop := Board.String.loopY_text b Board.String.topCell 10 (le_refl _)
  have hbottom := Board.String.loopY_text b Board.String.bottomCell 10 (le_refl _)
  have e : ((10 : Nat) : Int) - 1 = 9 := by norm_num
  rw [e] at htop hbottom
  have ft : Board.String.topCell = topText := funext Board.String.topCell_eq
  have fb : Board.String.bottomCell = bottomText := funext Board.String.bottomCell_eq
  rw [ft] at htop
  rw [fb] at hbottom
  unfold Board.String
  rw [ft, fb, htop, hbottom]
  simp only [renderLines, gridLines, List.flatMap_cons, List.flatMap_append, List.flatMap_nil,
    List.cons_append, List.nil_append, List.append_nil, List.append_assoc,
    Board.String.header, headerLine]

theorem topText_chars (c : Nat) : ∀ ch ∈ topText c, ch ≠ '\n' := by
  unfold topText
  split_ifs <;> decide

theorem bottomText_chars (c : Nat) : ∀ ch ∈ bottomText c, ch ≠ '\n' := by
  unfold bottomText shipInitial
  split_ifs <;> decide

theorem rowText_chars (b : Board) (cellText : Nat → List Char)
    (hcell : ∀ c : Nat, ∀ ch ∈ cellText c, ch ≠ '\n') (y : Nat) (hy : y < 10) :
    ∀ ch ∈ rowText b cellText y, ch ≠ '\n' := by
  intro ch hch
  unfold rowText at hch
  simp only [List.cons_append, List.nil_append, List.mem_cons, List.mem_flatMap] at hch
  rcases hch with rfl | rfl | ⟨x, -, hx⟩
  · interval_cases y <;> decide
  · decide
  · exact hcell _ ch hx

/-- C23. Board rendering.  For every board, String returns the 23 lines of `renderLines`,
each followed by a newline and none containing one: the header
`"  1 2 3 4 5 6 7 8 9 10"`, the ten rows of the top grid for `y = 9` down to `0`, an empty
line, the header again and the ten rows of the bottom grid.  A row is the letter
`'A' + y`, a space and ten cells of two characters for `x = 0..9`.  A cell of the top grid
is `"X "` when the hit flag is set, `"O "` when only the outgoing-shot flag is set and
two spaces otherwise; a cell of the bottom grid is `"X "` when the cell holds a ship and
carries the incoming-shot flag, otherwise the initial of the ship (C, B, D, S, P) and a
space, and two spaces when the cell holds no ship, whether or not the opponent shot
there (and also for a tag that is none of the five types, which has no initial). -/
theorem String_rendering (b : Board) :
    b.String = some ((renderLines b).flatMap fun line => line ++ ['\n']) ∧
    (renderLines b).length = 23 ∧
    (∀ line ∈ renderLines b, '\n' ∉ line) ∧
    (renderLines b)[0]? = some headerLine ∧ (renderLines b)[11]? = some [] ∧
    (renderLines b)[12]? = some headerLine ∧
    (∀ y : Nat, y < 10 →
      (renderLines b)[10 - y]? = some (rowText b topText y) ∧
      (renderLines b)[22 - y]? = some (rowText b bottomText y) ∧
      (rowText b topText y).length = 22 ∧ (rowText b bottomText y).length = 22) ∧
    (∀ c : Nat,
      (c.testBit 1 = true → topText c = ['X', ' ']) ∧
      (c.testBit 1 = false → c.testBit 0 = true → topText c = ['O', ' ']) ∧
      (c.testBit 1 = false → c.testBit 0 = false → topText c = [' ', ' '])) ∧
    (∀ c : Nat,
      (c &&& shipMask ≠ 0 → c.testBit 2 = true → bottomText c = ['X', ' ']) ∧
      (c.testBit 2 = false →
        (c &&& shipMask = shipCarrier → bottomText c = ['C', ' ']) ∧
        (c &&& shipMask = shipBattleship → bottomText c = ['B', ' ']) ∧
        (c &&& shipMask = shipDestroyer → bottomText c = ['D', ' ']) ∧
        (c &&& shipMask = shipSubmarine → bottomText c = ['S', ' ']) ∧
        (c &&& shipMask = shipPatrolBoat → bottomText c = ['P', ' '])) ∧
      (c &&& shipMask = 0 → bottomText c = [' ', ' ']) ∧
      (c.testBit 2 = false → shipInitial (c &&& shipMask) = none →
        bottomText c = [' ', ' '])) := by
  refine ⟨Board.String_eq b, rfl, ?_, rfl, rfl, rfl, ?_, ?_, ?_⟩
  · intro line hline hmem
    simp only [renderLines, gridLines, List.cons_append, List.mem_cons, List.mem_append,
      List.mem_map, List.mem_reverse, List.mem_range, List.mem_singleton,
      List.not_mem_nil, or_false] at hline
    rcases hline with rfl | (⟨y, hy, rfl⟩ | rfl) | rfl | ⟨y, hy, rfl⟩
    · revert hmem; decide
    · exact rowText_chars b topText topText_chars y hy _ hmem rfl
    · cases hmem
    · revert hmem; decide
    · exact rowText_chars b bottomText bottomText_chars y hy _ hmem rfl
  · intro y hy
    have hlen : ∀ (cellText : Nat → List Char), (∀ c, (cellText c).length = 2) →
        (rowText b cellText y).length = 22 := by
      intro cellText h2
      simp [rowText, List.range_succ, List.flatMap_append, h2]
    refine ⟨?_, ?_, hlen topText ?_, hlen bottomText ?_⟩
    · interval_cases y <;> rfl
    · interval_cases y <;> rfl
    · intro c; unfold topText; split_ifs <;> rfl
    · intro c; unfold bottomText shipInitial; split_ifs <;> rfl
  · intro c
    refine ⟨fun h1 => ?_, fun h1 h0 => ?_, fun h1 h0 => ?_⟩
    · simp [topText, h1]
    · simp [topText, h1, h0]
    · simp [topText, h1, h0]
  · intro c
    refine ⟨fun hs h2 => ?_, fun h2 => ⟨fun h => ?_, fun h => ?_, fun h => ?_, fun h => ?_,
      fun h => ?_⟩, fun h => ?_, fun h2 h => ?_⟩
    · simp [bottomText, hs, h2]
    · simp [bottomText, shipInitial, h, h2]
    · simp [bottomText, shipInitial, h, h2, shipBattleship, shipCarrier]
    · simp [bottomText, shipInitial, h, h2, shipBattleship, shipCarrier, shipDestroyer]
    · simp [bottomText, shipInitial, h, h2, shipBattleship, shipCarrier, shipDestroyer,
        shipSubmarine]
    · simp [bottomText, shipInitial, h, h2, shipBattleship, shipCarrier, shipDestroyer,
        shipSubmarine, shipPatrolBoat]
    · simp [bottomText, shipInitial, h, shipBattleship, shipCarrier, shipDestroyer,
        shipSubmarine, shipPatrolBoat]
    · simp [bottomText, h, h2]

theorem demoHit_String_row :
    rowText demoHit bottomText 0 =
      ['A', ' ', 'X', ' ', 'P', ' ', ' ', ' ', ' ', ' ', ' ', ' ', ' ', ' ', ' ', ' ', ' ', ' ',
        ' ', ' ', ' ', ' '] := by
  decide

/-! ## Sinkings are reported once -/

theorem countP_succ_of (P Q : Nat → Bool) (t0 : Nat) :
    ∀ l : List Nat, l.Nodup → t0 ∈ l → Q t0 = true → P t0 = false →
      (∀ t ∈ l, t ≠ t0 → Q t = P t) → l.countP Q = l.countP P + 1 := by
  intro l
  induction l with
  | nil => intro _ h; cases h
  | cons t l ih =>
    intro hnd hmem hq hp hrest
    rw [List.nodup_cons] at hnd
    by_cases ht : t = t0
    · subst ht
      have hsame : l.countP Q = l.countP P :=
        List.countP_congr fun s hs => by
          rw [hrest s (List.mem_cons_of_mem _ hs) (fun e => hnd.1 (e ▸ hs))]
      rw [List.countP_cons, List.countP_cons, hq, hp, hsame]
      simp
    · have hmem1 : t0 ∈ l := by
        rcases List.mem_cons.mp hmem with e | e
        · exact absurd e.symm ht
        · exact e
      have hrec := ih hnd.2 hmem1 hq hp fun s hs => hrest s (List.mem_cons_of_mem _ hs)
      rw [List.countP_cons, List.countP_cons, hrest t (List.mem_cons_self _ _) ht, hrec]
      omega

theorem Placed.nodup {b : Board} {ts : List Nat} (h : Placed b ts) : ts.Nodup := by
  induction h with
  | empty => exact List.nodup_nil
  | place x y d t _ hnew _ ih => exact List.nodup_cons.mpr ⟨hnew, ih⟩

theorem FleetInv.tag_ne_zero {b : Board} {ts : List Nat} (hinv : FleetInv b ts) {t : Nat}
    (ht : t ∈ ts) : t ≠ 0 := by
  obtain ⟨L, x0, y0, vert, htL, -⟩ := hinv.2 t ht
  exact (fleet_tag htL).2.1

/-- What `OpponentShot` reports on a board with the fleet invariant: the type of the ship
on the cell when the shot leaves every cell of that ship hit, and `0` otherwise. -/
theorem OpponentShot_report {b : Board} {ts : List Nat} (hinv : FleetInv b ts) (p q : Fin 10) :
    ∃ hit : Bool, OpponentShot b (p.val : Int) (q.val : Int) =
      some (b.mark p q opponentHit, hit,
        if b.cells p q &&& shipMask ≠ 0 ∧
          (b.mark p q opponentHit).allHit (b.cells p q &&& shipMask)
        then b.cells p q &&& shipMask else 0) := by
  have hinv1 : FleetInv (b.mark p q opponentHit) ts :=
    hinv.of_tag_eq (Board.mark_tag b p q opponentHit (by decide))
  obtain ⟨v, hv, hiff⟩ := IsSunk_of_fleet hinv1 p q
  have htag1 : (b.mark p q opponentHit).cells p q &&& shipMask = b.cells p q &&& shipMask :=
    Board.mark_tag b p q opponentHit (by decide) p q
  rw [htag1] at hiff
  rw [OpponentShot_coe, hv]
  by_cases htag : b.cells p q &&& shipMask > 0
  · rw [if_pos htag]
    cases v
    · refine ⟨true, ?_⟩
      have hno : ¬ (b.cells p q &&& shipMask ≠ 0 ∧
          (b.mark p q opponentHit).allHit (b.cells p q &&& shipMask)) := by
        intro h
        have := hiff.mpr h
        cases this
      rw [if_neg hno]
    · refine ⟨true, ?_⟩
      have hyes : b.cells p q &&& shipMask ≠ 0 ∧
          (b.mark p q opponentHit).allHit (b.cells p q &&& shipMask) := hiff.mp rfl
      rw [if_pos hyes]
  · rw [if_neg htag]
    refine ⟨false, ?_⟩
    have hno : ¬ (b.cells p q &&& shipMask ≠ 0 ∧
        (b.mark p q opponentHit).allHit (b.cells p q &&& shipMask)) := by
      intro h
      exact htag (Nat.pos_of_ne_zero h.1)
    rw [if_neg hno]

/-- A sequence of shots at distinct cells that have not been hit: the calls return, the
tags stay, the hit cells are the old ones and the cells of the sequence, every type is
reported by one call when the sequence completes its ship and by none otherwise, and
the reports count the ships completed. -/
theorem shootAll_spec {ts : List Nat} (hnd : ts.Nodup) :
    ∀ (cs : List (Int × Int)) (b : Board), FleetInv b ts → cs.Nodup →
      (∀ c ∈ cs, IsValid c.1 c.2 = true) →
      (∀ p q : Fin 10, ((p.val : Int), (q.val : Int)) ∈ cs → b.cells p q &&& opponentHit = 0) →
      ∃ (b1 : Board) (reports : List Nat),
        shootAll b cs = some (b1, reports) ∧ reports.length = cs.length ∧
        (∀ i j : Fin 10, b1.cells i j &&& shipMask = b.cells i j &&& shipMask) ∧
        (∀ i j : Fin 10, b1.cells i j &&& opponentHit ≠ 0 ↔
          (b.cells i j &&& opponentHit ≠ 0 ∨ ((i.val : Int), (j.val : Int)) ∈ cs)) ∧
        (∀ t : Nat, t ≠ 0 →
          reports.count t = if b1.allHit t ∧ ¬ b.allHit t then 1 else 0) ∧
        reports.countP (fun r => decide (r ≠ 0)) + ts.countP (fun t => decide (b.allHit t)) =
          ts.countP (fun t => decide (b1.allHit t)) := by
  intro cs
  induction cs with
  | nil =>
    intro b _ _ _ _
    refine ⟨b, [], rfl, rfl, fun _ _ => rfl, fun i j => by simp, fun t _ => ?_, by simp⟩
    simp
  | cons c rest ih =>
    intro b hinv hcs hvalid hfresh
    rw [List.nodup_cons] at hcs
    obtain ⟨p, q, hp, hq⟩ := exists_fin_of_valid (hvalid c (List.mem_cons_self _ _))
    have hc : c = ((p.val : Int), (q.val : Int)) := Prod.ext hp hq
    subst hc
    obtain ⟨hit, hshot⟩ := OpponentShot_report hinv p q
    obtain ⟨sunk, hsk⟩ : ∃ sunk : Nat, sunk =
        if b.cells p q &&& shipMask ≠ 0 ∧
          (b.mark p q opponentHit).allHit (b.cells p q &&& shipMask)
        then b.cells p q &&& shipMask else 0 := ⟨_, rfl⟩
    rw [← hsk] at hshot
    have htags : ∀ i j : Fin 10,
        (b.mark p q opponentHit).cells i j &&& shipMask = b.cells i j &&& shipMask :=
      Board.mark_tag b p q opponentHit (by decide)
    have hinv1 : FleetInv (b.mark p q opponentHit) ts := hinv.of_tag_eq htags
    have hbits : ∀ i j : Fin 10, (b.mark p q opponentHit).cells i j &&& opponentHit ≠ 0 ↔
        (b.cells i j &&& opponentHit ≠ 0 ∨ (i = p ∧ j = q)) := by
      intro i j
      rw [and_opponentHit_ne_zero, and_opponentHit_ne_zero, Board.mark_testBit]
      have : Nat.testBit opponentHit 2 = true := by decide
      simp [this]
    have hpq : ∀ i j : Fin 10, (((i.val : Int), (j.val : Int)) = ((p.val : Int), (q.val : Int))) ↔
        (i = p ∧ j = q) := by
      intro i j
      simp only [Prod.mk.injEq, Nat.cast_inj]
      exact ⟨fun h => ⟨Fin.ext h.1, Fin.ext h.2⟩, fun h => ⟨by rw [h.1], by rw [h.2]⟩⟩
    obtain ⟨b1, reports, hrun, hlen, htag1, hbit1, hcount1, hsum1⟩ :=
      ih (b.mark p q opponentHit) hinv1 hcs.2
        (fun c hc => hvalid c (List.mem_cons_of_mem _ hc))
        (by
          intro i j hij
          have hne : ¬ (i = p ∧ j = q) := by
            intro h
            exact hcs.1 ((hpq i j).mpr h ▸ hij)
          rw [Board.mark_cells_other _ _ _ _ _ _ hne]
          exact hfresh i j (List.mem_cons_of_mem _ hij))
    -- facts about the ship on the cell
    have hF1 : ¬ b.allHit (b.cells p q &&& shipMask) := fun h =>
      h p q rfl (hfresh p q (List.mem_cons_self _ _))
    have hF2 : ∀ t : Nat, t ≠ b.cells p q &&& shipMask →
        ((b.mark p q opponentHit).allHit t ↔ b.allHit t) := by
      intro t hne
      constructor
      · intro hall i j hij
        have hcell : ¬ (i = p ∧ j = q) := by
          rintro ⟨rfl, rfl⟩
          exact hne hij.symm
        have := hall i j (by rw [htags]; exact hij)
        rwa [Board.mark_cells_other _ _ _ _ _ _ hcell] at this
      · intro hall i j hij
        rw [htags] at hij
        exact (hbits i j).mpr (Or.inl (hall i j hij))
    have hF3 : ∀ t : Nat, (b.mark p q opponentHit).allHit t → b1.allHit t := by
      intro t hall i j hij
      rw [htag1] at hij
      exact (hbit1 i j).mpr (Or.inl (hall i j hij))
    refine ⟨b1, sunk :: reports, ?_, ?_, ?_, ?_, ?_, ?_⟩
    · simp only [shootAll, hshot, hrun]
    · simp [hlen]
    · intro i j; rw [htag1, htags]
    · intro i j
      rw [hbit1, hbits, List.mem_cons, hpq]
      tauto
    · intro t ht
      rw [List.count_cons, hcount1 t ht, hsk]
      by_cases hsunk : b.cells p q &&& shipMask ≠ 0 ∧
          (b.mark p q opponentHit).allHit (b.cells p q &&& shipMask)
      · rw [if_pos hsunk]
        by_cases htt : b.cells p q &&& shipMask = t
        · subst htt
          have h1 : b1.allHit (b.cells p q &&& shipMask) := hF3 _ hsunk.2
          simp [hsunk.2, h1, hF1]
        · have := hF2 t (fun e => htt e.symm)
          simp [htt, this]
      · rw [if_neg hsunk]
        have h0 : ¬ ((0 : Nat) = t) := fun e => ht e.symm
        by_cases htt : t = b.cells p q &&& shipMask
        · have hnot : ¬ (b.mark p q opponentHit).allHit t := by
            intro h
            exact hsunk ⟨htt ▸ ht, htt ▸ h⟩
          have hnot2 : ¬ b.allHit t := htt ▸ hF1
          simp [h0, hnot, hnot2]
        · have := hF2 t htt
          simp [h0, this]
    · rw [List.countP_cons, hsk]
      by_cases hsunk : b.cells p q &&& shipMask ≠ 0 ∧
          (b.mark p q opponentHit).allHit (b.cells p q &&& shipMask)
      · rw [if_pos hsunk]
        have hmem : b.cells p q &&& shipMask ∈ ts := by
          rcases hinv.1 p q with h | h
          · exact absurd h hsunk.1
          · exact h
        have hstep := countP_succ_of (fun t => decide (b.allHit t))
          (fun t => decide ((b.mark p q opponentHit).allHit t)) (b.cells p q &&& shipMask) ts hnd
          hmem (by simpa using hsunk.2) (by simpa using hF1)
          (fun t _ hne => by rw [decide_eq_decide]; exact hF2 t hne)
        have hd : decide (b.cells p q &&& shipMask ≠ 0) = true := decide_eq_true hsunk.1
        simp only [hd, if_true]
        omega
      · rw [if_neg hsunk]
        have hsame : ts.countP (fun t => decide ((b.mark p q opponentHit).allHit t)) =
            ts.countP (fun t => decide (b.allHit t)) := by
          apply List.countP_congr
          intro t ht
          simp only [decide_eq_true_eq]
          by_cases htt : t = b.cells p q &&& shipMask
          · have hnot : ¬ (b.mark p q opponentHit).allHit t := by
              intro h
              exact hsunk ⟨htt ▸ hinv.tag_ne_zero ht, htt ▸ h⟩
            have hnot2 : ¬ b.allHit t := htt ▸ hF1
            exact ⟨fun h => absurd h hnot, fun h => absurd h hnot2⟩
          · exact hF2 t htt
        have hd : decide ((0 : Nat) ≠ 0) = false := by decide
        simp only [hd, Bool.false_eq_true, if_false]
        omega

/-- C24. No double counting of sinkings.  On every board obtained by PlaceShip calls with
pairwise distinct types, every sequence of OpponentShot calls at pairwise distinct cells
of the grid returns, every ship type is reported as sunk by at most one call, a type is
reported exactly when it is a placed type all of whose cells occur in the sequence, and
the number of calls reporting a non-zero sunk type is the number of placed ships all of
whose cells occur in the sequence; so a sequence through all the cells of a board with
five ships reports exactly 5 sinkings. -/
theorem sinkings_reported_once (b0 : Board) (ts : List Nat) (cells : List (Int × Int))
    (hplaced : Placed b0 ts) (hdistinct : cells.Nodup)
    (hvalid : ∀ c ∈ cells, IsValid c.1 c.2 = true) :
    ∃ (b1 : Board) (reports : List Nat),
      shootAll b0 cells = some (b1, reports) ∧ reports.length = cells.length ∧
      (∀ t : Nat, t ≠ 0 → reports.count t ≤ 1) ∧
      (∀ t : Nat, t ≠ 0 → (t ∈ reports ↔ t ∈ ts ∧ b0.covered cells t)) ∧
      reports.countP (fun r => decide (r ≠ 0)) =
        ts.countP (fun t => decide (b0.covered cells t)) ∧
      (ts.length = 5 → (∀ p q : Fin 10, ((p.val : Int), (q.val : Int)) ∈ cells) →
        reports.countP (fun r => decide (r ≠ 0)) = 5) := by
  have hinv := hplaced.fleetInv
  obtain ⟨b1, reports, hrun, hlen, htag, hbit, hcount, hsum⟩ :=
    shootAll_spec hplaced.nodup cells b0 hinv hdistinct hvalid
      (fun p q _ => hplaced.no_flags p q)
  have hcov : ∀ t : Nat, b1.allHit t ↔ b0.covered cells t := by
    intro t
    constructor
    · intro hall p q hpq
      have := (hbit p q).mp (hall p q (by rw [htag]; exact hpq))
      rcases this with h | h
      · exact absurd (hplaced.no_flags p q) h
      · exact h
    · intro hc p q hpq
      rw [htag] at hpq
      exact (hbit p q).mpr (Or.inr (hc p q hpq))
  have hfresh : ∀ t : Nat, t ≠ 0 → (¬ b0.allHit t ↔ t ∈ ts) := by
    intro t ht
    constructor
    · intro hno
      by_contra hmem
      apply hno
      intro p q hpq
      rcases hinv.1 p q with h | h
      · exact absurd (hpq ▸ h) ht
      · exact absurd (hpq ▸ h) hmem
    · intro hmem hall
      obtain ⟨p, q, hpq⟩ := hinv.exists_cell hmem
      exact hall p q hpq (hplaced.no_flags p q)
  have hzero : ts.countP (fun t => decide (b0.allHit t)) = 0 := by
    rw [List.countP_eq_zero]
    intro t ht
    simp only [decide_eq_true_eq]
    exact (hfresh t (hinv.tag_ne_zero ht)).mpr ht
  have hnumber : reports.countP (fun r => decide (r ≠ 0)) =
      ts.countP (fun t => decide (b0.covered cells t)) := by
    rw [hzero, Nat.add_zero] at hsum
    rw [hsum]
    apply List.countP_congr
    intro t _
    simp only [decide_eq_true_eq]
    exact hcov t
  refine ⟨b1, reports, hrun, hlen, ?_, ?_, hnumber, ?_⟩
  · intro t ht
    rw [hcount t ht]
    split_ifs <;> omega
  · intro t ht
    rw [← List.count_pos_iff, hcount t ht, ← hcov t, ← hfresh t ht]
    split_ifs with h
    · simp only [Nat.lt_one_iff, pos_of_gt, true_iff]
      exact ⟨h.2, h.1⟩
    · simp only [Nat.lt_irrefl, false_iff]
      exact fun h2 => h ⟨h2.2, h2.1⟩
  · intro h5 hall
    rw [hnumber, ← h5, List.countP_eq_length]
    intro t _
    simp only [decide_eq_true_eq]
    intro p q _
    exact hall p q

theorem sinkings_reported_once_witness :
    ∃ (b1 : Board) (reports : List Nat),
      shootAll demoFleet [(0, 0), (1, 0)] = some (b1, reports) ∧
      reports.length = [((0 : Int), (0 : Int)), (1, 0)].length ∧
      (∀ t : Nat, t ≠ 0 → reports.count t ≤ 1) ∧
      (∀ t : Nat, t ≠ 0 →
        (t ∈ reports ↔ t ∈ [shipPatrolBoat] ∧ demoFleet.covered [(0, 0), (1, 0)] t)) ∧
      reports.countP (fun r => decide (r ≠ 0)) =
        [shipPatrolBoat].countP (fun t => decide (demoFleet.covered [(0, 0), (1, 0)] t)) ∧
      ([shipPatrolBoat].length = 5 →
        (∀ p q : Fin 10, ((p.val : Int), (q.val : Int)) ∈ [((0 : Int), (0 : Int)), (1, 0)]) →
        reports.countP (fun r => decide (r ≠ 0)) = 5) :=
  sinkings_reported_once demoFleet [shipPatrolBoat] [(0, 0), (1, 0)] demoFleet_placed
    (by decide) (by decide)

end Battleship
